import Mathlib

/-!
# The 012v decoder (`libavcodec/012v.c`)

A shallow embedding of `zero12v_decode_frame` and of the helpers it relies on,
followed by the properties of the decoder that are proved about it.

Conventions of the embedding.

* C `int` values are integers (`Int`).  The two `int` expressions whose value
  decides which packets are accepted, `avctx->width * 8 / 3` (line 52) and
  `avctx->height * stride` (line 61), are evaluated with wrap-around modulo
  `2^32` (`wrapInt32`) and truncating division (`cdiv`).  C leaves signed
  overflow undefined; theorems that speak about the mathematical stride
  `floor(width*8/3)` therefore carry the hypothesis that these products stay
  inside the `int` range (`width * 8 ≤ 2147483647`, and
  `height * stride ≤ 2147483647`, which a packet of at least that many bytes
  implies because `avpkt->size` is an `int`).  The other `int` expressions
  (`x += 6`, `width - x`, `line * linesize`) are evaluated exactly.
* The packet is a list of bytes; `avpkt->size` is its length.
* Every plane of the picture is a byte-addressed memory (`Mem`), addressed
  relative to `pic->data[i]`; a 16-bit sample occupies two bytes in host byte
  order (`be = true` on a big-endian host).
* The three scratch arrays are lists of 16-bit values; the output cursors
  `y`, `u`, `v` are either an offset into a plane or an index into a scratch
  array (`Ptr`).
* `none` stands for behaviour that C leaves undefined (a read outside the
  packet, `memcpy` reading past a scratch array) and for a loop that runs out
  of fuel; the theorems show that neither happens on accepted input.
* Three ghost components record what the call did: `reads`, the packet offsets
  of the words fetched with `AV_RL32` (tagged with the row), `calls`, the
  calls made to the buffer pool, and `log`, the messages given to `av_log`.
-/

namespace Zero12v

/-! ## Machine arithmetic -/

/-- Largest value of a C `int` (32 bits). -/
def INT_MAX : Int := 2147483647

/-- Result of a C `int` operation whose mathematical value is `n`, with
two's-complement wrap-around modulo `2^32`. -/
def wrapInt32 (n : Int) : Int := (n + 2147483648) % 4294967296 - 2147483648

/-- C integer division, which truncates toward zero. -/
def cdiv (a b : Int) : Int := Int.tdiv a b

/-! ## Packet access and bit fields -/

/-- Byte `i` of the packet, as a `uint8_t` (zero past the end; reads past the end
are excluded by `AV_RL32`). -/
def byteAt (pkt : List Nat) (i : Nat) : Nat := pkt.getD i 0 % 256

/-- The little-endian 32-bit word made of the four bytes at offset `i`. -/
def rl32 (pkt : List Nat) (i : Nat) : Nat :=
  byteAt pkt i + 256 * byteAt pkt (i + 1) + 65536 * byteAt pkt (i + 2)
    + 16777216 * byteAt pkt (i + 3)

/-- Modelled from the spec: the macro `AV_RL32` of `libavutil/intreadwrite.h`, which
is not among the sources, reads a 4-byte little-endian word.  The read is
undefined (`none`) unless the four bytes lie inside the packet. -/
def AV_RL32 (pkt : List Nat) (src : Int) : Option Nat :=
  if 0 ≤ src ∧ src + 4 ≤ (pkt.length : Int) then some (rl32 pkt src.toNat) else none

/-- The expression `t << 6 & 0xFFC0` on a `uint32_t`. -/
def field_a (t : Nat) : Nat := ((t <<< 6) % 4294967296) &&& 0xFFC0

/-- The expression `t >> 4 & 0xFFC0` on a `uint32_t`. -/
def field_b (t : Nat) : Nat := (t >>> 4) &&& 0xFFC0

/-- The expression `t >> 14 & 0xFFC0` on a `uint32_t`. -/
def field_c (t : Nat) : Nat := (t >>> 14) &&& 0xFFC0

/-! ## Plane memory -/

/-- Byte-addressed memory of one plane, relative to `pic->data[i]`. -/
abbrev Mem := Int → Nat

/-- Store of a `uint16_t` at byte address `a`, in host byte order. -/
def store16 (be : Bool) (m : Mem) (a : Int) (v : Nat) : Mem :=
  fun i =>
    if i = a then (if be then v / 256 % 256 else v % 256)
    else if i = a + 1 then (if be then v % 256 else v / 256 % 256)
    else m i

/-- Load of a `uint16_t` from byte address `a`, in host byte order. -/
def load16 (be : Bool) (m : Mem) (a : Int) : Nat :=
  if be then 256 * (m a % 256) + m (a + 1) % 256
  else m a % 256 + 256 * (m (a + 1) % 256)

/-- Byte `j` of the object representation of a `uint16_t` array. -/
def tempByte (be : Bool) (temp : List Nat) (j : Nat) : Nat :=
  if (j % 2 == 0) != be then temp.getD (j / 2) 0 % 256
  else temp.getD (j / 2) 0 / 256 % 256

/-- The call `memcpy(dst, temp, n)` from a scratch array into a plane: undefined
when `n` bytes reach past the end of the array. -/
def memcpy (be : Bool) (m : Mem) (dst : Int) (temp : List Nat) (n : Int) : Option Mem :=
  if n ≤ 2 * (temp.length : Int) then
    some (fun i => if dst ≤ i ∧ i < dst + n then tempByte be temp (i - dst).toNat else m i)
  else none

/-! ## One row -/

/-- An output cursor: a byte offset into its plane, or an index into its
scratch array. -/
inductive Ptr where
  | plane (off : Int)
  | temp (idx : Nat)
  deriving DecidableEq, Repr

/-- State of the decoder inside one row. -/
structure RowState where
  data0 : Mem
  data1 : Mem
  data2 : Mem
  y_temp : List Nat
  u_temp : List Nat
  v_temp : List Nat
  y : Ptr
  u : Ptr
  v : Ptr
  src : Int
  reads : List Int

/-- The statement `*y++ = val`. -/
def put_y (be : Bool) (s : RowState) (val : Nat) : RowState :=
  match s.y with
  | .plane off => { s with data0 := store16 be s.data0 off val, y := .plane (off + 2) }
  | .temp i => { s with y_temp := s.y_temp.set i val, y := .temp (i + 1) }

/-- The statement `*u++ = val`. -/
def put_u (be : Bool) (s : RowState) (val : Nat) : RowState :=
  match s.u with
  | .plane off => { s with data1 := store16 be s.data1 off val, u := .plane (off + 2) }
  | .temp i => { s with u_temp := s.u_temp.set i val, u := .temp (i + 1) }

/-- The statement `*v++ = val`. -/
def put_v (be : Bool) (s : RowState) (val : Nat) : RowState :=
  match s.v with
  | .plane off => { s with data2 := store16 be s.data2 off val, v := .plane (off + 2) }
  | .temp i => { s with v_temp := s.v_temp.set i val, v := .temp (i + 1) }

/-- The statements `t = AV_RL32(src); src += 4;`. -/
def readWord (pkt : List Nat) (s : RowState) : Option (Nat × RowState) :=
  match AV_RL32 pkt s.src with
  | none => none
  | some t => some (t, { s with src := s.src + 4, reads := s.reads ++ [s.src] })

/-- Lines 95-97: the first word of a hextet goes to U, Y, V. -/
def word1 (be : Bool) (t : Nat) (s : RowState) : RowState :=
  put_v be (put_y be (put_u be s (field_a t)) (field_b t)) (field_c t)

/-- Lines 104-106: the second word goes to Y, U, Y. -/
def word2 (be : Bool) (t : Nat) (s : RowState) : RowState :=
  put_y be (put_u be (put_y be s (field_a t)) (field_b t)) (field_c t)

/-- Lines 113-115: the third word goes to V, Y, U. -/
def word3 (be : Bool) (t : Nat) (s : RowState) : RowState :=
  put_u be (put_y be (put_v be s (field_a t)) (field_b t)) (field_c t)

/-- Lines 122-124: the fourth word goes to Y, V, Y. -/
def word4 (be : Bool) (t : Nat) (s : RowState) : RowState :=
  put_y be (put_v be (put_y be s (field_a t)) (field_b t)) (field_c t)

/-- Lines 84-88: the cursors are redirected to the scratch arrays. -/
def redirect (width line_end x : Int) (s : RowState) : RowState :=
  if width - x < 6 ∨ line_end - s.src < 16 then
    { s with y := .temp 0, u := .temp 0, v := .temp 0 }
  else s

/-- The body of the loop over `x` (lines 82-127).  The Boolean tells whether the
body left the loop through a `break`. -/
def hextet (be : Bool) (pkt : List Nat) (width line_end x : Int) (s0 : RowState) :
    Option (RowState × Bool) :=
  let s := redirect width line_end x s0
  if line_end - s.src < 4 then some (s, true) else
  match readWord pkt s with
  | none => none
  | some (t, s) =>
  let s := word1 be t s
  if line_end - s.src < 4 then some (s, true) else
  match readWord pkt s with
  | none => none
  | some (t, s) =>
  let s := word2 be t s
  if line_end - s.src < 4 then some (s, true) else
  match readWord pkt s with
  | none => none
  | some (t, s) =>
  let s := word3 be t s
  if line_end - s.src < 4 then some (s, true) else
  match readWord pkt s with
  | none => none
  | some (t, s) =>
  let s := word4 be t s
  some (s, decide (width - x < 6))

/-- The loop `for (x = 0; x < width; x += 6)` of line 81, started at `x`; the
result is the value of `x` and the state when the loop is left. -/
def xLoop (be : Bool) (pkt : List Nat) (width line_end : Int) :
    Nat → Int → RowState → Option (Int × RowState)
  | fuel, x, s =>
    if x < width then
      match fuel with
      | 0 => none
      | fuel + 1 =>
        match hextet be pkt width line_end x s with
        | none => none
        | some (s1, true) => some (x, s1)
        | some (s1, false) => xLoop be pkt width line_end fuel (x + 6) s1
    else some (x, s)

/-- State of the decoder between two rows. -/
structure FrameState where
  data0 : Mem
  data1 : Mem
  data2 : Mem
  src : Int
  line_end : Int
  reads : List (Int × Int)

/-- The state in which the loop over `x` starts in row `line` (lines 73-79). -/
def rowInit (ls0 ls1 ls2 : Int) (fs : FrameState) (line : Int) : RowState :=
  { data0 := fs.data0, data1 := fs.data1, data2 := fs.data2
    y_temp := [0x8000, 0x8000, 0x8000, 0x8000, 0x8000, 0x8000]
    u_temp := [0x8000, 0x8000, 0x8000]
    v_temp := [0x8000, 0x8000, 0x8000]
    y := .plane (line * ls0), u := .plane (line * ls1), v := .plane (line * ls2)
    src := fs.src, reads := [] }

/-- Lines 130-137: the scratch arrays are copied back when the loop stopped
before `width`.  `sizeof(*y)` is 2; the byte counts are `size_t` expressions. -/
def copyBack (be : Bool) (width : Int) (ls0 ls1 ls2 : Int) (line x : Int) (s : RowState) :
    Option (Mem × Mem × Mem) :=
  if x < width then
    match memcpy be s.data0 (line * ls0 + 2 * x) s.y_temp (2 * (width - x)),
          memcpy be s.data1 (line * ls1 + 2 * cdiv x 2) s.u_temp (2 * (width - x + 1) / 2),
          memcpy be s.data2 (line * ls2 + 2 * cdiv x 2) s.v_temp (2 * (width - x + 1) / 2) with
    | some d0, some d1, some d2 => some (d0, d1, d2)
    | _, _, _ => none
  else some (s.data0, s.data1, s.data2)

/-- The body of the loop over the rows (lines 73-140). -/
def decodeLine (be : Bool) (pkt : List Nat) (width stride : Int) (ls0 ls1 ls2 : Int)
    (fs : FrameState) (line : Int) : Option FrameState :=
  match xLoop be pkt width fs.line_end width.toNat 0 (rowInit ls0 ls1 ls2 fs line) with
  | none => none
  | some (x, s) =>
    match copyBack be width ls0 ls1 ls2 line x s with
    | none => none
    | some (d0, d1, d2) =>
      some { data0 := d0, data1 := d1, data2 := d2
             line_end := fs.line_end + stride
             src := fs.line_end + stride - stride
             reads := fs.reads ++ s.reads.map (fun o => (line, o)) }

/-- The loop `for (line = 0; line < avctx->height; line++)` of line 72, started
at `line`. -/
def lineLoop (be : Bool) (pkt : List Nat) (width height stride : Int) (ls0 ls1 ls2 : Int) :
    Nat → Int → FrameState → Option FrameState
  | fuel, line, fs =>
    if line < height then
      match fuel with
      | 0 => none
      | fuel + 1 =>
        match decodeLine be pkt width stride ls0 ls1 ls2 fs line with
        | none => none
        | some fs1 => lineLoop be pkt width height stride ls0 ls1 ls2 fuel (line + 1) fs1
    else some fs

/-! ## The decode call -/

/-- The picture `pic`: three planes and the distance in bytes between their rows. -/
structure Picture where
  data0 : Mem
  data1 : Mem
  data2 : Mem
  linesize0 : Int
  linesize1 : Int
  linesize2 : Int

/-- A call to the buffer pool. -/
inductive PoolCall where
  | release_buffer
  | get_buffer
  deriving DecidableEq, Repr

/-- A message passed to `av_log`. -/
inductive LogMsg where
  /-- The message of line 58, "Dimensions %dx%d not supported." -/
  | dimensions_not_supported (width height : Int)
  /-- The message of line 62, "Packet too small: %d instead of %d". -/
  | packet_too_small (size needed : Int)
  deriving DecidableEq, Repr

/-- What one call of `zero12v_decode_frame` did. -/
structure Outcome where
  /-- The value returned. -/
  ret : Int
  /-- The value stored through `got_frame`, if the call stored one. -/
  got_frame : Option Int
  /-- The frame stored through `data`, if the call stored one. -/
  frame : Option Picture
  /-- Whether `pic->data[0]` is set when the call returns. -/
  has_buffer : Bool
  /-- The calls made to the buffer pool, in order. -/
  calls : List PoolCall
  /-- The words read from the packet, as pairs of row and byte offset, in order. -/
  reads : List (Int × Int)
  /-- The messages logged, in order. -/
  log : List LogMsg

/-- The stride of line 52, `avctx->width * 8 / 3` in `int` arithmetic. -/
def strideOf (width : Int) : Int := cdiv (wrapInt32 (width * 8)) 3

/-- The function `zero12v_decode_frame` (lines 44-147).

* `be`: the host is big-endian;
* `AVERROR_INVALIDDATA`: the error code of that name, a constant of `libavutil`;
* `has_buffer`: `pic->data[0]` is set on entry; `release_buffer` clears it;
* `ff_get_buffer`: what the allocator answers if it is called, its return value
  and the picture it supplies; after a failed allocation `pic->data[0]` is not set.

The store `pic->reference = 0` of line 67 touches no component of the model. -/
def zero12v_decode_frame (be : Bool) (AVERROR_INVALIDDATA : Int) (width height : Int)
    (has_buffer : Bool) (pkt : List Nat) (ff_get_buffer : Int × Picture) : Option Outcome :=
  let stride := strideOf width
  let released : List PoolCall := if has_buffer then [PoolCall.release_buffer] else []
  if width ≤ 1 ∨ height ≤ 0 then
    some { ret := AVERROR_INVALIDDATA, got_frame := none, frame := none, has_buffer := false
           calls := released, reads := []
           log := [LogMsg.dimensions_not_supported width height] }
  else if (pkt.length : Int) < wrapInt32 (height * stride) then
    some { ret := AVERROR_INVALIDDATA, got_frame := none, frame := none, has_buffer := false
           calls := released, reads := []
           log := [LogMsg.packet_too_small (pkt.length : Int) (wrapInt32 (height * stride))] }
  else if ff_get_buffer.1 < 0 then
    some { ret := ff_get_buffer.1, got_frame := none, frame := none, has_buffer := false
           calls := released ++ [PoolCall.get_buffer], reads := [], log := [] }
  else
    let pic := ff_get_buffer.2
    match lineLoop be pkt width height stride pic.linesize0 pic.linesize1 pic.linesize2
        height.toNat 0
        { data0 := pic.data0, data1 := pic.data1, data2 := pic.data2
          src := 0, line_end := stride, reads := [] } with
    | none => none
    | some fs =>
      some { ret := (pkt.length : Int), got_frame := some 1
             frame := some { pic with data0 := fs.data0, data1 := fs.data1, data2 := fs.data2 }
             has_buffer := true
             calls := released ++ [PoolCall.get_buffer], reads := fs.reads, log := [] }

/-! ## Reading the result -/

/-- Sample `col` of row `line` of the Y plane of a picture. -/
def sampleY (be : Bool) (p : Picture) (line col : Nat) : Nat :=
  load16 be p.data0 ((line : Int) * p.linesize0 + 2 * (col : Int))

/-- Sample `i` of row `line` of the U plane of a picture. -/
def sampleU (be : Bool) (p : Picture) (line i : Nat) : Nat :=
  load16 be p.data1 ((line : Int) * p.linesize1 + 2 * (i : Int))

/-- Sample `i` of row `line` of the V plane of a picture. -/
def sampleV (be : Bool) (p : Picture) (line i : Nat) : Nat :=
  load16 be p.data2 ((line : Int) * p.linesize2 + 2 * (i : Int))

/-! ## Auxiliary definitions used in the statements and proofs -/

/-- The word that `AV_RL32` yields at packet offset `o`. -/
def wordAt (pkt : List Nat) (o : Int) : Nat := rl32 pkt o.toNat

/-- The packet offsets of `n` consecutive words starting at `base`. -/
def wordOffsets (base : Int) (n : Nat) : List Int :=
  (List.range n).map (fun (i : Nat) => base + 4 * (i : Int))

/-- Consecutive `uint16_t` stores starting at byte address `a`. -/
def storeList (be : Bool) : Mem → Int → List Nat → Mem
  | m, _, [] => m
  | m, a, v :: vs => storeList be (store16 be m a v) (a + 2) vs

/-- The six Y samples that a complete hextet at packet offset `o` produces, in
the order in which they are stored. -/
def hexY (pkt : List Nat) (o : Int) : List Nat :=
  [field_b (wordAt pkt o), field_a (wordAt pkt (o + 4)), field_c (wordAt pkt (o + 4)),
   field_b (wordAt pkt (o + 4 + 4)), field_a (wordAt pkt (o + 4 + 4 + 4)),
   field_c (wordAt pkt (o + 4 + 4 + 4))]

/-- The three U samples that a complete hextet at packet offset `o` produces. -/
def hexU (pkt : List Nat) (o : Int) : List Nat :=
  [field_a (wordAt pkt o), field_b (wordAt pkt (o + 4)), field_c (wordAt pkt (o + 4 + 4))]

/-- The three V samples that a complete hextet at packet offset `o` produces. -/
def hexV (pkt : List Nat) (o : Int) : List Nat :=
  [field_c (wordAt pkt o), field_a (wordAt pkt (o + 4 + 4)),
   field_b (wordAt pkt (o + 4 + 4 + 4))]

/-- The loop body on a hextet that is neither redirected nor cut short: the four
reads and twelve stores of lines 93-124. -/
def fullHextet (be : Bool) (pkt : List Nat) (s : RowState) : RowState :=
  let s := word1 be (wordAt pkt s.src) { s with src := s.src + 4, reads := s.reads ++ [s.src] }
  let s := word2 be (wordAt pkt s.src) { s with src := s.src + 4, reads := s.reads ++ [s.src] }
  let s := word3 be (wordAt pkt s.src) { s with src := s.src + 4, reads := s.reads ++ [s.src] }
  word4 be (wordAt pkt s.src) { s with src := s.src + 4, reads := s.reads ++ [s.src] }

/-- The statement `src += 4` after a read, with the read recorded. -/
def advance (s : RowState) : RowState :=
  { s with src := s.src + 4, reads := s.reads ++ [s.src] }

/-- The cursors set to the start of the scratch arrays. -/
def toTemp (s : RowState) : RowState :=
  { s with y := .temp 0, u := .temp 0, v := .temp 0 }

/-- The loop body on a redirected hextet of which only the first `nw` words
(at most three) are read before a guard leaves the loop. -/
def tailState (be : Bool) (pkt : List Nat) (nw : Nat) (s : RowState) : RowState :=
  match nw with
  | 0 => toTemp s
  | 1 => word1 be (wordAt pkt s.src) (advance (toTemp s))
  | 2 =>
    let s1 := word1 be (wordAt pkt s.src) (advance (toTemp s))
    word2 be (wordAt pkt s1.src) (advance s1)
  | _ =>
    let s1 := word1 be (wordAt pkt s.src) (advance (toTemp s))
    let s2 := word2 be (wordAt pkt s1.src) (advance s1)
    word3 be (wordAt pkt s2.src) (advance s2)

/-- Word of a hextet (0 to 3) that carries the Y sample at position `p` (0 to 5):
words 1, 2, 2, 3, 4, 4. -/
def yWord (p : Nat) : Nat := [0, 1, 1, 2, 3, 3].getD p 0

/-- Field of that word which is the Y sample at position `p`. -/
def yField (p : Nat) (t : Nat) : Nat :=
  match p with
  | 0 => field_b t
  | 1 => field_a t
  | 2 => field_c t
  | 3 => field_b t
  | 4 => field_a t
  | _ => field_c t

/-- Word of a hextet that carries the U sample at position `p` (0 to 2): words 1, 2, 3. -/
def uWord (p : Nat) : Nat := [0, 1, 2].getD p 0

/-- Field of that word which is the U sample at position `p`. -/
def uField (p : Nat) (t : Nat) : Nat :=
  match p with
  | 0 => field_a t
  | 1 => field_b t
  | _ => field_c t

/-- Word of a hextet that carries the V sample at position `p` (0 to 2): words 1, 3, 4. -/
def vWord (p : Nat) : Nat := [0, 2, 3].getD p 0

/-- Field of that word which is the V sample at position `p`. -/
def vField (p : Nat) (t : Nat) : Nat :=
  match p with
  | 0 => field_c t
  | 1 => field_a t
  | _ => field_b t

/-- The Y sample of column `c` of a row whose slice of `stride` bytes starts at
packet offset `base`: the field of its word when the whole word lies inside the
slice, the neutral value otherwise. -/
def expectedY (stride : Int) (pkt : List Nat) (base : Int) (c : Nat) : Nat :=
  if 16 * ((c / 6 : Nat) : Int) + 4 * ((yWord (c % 6) : Nat) : Int) + 4 ≤ stride then
    yField (c % 6) (wordAt pkt (base + 16 * ((c / 6 : Nat) : Int) + 4 * ((yWord (c % 6) : Nat) : Int)))
  else 0x8000

/-- The U sample of index `i` of such a row. -/
def expectedU (stride : Int) (pkt : List Nat) (base : Int) (i : Nat) : Nat :=
  if 16 * ((i / 3 : Nat) : Int) + 4 * ((uWord (i % 3) : Nat) : Int) + 4 ≤ stride then
    uField (i % 3) (wordAt pkt (base + 16 * ((i / 3 : Nat) : Int) + 4 * ((uWord (i % 3) : Nat) : Int)))
  else 0x8000

/-- The V sample of index `i` of such a row. -/
def expectedV (stride : Int) (pkt : List Nat) (base : Int) (i : Nat) : Nat :=
  if 16 * ((i / 3 : Nat) : Int) + 4 * ((vWord (i % 3) : Nat) : Int) + 4 ≤ stride then
    vField (i % 3) (wordAt pkt (base + 16 * ((i / 3 : Nat) : Int) + 4 * ((vWord (i % 3) : Nat) : Int)))
  else 0x8000

/-- What the body of the loop over the rows computes for one row. -/
structure RowPost (be : Bool) (pkt : List Nat) (width stride : Int) (ls0 ls1 ls2 : Int)
    (fs : FrameState) (line : Int) (fs1 : FrameState) : Prop where
  src_eq : fs1.src = fs.src + stride
  line_end_eq : fs1.line_end = fs.line_end + stride
  reads_eq : fs1.reads
    = fs.reads ++ (wordOffsets fs.src (stride / 4).toNat).map (fun o => (line, o))
  y_sample : ∀ c : Nat, (c : Int) < width →
    load16 be fs1.data0 (line * ls0 + 2 * (c : Int)) = expectedY stride pkt fs.src c
  y_frame : ∀ a : Int, a < line * ls0 ∨ line * ls0 + 2 * width ≤ a → fs1.data0 a = fs.data0 a
  u_sample : ∀ i : Nat, (i : Int) < (width + 1) / 2 →
    load16 be fs1.data1 (line * ls1 + 2 * (i : Int)) = expectedU stride pkt fs.src i
  u_frame : ∀ a : Int, a < line * ls1 ∨ line * ls1 + 2 * ((width + 1) / 2) + 1 ≤ a →
    fs1.data1 a = fs.data1 a
  v_sample : ∀ i : Nat, (i : Int) < (width + 1) / 2 →
    load16 be fs1.data2 (line * ls2 + 2 * (i : Int)) = expectedV stride pkt fs.src i
  v_frame : ∀ a : Int, a < line * ls2 ∨ line * ls2 + 2 * ((width + 1) / 2) + 1 ≤ a →
    fs1.data2 a = fs.data2 a

/-- The words read in row `line`: `stride / 4` consecutive words from the start
of the row's slice. -/
def rowReads (stride line : Int) : List (Int × Int) :=
  (wordOffsets (line * stride) (stride / 4).toNat).map (fun o => (line, o))

/-- The words read in the `n` rows from `line` on. -/
def frameReads (stride : Int) : Int → Nat → List (Int × Int)
  | _, 0 => []
  | line, n + 1 => rowReads stride line ++ frameReads stride (line + 1) n

/-- What the loop over the rows computes when started at row `line`. -/
structure FramePost (be : Bool) (pkt : List Nat) (width height stride : Int) (ls0 ls1 ls2 : Int)
    (fs : FrameState) (line : Int) (n : Nat) (fs1 : FrameState) : Prop where
  reads_eq : fs1.reads = fs.reads ++ frameReads stride line n
  y_sample : ∀ l : Int, line ≤ l → l < height → ∀ c : Nat, (c : Int) < width →
    load16 be fs1.data0 (l * ls0 + 2 * (c : Int)) = expectedY stride pkt (l * stride) c
  y_frame : ∀ a : Int,
    (∀ l : Int, line ≤ l → l < height → a < l * ls0 ∨ l * ls0 + 2 * width ≤ a) →
    fs1.data0 a = fs.data0 a
  u_sample : ∀ l : Int, line ≤ l → l < height → ∀ i : Nat, (i : Int) < (width + 1) / 2 →
    load16 be fs1.data1 (l * ls1 + 2 * (i : Int)) = expectedU stride pkt (l * stride) i
  u_frame : ∀ a : Int,
    (∀ l : Int, line ≤ l → l < height →
      a < l * ls1 ∨ l * ls1 + 2 * ((width + 1) / 2) + 1 ≤ a) →
    fs1.data1 a = fs.data1 a
  v_sample : ∀ l : Int, line ≤ l → l < height → ∀ i : Nat, (i : Int) < (width + 1) / 2 →
    load16 be fs1.data2 (l * ls2 + 2 * (i : Int)) = expectedV stride pkt (l * stride) i
  v_frame : ∀ a : Int,
    (∀ l : Int, line ≤ l → l < height →
      a < l * ls2 ∨ l * ls2 + 2 * ((width + 1) / 2) + 1 ≤ a) →
    fs1.data2 a = fs.data2 a

/-- A picture whose planes hold the byte `fill` everywhere, with the given line sizes. -/
def filledPicture (fill : Nat) (ls0 ls1 ls2 : Int) : Picture :=
  { data0 := fun _ => fill, data1 := fun _ => fill, data2 := fun _ => fill
    linesize0 := ls0, linesize1 := ls1, linesize2 := ls2 }

/-- The bytes `start, start + step, start + 2 step, ...` (modulo 256), `n` of them. -/
def rampPacket (n start step : Nat) : List Nat :=
  (List.range n).map (fun i => (start + step * i) % 256)

/-- The packet of the scenario `width = 6`, `height = 1`: the fields
`(U0, Y0, V0) = (1, 2, 3)` (with both padding bits set), `(Y1, U1, Y2) = (4, 5, 6)`,
`(V1, Y3, U2) = (7, 8, 9)` and `(Y4, V2, Y5) = (10, 11, 12)`. -/
def hextetPacket : List Nat :=
  [0x01, 0x08, 0x30, 0xC0, 0x04, 0x14, 0x60, 0x00, 0x07, 0x20, 0x90, 0x00, 0x0A, 0x2C, 0xC0, 0x00]

/-! ## The decoder with its control flow recorded

The same functions once more, each returning in addition the events of the
control flow of the loop over `x`: the selection of the scratch arrays and the
guards that leave the loop.  `traced_erasure` shows that dropping the events gives
back `zero12v_decode_frame`. -/

/-- An event of the control flow inside a row. -/
inductive RowEvent where
  /-- Lines 85-87 ran in iteration `x` of row `line`: the scratch arrays were selected. -/
  | scratch (line x : Int)
  /-- One of the guards of lines 90, 99, 108 and 117 left the loop in iteration `x`
  of row `line`, after `words` words of the hextet had been read. -/
  | guard (line x : Int) (words : Nat)
  deriving DecidableEq, Repr

/-- The body of the loop over `x` (lines 82-127), with its events. -/
def hextetTraced (be : Bool) (pkt : List Nat) (width line_end line x : Int) (s0 : RowState) :
    Option ((RowState × Bool) × List RowEvent) :=
  let ev : List RowEvent :=
    if width - x < 6 ∨ line_end - s0.src < 16 then [RowEvent.scratch line x] else []
  let s := redirect width line_end x s0
  if line_end - s.src < 4 then some ((s, true), ev ++ [RowEvent.guard line x 0]) else
  match readWord pkt s with
  | none => none
  | some (t, s) =>
  let s := word1 be t s
  if line_end - s.src < 4 then some ((s, true), ev ++ [RowEvent.guard line x 1]) else
  match readWord pkt s with
  | none => none
  | some (t, s) =>
  let s := word2 be t s
  if line_end - s.src < 4 then some ((s, true), ev ++ [RowEvent.guard line x 2]) else
  match readWord pkt s with
  | none => none
  | some (t, s) =>
  let s := word3 be t s
  if line_end - s.src < 4 then some ((s, true), ev ++ [RowEvent.guard line x 3]) else
  match readWord pkt s with
  | none => none
  | some (t, s) =>
  let s := word4 be t s
  some ((s, decide (width - x < 6)), ev)

/-- The loop over `x` of line 81, with its events. -/
def xLoopTraced (be : Bool) (pkt : List Nat) (width line_end line : Int) :
    Nat → Int → RowState → Option ((Int × RowState) × List RowEvent)
  | fuel, x, s =>
    if x < width then
      match fuel with
      | 0 => none
      | fuel + 1 =>
        match hextetTraced be pkt width line_end line x s with
        | none => none
        | some ((s1, true), ev) => some ((x, s1), ev)
        | some ((s1, false), ev) =>
          match xLoopTraced be pkt width line_end line fuel (x + 6) s1 with
          | none => none
          | some (r, ev1) => some (r, ev ++ ev1)
    else some ((x, s), [])

/-- The body of the loop over the rows (lines 73-140), with the events of the row. -/
def decodeLineTraced (be : Bool) (pkt : List Nat) (width stride : Int) (ls0 ls1 ls2 : Int)
    (fs : FrameState) (line : Int) : Option (FrameState × List RowEvent) :=
  match xLoopTraced be pkt width fs.line_end line width.toNat 0 (rowInit ls0 ls1 ls2 fs line) with
  | none => none
  | some ((x, s), ev) =>
    match copyBack be width ls0 ls1 ls2 line x s with
    | none => none
    | some (d0, d1, d2) =>
      some ({ data0 := d0, data1 := d1, data2 := d2
              line_end := fs.line_end + stride
              src := fs.line_end + stride - stride
              reads := fs.reads ++ s.reads.map (fun o => (line, o)) }, ev)

/-- The loop over the rows of line 72, with the events of its rows in order. -/
def lineLoopTraced (be : Bool) (pkt : List Nat) (width height stride : Int)
    (ls0 ls1 ls2 : Int) : Nat → Int → FrameState → Option (FrameState × List RowEvent)
  | fuel, line, fs =>
    if line < height then
      match fuel with
      | 0 => none
      | fuel + 1 =>
        match decodeLineTraced be pkt width stride ls0 ls1 ls2 fs line with
        | none => none
        | some (fs1, ev) =>
          match lineLoopTraced be pkt width height stride ls0 ls1 ls2 fuel (line + 1) fs1 with
          | none => none
          | some (fs2, ev1) => some (fs2, ev ++ ev1)
    else some (fs, [])

/-- The function `zero12v_decode_frame`, with the events of the rows it decodes. -/
def zero12v_decode_frame_traced (be : Bool) (AVERROR_INVALIDDATA : Int) (width height : Int)
    (has_buffer : Bool) (pkt : List Nat) (ff_get_buffer : Int × Picture) :
    Option (Outcome × List RowEvent) :=
  let stride := strideOf width
  let released : List PoolCall := if has_buffer then [PoolCall.release_buffer] else []
  if width ≤ 1 ∨ height ≤ 0 then
    some ({ ret := AVERROR_INVALIDDATA, got_frame := none, frame := none, has_buffer := false
            calls := released, reads := []
            log := [LogMsg.dimensions_not_supported width height] }, [])
  else if (pkt.length : Int) < wrapInt32 (height * stride) then
    some ({ ret := AVERROR_INVALIDDATA, got_frame := none, frame := none, has_buffer := false
            calls := released, reads := []
            log := [LogMsg.packet_too_small (pkt.length : Int) (wrapInt32 (height * stride))] },
          [])
  else if ff_get_buffer.1 < 0 then
    some ({ ret := ff_get_buffer.1, got_frame := none, frame := none, has_buffer := false
            calls := released ++ [PoolCall.get_buffer], reads := [], log := [] }, [])
  else
    let pic := ff_get_buffer.2
    match lineLoopTraced be pkt width height stride pic.linesize0 pic.linesize1 pic.linesize2
        height.toNat 0
        { data0 := pic.data0, data1 := pic.data1, data2 := pic.data2
          src := 0, line_end := stride, reads := [] } with
    | none => none
    | some (fs, ev) =>
      some ({ ret := (pkt.length : Int), got_frame := some 1
              frame := some { pic with data0 := fs.data0, data1 := fs.data1, data2 := fs.data2 }
              has_buffer := true
              calls := released ++ [PoolCall.get_buffer], reads := fs.reads, log := [] }, ev)

/-- The events of row `line` on accepted input: none when `width` is a multiple
of 6; otherwise the scratch arrays are selected in the last iteration,
`x = 6 * (width / 6)`, and a guard leaves it after `(stride - 16 * (width / 6)) / 4`
words. -/
def rowEvents (width stride line : Int) : List RowEvent :=
  if width % 6 = 0 then []
  else [RowEvent.scratch line (6 * (width / 6)),
        RowEvent.guard line (6 * (width / 6)) ((stride - 16 * (width / 6)) / 4).toNat]

/-- The events of the `n` rows from `line` on. -/
def frameEvents (width stride : Int) : Int → Nat → List RowEvent
  | _, 0 => []
  | line, n + 1 => rowEvents width stride line ++ frameEvents width stride (line + 1) n

/-! ## Life cycle of a decoder instance -/

/-- What `zero12v_decode_init` leaves behind. -/
structure InitResult where
  /-- The value returned. -/
  ret : Int
  /-- Whether `avctx->coded_frame` is set. -/
  has_frame : Bool
  /-- Whether `coded_frame->data[0]` is set, that is, whether the decoder holds a buffer. -/
  has_buffer : Bool
  /-- The value of `avctx->bits_per_raw_sample`. -/
  bits_per_raw_sample : Nat
  /-- The value of `coded_frame->key_frame`, when there is a frame. -/
  key_frame : Option Nat
  /-- Whether `av_log_ask_for_sample` was called. -/
  asked_for_sample : Bool

/-- Modelled from the spec: `avcodec_alloc_frame`, which is not among the sources,
supplies the frame that the decoder keeps; the spec has the frame life cycle
start with an empty frame (releasing an already-empty frame is a no-op, and a
buffer is only held after an acquisition).  This is whether `data[0]` of the
frame it returns is set. -/
def fresh_frame_has_buffer : Bool := false

/-- The function `zero12v_decode_init` (lines 27-42).

* `frame_allocated`: `avcodec_alloc_frame` returned a frame;
* `AVERROR_ENOMEM`: the value of `AVERROR(ENOMEM)`;
* `tag_is_a12v`: `avctx->codec_tag` is `MKTAG('a', '1', '2', 'v')`. -/
def zero12v_decode_init (frame_allocated : Bool) (AVERROR_ENOMEM : Int) (tag_is_a12v : Bool) :
    InitResult :=
  if frame_allocated then
    { ret := 0, has_frame := true, has_buffer := fresh_frame_has_buffer
      bits_per_raw_sample := 10, key_frame := some 1, asked_for_sample := tag_is_a12v }
  else
    { ret := AVERROR_ENOMEM, has_frame := false, has_buffer := false, bits_per_raw_sample := 10
      key_frame := none, asked_for_sample := false }

/-- What `zero12v_decode_close` did. -/
structure CloseResult where
  /-- The value returned. -/
  ret : Int
  /-- The calls made to the buffer pool, in order. -/
  calls : List PoolCall
  /-- Whether the decoder still holds a buffer afterwards. -/
  has_buffer : Bool

/-- The function `zero12v_decode_close` (lines 149-157), called on a decoder for
which `pic->data[0]` is set or not (`has_buffer`); `release_buffer` clears it, and
`av_freep` frees the frame. -/
def zero12v_decode_close (has_buffer : Bool) : CloseResult :=
  { ret := 0
    calls := if has_buffer then [PoolCall.release_buffer] else []
    has_buffer := false }

/-- The inputs of one call of `zero12v_decode_frame` on a decoder instance: the
geometry in the context, the packet, and what the allocator answers if asked. -/
structure DecodeCall where
  width : Int
  height : Int
  pkt : List Nat
  ff_get_buffer : Int × Picture

/-- What happens to the buffer pool. -/
inductive PoolEvent where
  /-- The call `release_buffer` gave a buffer back. -/
  | released
  /-- The call `ff_get_buffer` supplied a buffer. -/
  | acquired
  /-- The call `ff_get_buffer` failed. -/
  | refused
  deriving DecidableEq, Repr

/-- The pool events of a list of calls to the pool, `supplied` telling whether the
call to the allocator among them (there is at most one) supplied a buffer. -/
def poolEvents (supplied : Bool) (calls : List PoolCall) : List PoolEvent :=
  calls.map (fun c =>
    match c with
    | PoolCall.release_buffer => PoolEvent.released
    | PoolCall.get_buffer => if supplied then PoolEvent.acquired else PoolEvent.refused)

/-- A sequence of calls of `zero12v_decode_frame` on one decoder instance that
holds a buffer or not (`has_buffer`) at the start: whether it holds a buffer at
the end, and the pool events of all the calls in order.  The state that a call
leaves is the state in which the next one starts. -/
def decodeCalls (be : Bool) (AVERROR_INVALIDDATA : Int) :
    Bool → List DecodeCall → Option (Bool × List PoolEvent)
  | has_buffer, [] => some (has_buffer, [])
  | has_buffer, c :: cs =>
    match zero12v_decode_frame be AVERROR_INVALIDDATA c.width c.height has_buffer c.pkt
        c.ff_get_buffer with
    | none => none
    | some out =>
      match decodeCalls be AVERROR_INVALIDDATA out.has_buffer cs with
      | none => none
      | some (hb, evs) => some (hb, poolEvents out.has_buffer out.calls ++ evs)

/-- The number of buffers that the decoder holds after a list of pool events, when
it holds `held` before them; `none` when an event breaks the discipline of the
pool: a release while no buffer is held, or a call to the allocator while a
buffer is still held. -/
def heldAfter : Nat → List PoolEvent → Option Nat
  | held, [] => some held
  | held, PoolEvent.released :: evs => if held = 0 then none else heldAfter (held - 1) evs
  | held, PoolEvent.acquired :: evs => if held = 0 then heldAfter 1 evs else none
  | held, PoolEvent.refused :: evs => if held = 0 then heldAfter 0 evs else none

/-- A packet of `n` zero bytes for a frame of the given geometry, with an
allocator that answers `ret` and supplies planes filled with `0xAA`. -/
def sampleCall (width height : Int) (n : Nat) (ret : Int) : DecodeCall :=
  { width := width, height := height, pkt := List.replicate n 0
    ff_get_buffer := (ret, filledPicture 0xAA (2 * width) (2 * ((width + 1) / 2))
      (2 * ((width + 1) / 2))) }

/-- The packet `rampPacket 42 11 37` (two rows of `width = 8`, stride 21) with the
last byte of each row, which belongs to no word, replaced by `0xEE`, and three
more bytes appended. -/
def rampPacketVariant : List Nat :=
  (((rampPacket 42 11 37).set 20 0xEE).set 41 0xEE) ++ [1, 2, 3]

/-! ## Bit fields -/

theorem and_FFC0 (x : Nat) : x &&& 0xFFC0 = (x / 64 % 1024) * 64 := by
  have h1 : (0xFFC0 : Nat) = (2 ^ 10 - 1) <<< 6 := by decide
  have h2 : (x / 64 % 1024) * 64 = ((x >>> 6) % 2 ^ 10) <<< 6 := by
    rw [Nat.shiftLeft_eq, Nat.shiftRight_eq_div_pow]; norm_num
  rw [h1, h2]
  apply Nat.eq_of_testBit_eq
  intro i
  simp only [Nat.testBit_and, Nat.testBit_shiftLeft, Nat.testBit_two_pow_sub_one,
    Nat.testBit_mod_two_pow, Nat.testBit_shiftRight]
  by_cases h : 6 ≤ i
  · have : 6 + (i - 6) = i := by omega
    simp [h, this, Bool.and_comm]
  · simp [h]

theorem field_a_eq (t : Nat) : field_a t = (t % 1024) * 64 := by
  unfold field_a
  rw [and_FFC0, Nat.shiftLeft_eq]
  omega

theorem field_b_eq (t : Nat) : field_b t = (t / 1024 % 1024) * 64 := by
  unfold field_b
  rw [and_FFC0, Nat.shiftRight_eq_div_pow]
  omega

theorem field_c_eq (t : Nat) : field_c t = (t / 1048576 % 1024) * 64 := by
  unfold field_c
  rw [and_FFC0, Nat.shiftRight_eq_div_pow]
  omega

theorem field_a_lt (t : Nat) : field_a t < 65536 := by rw [field_a_eq]; omega

theorem field_b_lt (t : Nat) : field_b t < 65536 := by rw [field_b_eq]; omega

theorem field_c_lt (t : Nat) : field_c t < 65536 := by rw [field_c_eq]; omega

theorem or_fields_eq_sum (f0 f1 f2 p : Nat) (h0 : f0 < 1024) (h1 : f1 < 1024)
    (h2 : f2 < 1024) :
    f0 ||| f1 <<< 10 ||| f2 <<< 20 ||| p <<< 30
      = f0 + 1024 * f1 + 1048576 * f2 + 1073741824 * p := by
  have e1 : f0 ||| f1 <<< 10 = f0 + 1024 * f1 := by
    rw [Nat.or_comm, Nat.shiftLeft_eq, Nat.mul_comm,
      ← Nat.mul_add_lt_is_or (by omega : f0 < 2 ^ 10)]
    omega
  have e2 : (f0 + 1024 * f1) ||| f2 <<< 20 = f0 + 1024 * f1 + 1048576 * f2 := by
    rw [Nat.or_comm, Nat.shiftLeft_eq, Nat.mul_comm,
      ← Nat.mul_add_lt_is_or (by omega : f0 + 1024 * f1 < 2 ^ 20)]
    omega
  have e3 : (f0 + 1024 * f1 + 1048576 * f2) ||| p <<< 30
      = f0 + 1024 * f1 + 1048576 * f2 + 1073741824 * p := by
    rw [Nat.or_comm, Nat.shiftLeft_eq, Nat.mul_comm,
      ← Nat.mul_add_lt_is_or (by omega : f0 + 1024 * f1 + 1048576 * f2 < 2 ^ 30)]
    omega
  rw [e1, e2, e3]

/-! ## Memory -/

theorem store16_of_lt {be : Bool} {m : Mem} {a i : Int} {v : Nat} (h : i < a) :
    store16 be m a v i = m i := by
  unfold store16
  rw [if_neg (by omega), if_neg (by omega)]

theorem store16_of_gt {be : Bool} {m : Mem} {a i : Int} {v : Nat} (h : a + 1 < i) :
    store16 be m a v i = m i := by
  unfold store16
  rw [if_neg (by omega), if_neg (by omega)]

theorem load16_congr {be : Bool} {m m1 : Mem} {a : Int} (h0 : m a = m1 a)
    (h1 : m (a + 1) = m1 (a + 1)) : load16 be m a = load16 be m1 a := by
  unfold load16
  rw [h0, h1]

theorem load16_store16 {be : Bool} {m : Mem} {a : Int} {v : Nat} (hv : v < 65536) :
    load16 be (store16 be m a v) a = v := by
  unfold load16 store16
  cases be <;> simp <;> omega

theorem load16_lt (be : Bool) (m : Mem) (a : Int) : load16 be m a < 65536 := by
  unfold load16
  cases be <;> simp <;> omega

theorem storeList_outside (be : Bool) (vs : List Nat) :
    ∀ (m : Mem) (a i : Int), (i < a ∨ a + 2 * (vs.length : Int) ≤ i) →
      storeList be m a vs i = m i := by
  induction vs with
  | nil => intro m a i _; rfl
  | cons v vs ih =>
    intro m a i h
    simp only [storeList, List.length_cons, Nat.cast_add, Nat.cast_one] at h ⊢
    rw [ih _ _ _ (by omega)]
    rcases h with h | h
    · exact store16_of_lt h
    · exact store16_of_gt (by omega)

theorem load16_storeList (be : Bool) (vs : List Nat) :
    ∀ (m : Mem) (a : Int) (j : Nat), j < vs.length → (∀ v ∈ vs, v < 65536) →
      load16 be (storeList be m a vs) (a + 2 * (j : Int)) = vs.getD j 0 := by
  induction vs with
  | nil => intro m a j hj; simp at hj
  | cons v vs ih =>
    intro m a j hj hv
    cases j with
    | zero =>
      simp only [storeList, Nat.cast_zero, mul_zero, add_zero, List.getD_cons_zero]
      rw [load16_congr (storeList_outside be vs _ _ _ (Or.inl (by omega)))
        (storeList_outside be vs _ _ _ (Or.inl (by omega)))]
      exact load16_store16 (hv v (List.mem_cons_self _ _))
    | succ j =>
      simp only [storeList, List.getD_cons_succ]
      have e : a + 2 * ((j + 1 : Nat) : Int) = (a + 2) + 2 * (j : Int) := by push_cast; ring
      rw [e]
      exact ih _ _ _ (by simpa using hj) (fun x hx => hv x (List.mem_cons_of_mem _ hx))

theorem memcpy_outside {be : Bool} {m m1 : Mem} {dst : Int} {temp : List Nat} {n : Int}
    (h : memcpy be m dst temp n = some m1) {i : Int} (hi : i < dst ∨ dst + n ≤ i) :
    m1 i = m i := by
  unfold memcpy at h
  split at h
  · cases h
    simp only
    rw [if_neg (by omega)]
  · cases h

theorem tempByte_pair (be : Bool) (temp : List Nat) (j : Nat) (hv : temp.getD j 0 < 65536) :
    (if be then 256 * (tempByte be temp (2 * j) % 256) + tempByte be temp (2 * j + 1) % 256
     else tempByte be temp (2 * j) % 256 + 256 * (tempByte be temp (2 * j + 1) % 256))
      = temp.getD j 0 := by
  have e0 : 2 * j % 2 = 0 := by omega
  have e1 : (2 * j + 1) % 2 = 1 := by omega
  have d0 : 2 * j / 2 = j := by omega
  have d1 : (2 * j + 1) / 2 = j := by omega
  unfold tempByte
  rw [e0, e1, d0, d1]
  generalize temp.getD j 0 = x at hv ⊢
  cases be <;> simp <;> omega

theorem memcpy_inside {be : Bool} {m m1 : Mem} {dst : Int} {temp : List Nat} {n : Int}
    (h : memcpy be m dst temp n = some m1) (j : Nat) (hj : (j : Int) < n) :
    m1 (dst + (j : Int)) = tempByte be temp j := by
  unfold memcpy at h
  split at h
  · cases h
    have t0 : (dst + (j : Int) - dst).toNat = j := by omega
    simp only
    rw [if_pos (by omega), t0]
  · cases h

theorem load16_memcpy {be : Bool} {m m1 : Mem} {dst : Int} {temp : List Nat} {n : Int}
    (h : memcpy be m dst temp n = some m1) (j : Nat) (hj : 2 * (j : Int) + 2 ≤ n)
    (hv : temp.getD j 0 < 65536) :
    load16 be m1 (dst + 2 * (j : Int)) = temp.getD j 0 := by
  have b0 := memcpy_inside h (2 * j) (by push_cast; omega)
  have b1 := memcpy_inside h (2 * j + 1) (by push_cast; omega)
  have a0 : dst + ((2 * j : Nat) : Int) = dst + 2 * (j : Int) := by push_cast; ring
  have a1 : dst + ((2 * j + 1 : Nat) : Int) = dst + 2 * (j : Int) + 1 := by push_cast; ring
  rw [a0] at b0
  rw [a1] at b1
  unfold load16
  rw [b0, b1]
  exact tempByte_pair be temp j hv

/-! ## The loop body -/

theorem put_y_src (be : Bool) (s : RowState) (val : Nat) : (put_y be s val).src = s.src := by
  unfold put_y; split <;> rfl
theorem put_u_src (be : Bool) (s : RowState) (val : Nat) : (put_u be s val).src = s.src := by
  unfold put_u; split <;> rfl
theorem put_v_src (be : Bool) (s : RowState) (val : Nat) : (put_v be s val).src = s.src := by
  unfold put_v; split <;> rfl
theorem word1_src (be : Bool) (t : Nat) (s : RowState) : (word1 be t s).src = s.src := by
  simp [word1, put_y_src, put_u_src, put_v_src]
theorem word2_src (be : Bool) (t : Nat) (s : RowState) : (word2 be t s).src = s.src := by
  simp [word2, put_y_src, put_u_src, put_v_src]
theorem word3_src (be : Bool) (t : Nat) (s : RowState) : (word3 be t s).src = s.src := by
  simp [word3, put_y_src, put_u_src, put_v_src]
theorem word4_src (be : Bool) (t : Nat) (s : RowState) : (word4 be t s).src = s.src := by
  simp [word4, put_y_src, put_u_src, put_v_src]

theorem readWord_some {pkt : List Nat} {s : RowState} (h0 : 0 ≤ s.src)
    (h1 : s.src + 4 ≤ (pkt.length : Int)) :
    readWord pkt s
      = some (wordAt pkt s.src, { s with src := s.src + 4, reads := s.reads ++ [s.src] }) := by
  unfold readWord AV_RL32
  rw [if_pos ⟨h0, h1⟩]
  rfl

theorem redirect_src (width line_end x : Int) (s : RowState) :
    (redirect width line_end x s).src = s.src := by
  unfold redirect; split <;> rfl

theorem hextet_full {be : Bool} {pkt : List Nat} {width line_end x : Int} {s : RowState}
    (hx : x + 6 ≤ width) (hs : s.src + 16 ≤ line_end) (h0 : 0 ≤ s.src)
    (hl : line_end ≤ (pkt.length : Int)) :
    hextet be pkt width line_end x s = some (fullHextet be pkt s, false) := by
  have hr : redirect width line_end x s = s := by
    unfold redirect; rw [if_neg (by omega)]
  unfold hextet
  simp only [hr]
  rw [if_neg (by omega), readWord_some h0 (by omega)]
  simp only
  rw [if_neg (by simp only [word1_src]; omega),
    readWord_some (by simp only [word1_src]; omega) (by simp only [word1_src]; omega)]
  simp only
  rw [if_neg (by simp only [word1_src, word2_src]; omega),
    readWord_some (by simp only [word1_src, word2_src]; omega)
      (by simp only [word1_src, word2_src]; omega)]
  simp only
  rw [if_neg (by simp only [word1_src, word2_src, word3_src]; omega),
    readWord_some (by simp only [word1_src, word2_src, word3_src]; omega)
      (by simp only [word1_src, word2_src, word3_src]; omega)]
  simp only [fullHextet]
  have : decide (width - x < 6) = false := by simp; omega
  rw [this]

theorem fullHextet_planes {be : Bool} {pkt : List Nat} {s : RowState} {oy ou ov : Int}
    (hy : s.y = .plane oy) (hu : s.u = .plane ou) (hv : s.v = .plane ov) :
    fullHextet be pkt s =
      { data0 := storeList be s.data0 oy (hexY pkt s.src)
        data1 := storeList be s.data1 ou (hexU pkt s.src)
        data2 := storeList be s.data2 ov (hexV pkt s.src)
        y_temp := s.y_temp, u_temp := s.u_temp, v_temp := s.v_temp
        y := .plane (oy + 12), u := .plane (ou + 6), v := .plane (ov + 6)
        src := s.src + 16
        reads := s.reads ++ [s.src, s.src + 4, s.src + 8, s.src + 12] } := by
  obtain ⟨d0, d1, d2, yt, ut, vt, y, u, v, src, reads⟩ := s
  simp only at hy hu hv
  subst hy hu hv
  simp only [fullHextet, word1, word2, word3, word4, put_y, put_u, put_v, storeList, hexY, hexU,
    hexV, RowState.mk.injEq, true_and, and_true, Ptr.plane.injEq, List.append_assoc,
    List.singleton_append, List.cons_append, List.nil_append]
  refine ⟨?_, ?_, ?_, ?_, ?_⟩ <;> first | rfl | omega | (simp; try omega)

/-! ## The complete hextets of a row -/

theorem fullHextet_src (be : Bool) (pkt : List Nat) (s : RowState) :
    (fullHextet be pkt s).src = s.src + 16 := by
  simp only [fullHextet, word1_src, word2_src, word3_src, word4_src]
  omega

theorem xLoop_full (be : Bool) (pkt : List Nat) (width line_end : Int) (n : Nat) :
    ∀ (fuel : Nat) (x : Int) (s : RowState),
      x + 6 * (n : Int) ≤ width → s.src + 16 * (n : Int) ≤ line_end → 0 ≤ s.src →
      line_end ≤ (pkt.length : Int) →
      xLoop be pkt width line_end (fuel + n) x s
        = xLoop be pkt width line_end fuel (x + 6 * (n : Int)) ((fullHextet be pkt)^[n] s) := by
  induction n with
  | zero => intro fuel x s _ _ _ _; simp
  | succ n ih =>
    intro fuel x s hx hs h0 hl
    push_cast at hx hs
    have e : fuel + (n + 1) = (fuel + n) + 1 := by omega
    rw [e, xLoop, if_pos (by omega)]
    rw [hextet_full (by omega) (by omega) h0 hl]
    simp only
    rw [ih fuel (x + 6) (fullHextet be pkt s) (by omega) (by rw [fullHextet_src]; omega)
      (by rw [fullHextet_src]; omega) hl, Function.iterate_succ_apply]
    have e2 : x + 6 + 6 * (n : Int) = x + 6 * ((n + 1 : Nat) : Int) := by push_cast; ring
    rw [e2]

theorem range_four_succ (n : Nat) :
    List.range (4 * (n + 1)) = List.range (4 * n) ++ [4 * n, 4 * n + 1, 4 * n + 2, 4 * n + 3] := by
  have e : 4 * (n + 1) = 4 * n + 1 + 1 + 1 + 1 := by omega
  rw [e]
  simp [List.range_succ]

theorem iter_ptrs (be : Bool) (pkt : List Nat) (s : RowState) (oy ou ov : Int)
    (hy : s.y = .plane oy) (hu : s.u = .plane ou) (hv : s.v = .plane ov) (n : Nat) :
    ((fullHextet be pkt)^[n] s).y = .plane (oy + 12 * (n : Int)) ∧
    ((fullHextet be pkt)^[n] s).u = .plane (ou + 6 * (n : Int)) ∧
    ((fullHextet be pkt)^[n] s).v = .plane (ov + 6 * (n : Int)) ∧
    ((fullHextet be pkt)^[n] s).src = s.src + 16 * (n : Int) ∧
    ((fullHextet be pkt)^[n] s).y_temp = s.y_temp ∧
    ((fullHextet be pkt)^[n] s).u_temp = s.u_temp ∧
    ((fullHextet be pkt)^[n] s).v_temp = s.v_temp ∧
    ((fullHextet be pkt)^[n] s).reads
      = s.reads ++ wordOffsets s.src (4 * n) := by
  induction n with
  | zero => simp [hy, hu, hv, wordOffsets]
  | succ n ih =>
    obtain ⟨iy, iu, iv, isrc, iyt, iut, ivt, ird⟩ := ih
    rw [Function.iterate_succ_apply', fullHextet_planes iy iu iv]
    simp only [Ptr.plane.injEq, isrc, iyt, iut, ivt, ird, wordOffsets, range_four_succ,
      List.map_append, List.append_assoc, List.map_cons, List.map_nil, true_and]
    refine ⟨by push_cast; ring, by push_cast; ring, by push_cast; ring, by push_cast; ring, ?_⟩
    congr 2
    simp only [List.cons.injEq, and_true]
    push_cast
    refine ⟨by ring, by ring, by ring, by ring⟩

theorem hexY_length (pkt : List Nat) (o : Int) : (hexY pkt o).length = 6 := rfl

theorem hexU_length (pkt : List Nat) (o : Int) : (hexU pkt o).length = 3 := rfl

theorem hexV_length (pkt : List Nat) (o : Int) : (hexV pkt o).length = 3 := rfl

theorem hexY_lt (pkt : List Nat) (o : Int) : ∀ v ∈ hexY pkt o, v < 65536 := by
  intro v hv
  simp only [hexY, List.mem_cons, List.mem_singleton, List.not_mem_nil, or_false] at hv
  rcases hv with h | h | h | h | h | h <;> subst h <;>
    simp only [field_a_lt, field_b_lt, field_c_lt]

theorem hexU_lt (pkt : List Nat) (o : Int) : ∀ v ∈ hexU pkt o, v < 65536 := by
  intro v hv
  simp only [hexU, List.mem_cons, List.mem_singleton, List.not_mem_nil, or_false] at hv
  rcases hv with h | h | h <;> subst h <;>
    simp only [field_a_lt, field_b_lt, field_c_lt]

theorem hexV_lt (pkt : List Nat) (o : Int) : ∀ v ∈ hexV pkt o, v < 65536 := by
  intro v hv
  simp only [hexV, List.mem_cons, List.mem_singleton, List.not_mem_nil, or_false] at hv
  rcases hv with h | h | h <;> subst h <;>
    simp only [field_a_lt, field_b_lt, field_c_lt]

theorem iter_data0 (be : Bool) (pkt : List Nat) (s : RowState) (oy ou ov : Int)
    (hy : s.y = .plane oy) (hu : s.u = .plane ou) (hv : s.v = .plane ov) (n : Nat) :
    (∀ a : Int, a < oy ∨ oy + 12 * (n : Int) ≤ a →
      ((fullHextet be pkt)^[n] s).data0 a = s.data0 a) ∧
    (∀ c : Nat, c < 6 * n →
      load16 be ((fullHextet be pkt)^[n] s).data0 (oy + 2 * (c : Int))
        = (hexY pkt (s.src + 16 * ((c / 6 : Nat) : Int))).getD (c % 6) 0) := by
  induction n with
  | zero => exact ⟨fun a _ => rfl, fun c hc => by omega⟩
  | succ n ih =>
    obtain ⟨iy, iu, iv, isrc, -⟩ := iter_ptrs be pkt s oy ou ov hy hu hv n
    obtain ⟨ihf, ihs⟩ := ih
    rw [Function.iterate_succ_apply', fullHextet_planes iy iu iv]
    simp only
    constructor
    · intro a ha
      push_cast at ha
      rw [storeList_outside be _ _ _ _ (by rw [hexY_length]; push_cast; omega)]
      exact ihf a (by omega)
    · intro c hc
      by_cases hcn : c < 6 * n
      · rw [load16_congr
          (storeList_outside be _ _ _ _ (Or.inl (by omega)))
          (storeList_outside be _ _ _ _ (Or.inl (by omega)))]
        exact ihs c hcn
      · have e1 : c / 6 = n := by omega
        have e2 : oy + 2 * (c : Int) = (oy + 12 * (n : Int)) + 2 * ((c % 6 : Nat) : Int) := by
          omega
        rw [e2, load16_storeList be _ _ _ _ (by rw [hexY_length]; omega) (hexY_lt _ _), isrc, e1]

theorem iter_data1 (be : Bool) (pkt : List Nat) (s : RowState) (oy ou ov : Int)
    (hy : s.y = .plane oy) (hu : s.u = .plane ou) (hv : s.v = .plane ov) (n : Nat) :
    (∀ a : Int, a < ou ∨ ou + 6 * (n : Int) ≤ a →
      ((fullHextet be pkt)^[n] s).data1 a = s.data1 a) ∧
    (∀ c : Nat, c < 3 * n →
      load16 be ((fullHextet be pkt)^[n] s).data1 (ou + 2 * (c : Int))
        = (hexU pkt (s.src + 16 * ((c / 3 : Nat) : Int))).getD (c % 3) 0) := by
  induction n with
  | zero => exact ⟨fun a _ => rfl, fun c hc => by omega⟩
  | succ n ih =>
    obtain ⟨iy, iu, iv, isrc, -⟩ := iter_ptrs be pkt s oy ou ov hy hu hv n
    obtain ⟨ihf, ihs⟩ := ih
    rw [Function.iterate_succ_apply', fullHextet_planes iy iu iv]
    simp only
    constructor
    · intro a ha
      push_cast at ha
      rw [storeList_outside be _ _ _ _ (by rw [hexU_length]; push_cast; omega)]
      exact ihf a (by omega)
    · intro c hc
      by_cases hcn : c < 3 * n
      · rw [load16_congr
          (storeList_outside be _ _ _ _ (Or.inl (by omega)))
          (storeList_outside be _ _ _ _ (Or.inl (by omega)))]
        exact ihs c hcn
      · have e1 : c / 3 = n := by omega
        have e2 : ou + 2 * (c : Int) = (ou + 6 * (n : Int)) + 2 * ((c % 3 : Nat) : Int) := by
          omega
        rw [e2, load16_storeList be _ _ _ _ (by rw [hexU_length]; omega) (hexU_lt _ _), isrc, e1]

theorem iter_data2 (be : Bool) (pkt : List Nat) (s : RowState) (oy ou ov : Int)
    (hy : s.y = .plane oy) (hu : s.u = .plane ou) (hv : s.v = .plane ov) (n : Nat) :
    (∀ a : Int, a < ov ∨ ov + 6 * (n : Int) ≤ a →
      ((fullHextet be pkt)^[n] s).data2 a = s.data2 a) ∧
    (∀ c : Nat, c < 3 * n →
      load16 be ((fullHextet be pkt)^[n] s).data2 (ov + 2 * (c : Int))
        = (hexV pkt (s.src + 16 * ((c / 3 : Nat) : Int))).getD (c % 3) 0) := by
  induction n with
  | zero => exact ⟨fun a _ => rfl, fun c hc => by omega⟩
  | succ n ih =>
    obtain ⟨iy, iu, iv, isrc, -⟩ := iter_ptrs be pkt s oy ou ov hy hu hv n
    obtain ⟨ihf, ihs⟩ := ih
    rw [Function.iterate_succ_apply', fullHextet_planes iy iu iv]
    simp only
    constructor
    · intro a ha
      push_cast at ha
      rw [storeList_outside be _ _ _ _ (by rw [hexV_length]; push_cast; omega)]
      exact ihf a (by omega)
    · intro c hc
      by_cases hcn : c < 3 * n
      · rw [load16_congr
          (storeList_outside be _ _ _ _ (Or.inl (by omega)))
          (storeList_outside be _ _ _ _ (Or.inl (by omega)))]
        exact ihs c hcn
      · have e1 : c / 3 = n := by omega
        have e2 : ou + 2 * (c : Int) = ou + 2 * (c : Int) := rfl
        have e3 : ov + 2 * (c : Int) = (ov + 6 * (n : Int)) + 2 * ((c % 3 : Nat) : Int) := by
          omega
        rw [e3, load16_storeList be _ _ _ _ (by rw [hexV_length]; omega) (hexV_lt _ _), isrc, e1]

/-! ## The trailing partial hextet -/

theorem readWord_some_advance {pkt : List Nat} {s : RowState} (h0 : 0 ≤ s.src)
    (h1 : s.src + 4 ≤ (pkt.length : Int)) :
    readWord pkt s = some (wordAt pkt s.src, advance s) :=
  readWord_some h0 h1

theorem redirect_tail {width line_end x : Int} {s : RowState} (hx : width - x < 6) :
    redirect width line_end x s = toTemp s := by
  unfold redirect; rw [if_pos (Or.inl hx)]; rfl

theorem advance_src (s : RowState) : (advance s).src = s.src + 4 := rfl
theorem toTemp_src (s : RowState) : (toTemp s).src = s.src := rfl

theorem hextet_tail {be : Bool} {pkt : List Nat} {width line_end x : Int} {s : RowState}
    (nw : Nat) (hx : width - x < 6) (hnw : nw ≤ 3) (hlo : 4 * (nw : Int) ≤ line_end - s.src)
    (hhi : line_end - s.src < 4 * (nw : Int) + 4) (h0 : 0 ≤ s.src)
    (hl : line_end ≤ (pkt.length : Int)) :
    hextet be pkt width line_end x s = some (tailState be pkt nw s, true) := by
  unfold hextet
  simp only [redirect_tail hx]
  interval_cases nw
  · rw [if_pos (by simp only [toTemp_src]; omega)]
    rfl
  · rw [if_neg (by simp only [toTemp_src]; omega),
      readWord_some_advance (by simpa using h0) (by simp only [toTemp_src]; omega)]
    simp only
    rw [if_pos (by simp only [word1_src, advance_src, toTemp_src]; omega)]
    rfl
  · rw [if_neg (by simp only [toTemp_src]; omega),
      readWord_some_advance (by simpa using h0) (by simp only [toTemp_src]; omega)]
    simp only
    rw [if_neg (by simp only [word1_src, advance_src, toTemp_src]; omega),
      readWord_some_advance (by simp only [word1_src, advance_src, toTemp_src]; omega)
        (by simp only [word1_src, advance_src, toTemp_src]; omega)]
    simp only
    rw [if_pos (by simp only [word1_src, word2_src, advance_src, toTemp_src]; omega)]
    rfl
  · rw [if_neg (by simp only [toTemp_src]; omega),
      readWord_some_advance (by simpa using h0) (by simp only [toTemp_src]; omega)]
    simp only
    rw [if_neg (by simp only [word1_src, advance_src, toTemp_src]; omega),
      readWord_some_advance (by simp only [word1_src, advance_src, toTemp_src]; omega)
        (by simp only [word1_src, advance_src, toTemp_src]; omega)]
    simp only
    rw [if_neg (by simp only [word1_src, word2_src, advance_src, toTemp_src]; omega),
      readWord_some_advance (by simp only [word1_src, word2_src, advance_src, toTemp_src]; omega)
        (by simp only [word1_src, word2_src, advance_src, toTemp_src]; omega)]
    simp only
    rw [if_pos (by simp only [word1_src, word2_src, word3_src, advance_src, toTemp_src]; omega)]
    rfl

/-- The scratch array `y_temp` after the first `nw` words of a hextet. -/
theorem tailState_spec (be : Bool) (pkt : List Nat) (s : RowState) (nw : Nat) (hnw : nw ≤ 3)
    (hyt : s.y_temp = [0x8000, 0x8000, 0x8000, 0x8000, 0x8000, 0x8000])
    (hut : s.u_temp = [0x8000, 0x8000, 0x8000]) (hvt : s.v_temp = [0x8000, 0x8000, 0x8000]) :
    (tailState be pkt nw s).data0 = s.data0 ∧ (tailState be pkt nw s).data1 = s.data1 ∧
    (tailState be pkt nw s).data2 = s.data2 ∧
    (tailState be pkt nw s).reads = s.reads ++ wordOffsets s.src nw ∧
    (tailState be pkt nw s).y_temp.length = 6 ∧ (tailState be pkt nw s).u_temp.length = 3 ∧
    (tailState be pkt nw s).v_temp.length = 3 ∧
    (∀ p, p < 6 → (tailState be pkt nw s).y_temp.getD p 0
      = if yWord p < nw then yField p (wordAt pkt (s.src + 4 * ((yWord p : Nat) : Int)))
        else 0x8000) ∧
    (∀ p, p < 3 → (tailState be pkt nw s).u_temp.getD p 0
      = if uWord p < nw then uField p (wordAt pkt (s.src + 4 * ((uWord p : Nat) : Int)))
        else 0x8000) ∧
    (∀ p, p < 3 → (tailState be pkt nw s).v_temp.getD p 0
      = if vWord p < nw then vField p (wordAt pkt (s.src + 4 * ((vWord p : Nat) : Int)))
        else 0x8000) := by
  obtain ⟨d0, d1, d2, yt, ut, vt, y, u, v, src, reads⟩ := s
  simp only at hyt hut hvt
  subst hyt hut hvt
  have e8 : src + 4 + 4 = src + 8 := by ring
  interval_cases nw <;> refine ⟨rfl, rfl, rfl, ?_, rfl, rfl, rfl, ?_, ?_, ?_⟩
  all_goals first
    | (intro p hp
       interval_cases p <;>
         simp [tailState, toTemp, advance, word1, word2, word3, put_y, put_u, put_v, yWord,
           yField, uWord, uField, vWord, vField, e8])
    | simp [tailState, toTemp, advance, word1, word2, word3, put_y, put_u, put_v, wordOffsets,
        List.range_succ, e8]

/-! ## One row -/

theorem cdiv_of_nonneg {a b : Int} (ha : 0 ≤ a) (hb : 0 ≤ b) : cdiv a b = a / b :=
  Int.tdiv_eq_ediv ha hb

theorem memcpy_some (be : Bool) (m : Mem) (dst : Int) (temp : List Nat) (n : Int)
    (h : n ≤ 2 * (temp.length : Int)) : ∃ m1, memcpy be m dst temp n = some m1 := by
  unfold memcpy
  rw [if_pos h]
  exact ⟨_, rfl⟩

theorem wordOffsets_append (base : Int) (a b : Nat) :
    wordOffsets base a ++ wordOffsets (base + 4 * (a : Int)) b = wordOffsets base (a + b) := by
  unfold wordOffsets
  rw [List.range_add, List.map_append, List.map_map]
  congr 1
  apply List.map_congr_left
  intro i _
  simp only [Function.comp]
  push_cast
  ring

theorem yField_lt (p t : Nat) : yField p t < 65536 := by
  unfold yField
  split <;> simp only [field_a_lt, field_b_lt, field_c_lt]

theorem uField_lt (p t : Nat) : uField p t < 65536 := by
  unfold uField
  split <;> simp only [field_a_lt, field_b_lt, field_c_lt]

theorem vField_lt (p t : Nat) : vField p t < 65536 := by
  unfold vField
  split <;> simp only [field_a_lt, field_b_lt, field_c_lt]

theorem yWord_le (p : Nat) : yWord p ≤ 3 := by
  unfold yWord
  rcases p with _ | _ | _ | _ | _ | _ | p <;> simp

theorem uWord_le (p : Nat) : uWord p ≤ 2 := by
  unfold uWord
  rcases p with _ | _ | _ | p <;> simp

theorem vWord_le (p : Nat) : vWord p ≤ 3 := by
  unfold vWord
  rcases p with _ | _ | _ | p <;> simp

theorem hexY_getD (pkt : List Nat) (o : Int) (p : Nat) (hp : p < 6) :
    (hexY pkt o).getD p 0 = yField p (wordAt pkt (o + 4 * ((yWord p : Nat) : Int))) := by
  have e8 : o + 4 + 4 = o + 8 := by ring
  have e12 : o + 8 + 4 = o + 12 := by ring
  interval_cases p <;> simp [hexY, yWord, yField, e8, e12]

theorem hexU_getD (pkt : List Nat) (o : Int) (p : Nat) (hp : p < 3) :
    (hexU pkt o).getD p 0 = uField p (wordAt pkt (o + 4 * ((uWord p : Nat) : Int))) := by
  have e8 : o + 4 + 4 = o + 8 := by ring
  interval_cases p <;> simp [hexU, uWord, uField, e8]

theorem hexV_getD (pkt : List Nat) (o : Int) (p : Nat) (hp : p < 3) :
    (hexV pkt o).getD p 0 = vField p (wordAt pkt (o + 4 * ((vWord p : Nat) : Int))) := by
  have e8 : o + 4 + 4 = o + 8 := by ring
  have e12 : o + 8 + 4 = o + 12 := by ring
  interval_cases p <;> simp [hexV, vWord, vField, e8, e12]

/-- Inside the complete hextets the stored sample is the expected one. -/
theorem hexY_expected (stride : Int) (pkt : List Nat) (base : Int) (c : Nat)
    (h : 16 * ((c / 6 : Nat) : Int) + 16 ≤ stride) :
    (hexY pkt (base + 16 * ((c / 6 : Nat) : Int))).getD (c % 6) 0 = expectedY stride pkt base c := by
  have := yWord_le (c % 6)
  unfold expectedY
  rw [if_pos (by omega), hexY_getD _ _ _ (Nat.mod_lt _ (by norm_num))]

theorem hexU_expected (stride : Int) (pkt : List Nat) (base : Int) (c : Nat)
    (h : 16 * ((c / 3 : Nat) : Int) + 16 ≤ stride) :
    (hexU pkt (base + 16 * ((c / 3 : Nat) : Int))).getD (c % 3) 0 = expectedU stride pkt base c := by
  have := uWord_le (c % 3)
  unfold expectedU
  rw [if_pos (by omega), hexU_getD _ _ _ (Nat.mod_lt _ (by norm_num))]

theorem hexV_expected (stride : Int) (pkt : List Nat) (base : Int) (c : Nat)
    (h : 16 * ((c / 3 : Nat) : Int) + 16 ≤ stride) :
    (hexV pkt (base + 16 * ((c / 3 : Nat) : Int))).getD (c % 3) 0 = expectedV stride pkt base c := by
  have := vWord_le (c % 3)
  unfold expectedV
  rw [if_pos (by omega), hexV_getD _ _ _ (Nat.mod_lt _ (by norm_num))]

theorem xLoop_done (be : Bool) (pkt : List Nat) (width line_end : Int) (fuel : Nat) (x : Int)
    (s : RowState) (h : ¬ x < width) : xLoop be pkt width line_end fuel x s = some (x, s) := by
  cases fuel <;> rw [xLoop, if_neg h]

theorem decodeLine_spec (be : Bool) (pkt : List Nat) (width stride : Int) (ls0 ls1 ls2 : Int)
    (fs : FrameState) (line : Int) (hw : 0 < width) (hst : stride = width * 8 / 3)
    (hle : fs.line_end = fs.src + stride) (h0 : 0 ≤ fs.src)
    (hl : fs.line_end ≤ (pkt.length : Int)) :
    ∃ fs1, decodeLine be pkt width stride ls0 ls1 ls2 fs line = some fs1 ∧
      RowPost be pkt width stride ls0 ls1 ls2 fs line fs1 := by
  -- the complete hextets
  obtain ⟨k, hk⟩ : ∃ k : Nat, (k : Int) = width / 6 := ⟨(width / 6).toNat, by omega⟩
  have hfuel : width.toNat = (width.toNat - k) + k := by omega
  have hs0y : (rowInit ls0 ls1 ls2 fs line).y = .plane (line * ls0) := rfl
  have hs0u : (rowInit ls0 ls1 ls2 fs line).u = .plane (line * ls1) := rfl
  have hs0v : (rowInit ls0 ls1 ls2 fs line).v = .plane (line * ls2) := rfl
  have hs0src : (rowInit ls0 ls1 ls2 fs line).src = fs.src := rfl
  obtain ⟨ky, ku, kv, ksrc, kyt, kut, kvt, krd⟩ :=
    iter_ptrs be pkt (rowInit ls0 ls1 ls2 fs line) _ _ _ hs0y hs0u hs0v k
  obtain ⟨kf0, ks0⟩ := iter_data0 be pkt (rowInit ls0 ls1 ls2 fs line) _ _ _ hs0y hs0u hs0v k
  obtain ⟨kf1, ks1⟩ := iter_data1 be pkt (rowInit ls0 ls1 ls2 fs line) _ _ _ hs0y hs0u hs0v k
  obtain ⟨kf2, ks2⟩ := iter_data2 be pkt (rowInit ls0 ls1 ls2 fs line) _ _ _ hs0y hs0u hs0v k
  have hloop := xLoop_full be pkt width fs.line_end k (width.toNat - k) 0
    (rowInit ls0 ls1 ls2 fs line) (by omega) (by rw [hs0src]; omega) (by rw [hs0src]; exact h0) hl
  rw [← hfuel, zero_add] at hloop
  generalize hsk : (fullHextet be pkt)^[k] (rowInit ls0 ls1 ls2 fs line) = sk at *
  rw [hs0src] at ksrc ks0 ks1 ks2 krd
  have kyt6 : sk.y_temp = [0x8000, 0x8000, 0x8000, 0x8000, 0x8000, 0x8000] := kyt
  have kut3 : sk.u_temp = [0x8000, 0x8000, 0x8000] := kut
  have kvt3 : sk.v_temp = [0x8000, 0x8000, 0x8000] := kvt
  have krd1 : sk.reads = wordOffsets fs.src (4 * k) := by
    rw [krd]; rfl
  have kd0 : (rowInit ls0 ls1 ls2 fs line).data0 = fs.data0 := rfl
  have kd1 : (rowInit ls0 ls1 ls2 fs line).data1 = fs.data1 := rfl
  have kd2 : (rowInit ls0 ls1 ls2 fs line).data2 = fs.data2 := rfl
  rw [kd0] at kf0
  rw [kd1] at kf1
  rw [kd2] at kf2
  -- samples of the complete hextets
  have fullY : ∀ c : Nat, c < 6 * k →
      load16 be sk.data0 (line * ls0 + 2 * (c : Int)) = expectedY stride pkt fs.src c := by
    intro c hc
    rw [ks0 c hc]
    exact hexY_expected stride pkt fs.src c (by omega)
  have fullU : ∀ c : Nat, c < 3 * k →
      load16 be sk.data1 (line * ls1 + 2 * (c : Int)) = expectedU stride pkt fs.src c := by
    intro c hc
    rw [ks1 c hc]
    exact hexU_expected stride pkt fs.src c (by omega)
  have fullV : ∀ c : Nat, c < 3 * k →
      load16 be sk.data2 (line * ls2 + 2 * (c : Int)) = expectedV stride pkt fs.src c := by
    intro c hc
    rw [ks2 c hc]
    exact hexV_expected stride pkt fs.src c (by omega)
  by_cases hr : width = 6 * (k : Int)
  · -- no partial hextet
    have hx : xLoop be pkt width fs.line_end (width.toNat - k) (6 * (k : Int)) sk
        = some (6 * (k : Int), sk) := xLoop_done _ _ _ _ _ _ _ (by omega)
    have hcb : copyBack be width ls0 ls1 ls2 line (6 * (k : Int)) sk
        = some (sk.data0, sk.data1, sk.data2) := by
      unfold copyBack; rw [if_neg (by omega)]
    refine ⟨_, by unfold decodeLine; rw [hloop, hx]; simp only [hcb]; rfl, ?_⟩
    have hn : (stride / 4).toNat = 4 * k := by omega
    constructor
    · simp only; omega
    · rfl
    · simp only; rw [krd1, hn]
    · intro c hc; exact fullY c (by omega)
    · intro a ha; exact kf0 a (by omega)
    · intro i hi; exact fullU i (by omega)
    · intro a ha; exact kf1 a (by omega)
    · intro i hi; exact fullV i (by omega)
    · intro a ha; exact kf2 a (by omega)
  · -- a partial hextet of `width - 6 k` columns
    obtain ⟨nw, hnw⟩ : ∃ nw : Nat, (nw : Int) = (stride - 16 * (k : Int)) / 4 :=
      ⟨((stride - 16 * (k : Int)) / 4).toNat, by omega⟩
    obtain ⟨f, hf⟩ : ∃ f, width.toNat - k = f + 1 := ⟨width.toNat - k - 1, by omega⟩
    have hx : xLoop be pkt width fs.line_end (width.toNat - k) (6 * (k : Int)) sk
        = some (6 * (k : Int), tailState be pkt nw sk) := by
      rw [hf, xLoop, if_pos (by omega),
        hextet_tail nw (by omega) (by omega) (by omega) (by omega) (by omega) hl]
    obtain ⟨t0, t1, t2, trd, tly, tlu, tlv, ty, tu, tv⟩ :=
      tailState_spec be pkt sk nw (by omega) kyt6 kut3 kvt3
    generalize hst1 : tailState be pkt nw sk = st at *
    obtain ⟨d0, hd0⟩ := memcpy_some be st.data0 (line * ls0 + 2 * (6 * (k : Int))) st.y_temp
      (2 * (width - 6 * (k : Int))) (by rw [tly]; push_cast; omega)
    obtain ⟨d1, hd1⟩ := memcpy_some be st.data1 (line * ls1 + 2 * cdiv (6 * (k : Int)) 2) st.u_temp
      (2 * (width - 6 * (k : Int) + 1) / 2) (by rw [tlu]; push_cast; omega)
    obtain ⟨d2, hd2⟩ := memcpy_some be st.data2 (line * ls2 + 2 * cdiv (6 * (k : Int)) 2) st.v_temp
      (2 * (width - 6 * (k : Int) + 1) / 2) (by rw [tlv]; push_cast; omega)
    have hcb : copyBack be width ls0 ls1 ls2 line (6 * (k : Int)) st = some (d0, d1, d2) := by
      unfold copyBack; rw [if_pos (by omega), hd0, hd1, hd2]
    refine ⟨_, by unfold decodeLine; rw [hloop, hx]; simp only [hcb]; rfl, ?_⟩
    have hcd : cdiv (6 * (k : Int)) 2 = 3 * (k : Int) := by
      rw [cdiv_of_nonneg (by omega) (by norm_num)]; omega
    rw [hcd] at hd1 hd2
    have hn : (stride / 4).toNat = 4 * k + nw := by omega
    constructor
    · simp only; omega
    · rfl
    · simp only
      have e : fs.src + 16 * (k : Int) = fs.src + 4 * ((4 * k : Nat) : Int) := by
        push_cast; ring
      rw [trd, krd1, hn, ksrc, e, wordOffsets_append]
    · intro c hc
      simp only
      by_cases hck : c < 6 * k
      · rw [load16_congr (memcpy_outside hd0 (Or.inl (by omega)))
          (memcpy_outside hd0 (Or.inl (by omega))), t0]
        exact fullY c hck
      · obtain ⟨p, hp⟩ : ∃ p : Nat, c = 6 * k + p := ⟨c - 6 * k, by omega⟩
        have hp6 : p < 6 := by omega
        have ea : line * ls0 + 2 * (c : Int)
            = (line * ls0 + 2 * (6 * (k : Int))) + 2 * (p : Int) := by
          rw [hp]; push_cast; ring
        have hv : st.y_temp.getD p 0 < 65536 := by
          rw [ty p hp6]; split
          · exact yField_lt _ _
          · norm_num
        rw [ea, load16_memcpy hd0 p (by omega) hv, ty p hp6]
        have e1 : c / 6 = k := by omega
        have e2 : c % 6 = p := by omega
        have := yWord_le p
        unfold expectedY
        rw [e1, e2, ksrc]
        by_cases hq : yWord p < nw
        · rw [if_pos hq, if_pos (by omega)]
        · rw [if_neg hq, if_neg (by omega)]
    · intro a ha
      simp only
      rw [memcpy_outside hd0 (by omega), t0]
      exact kf0 a (by omega)
    · intro i hi
      simp only
      by_cases hck : i < 3 * k
      · rw [load16_congr (memcpy_outside hd1 (Or.inl (by omega)))
          (memcpy_outside hd1 (Or.inl (by omega))), t1]
        exact fullU i hck
      · obtain ⟨p, hp⟩ : ∃ p : Nat, i = 3 * k + p := ⟨i - 3 * k, by omega⟩
        have hp3 : p < 3 := by omega
        have ea : line * ls1 + 2 * (i : Int)
            = (line * ls1 + 2 * (3 * (k : Int))) + 2 * (p : Int) := by
          rw [hp]; push_cast; ring
        have hv : st.u_temp.getD p 0 < 65536 := by
          rw [tu p hp3]; split
          · exact uField_lt _ _
          · norm_num
        rw [ea, load16_memcpy hd1 p (by omega) hv, tu p hp3]
        have e1 : i / 3 = k := by omega
        have e2 : i % 3 = p := by omega
        have := uWord_le p
        unfold expectedU
        rw [e1, e2, ksrc]
        by_cases hq : uWord p < nw
        · rw [if_pos hq, if_pos (by omega)]
        · rw [if_neg hq, if_neg (by omega)]
    · intro a ha
      simp only
      rw [memcpy_outside hd1 (by omega), t1]
      exact kf1 a (by omega)
    · intro i hi
      simp only
      by_cases hck : i < 3 * k
      · rw [load16_congr (memcpy_outside hd2 (Or.inl (by omega)))
          (memcpy_outside hd2 (Or.inl (by omega))), t2]
        exact fullV i hck
      · obtain ⟨p, hp⟩ : ∃ p : Nat, i = 3 * k + p := ⟨i - 3 * k, by omega⟩
        have hp3 : p < 3 := by omega
        have ea : line * ls2 + 2 * (i : Int)
            = (line * ls2 + 2 * (3 * (k : Int))) + 2 * (p : Int) := by
          rw [hp]; push_cast; ring
        have hv : st.v_temp.getD p 0 < 65536 := by
          rw [tv p hp3]; split
          · exact vField_lt _ _
          · norm_num
        rw [ea, load16_memcpy hd2 p (by omega) hv, tv p hp3]
        have e1 : i / 3 = k := by omega
        have e2 : i % 3 = p := by omega
        have := vWord_le p
        unfold expectedV
        rw [e1, e2, ksrc]
        by_cases hq : vWord p < nw
        · rw [if_pos hq, if_pos (by omega)]
        · rw [if_neg hq, if_neg (by omega)]
    · intro a ha
      simp only
      rw [memcpy_outside hd2 (by omega), t2]
      exact kf2 a (by omega)

/-! ## The loop over the rows -/

theorem lineLoop_done (be : Bool) (pkt : List Nat) (width height stride ls0 ls1 ls2 : Int)
    (fuel : Nat) (line : Int) (fs : FrameState) (h : ¬ line < height) :
    lineLoop be pkt width height stride ls0 ls1 ls2 fuel line fs = some fs := by
  cases fuel <;> rw [lineLoop, if_neg h]

theorem row_mono {a b c : Int} (h : a + 1 ≤ b) (hc : 0 ≤ c) : a * c + c ≤ b * c := by
  have := Int.mul_le_mul_of_nonneg_right h hc
  linarith

theorem lineLoop_spec (be : Bool) (pkt : List Nat) (width height stride ls0 ls1 ls2 : Int)
    (hw : 0 < width) (hst : stride = width * 8 / 3) (hls0 : 2 * width ≤ ls0)
    (hls1 : 2 * ((width + 1) / 2) ≤ ls1) (hls2 : 2 * ((width + 1) / 2) ≤ ls2)
    (hlen : height * stride ≤ (pkt.length : Int)) (n : Nat) :
    ∀ (fuel : Nat) (line : Int) (fs : FrameState), (n : Int) = height - line → n ≤ fuel →
      0 ≤ line → fs.src = line * stride → fs.line_end = fs.src + stride →
      ∃ fs1, lineLoop be pkt width height stride ls0 ls1 ls2 fuel line fs = some fs1 ∧
        FramePost be pkt width height stride ls0 ls1 ls2 fs line n fs1 := by
  have hs0 : 0 ≤ stride := by omega
  induction n with
  | zero =>
    intro fuel line fs hn _ _ _ _
    refine ⟨fs, lineLoop_done _ _ _ _ _ _ _ _ _ _ _ (by omega), ?_⟩
    constructor
    · simp [frameReads]
    · intro l h1 h2; omega
    · intro a _; rfl
    · intro l h1 h2; omega
    · intro a _; rfl
    · intro l h1 h2; omega
    · intro a _; rfl
  | succ n ih =>
    intro fuel line fs hn hfuel hline hsrc hle
    push_cast at hn
    obtain ⟨f, hf⟩ : ∃ f, fuel = f + 1 := ⟨fuel - 1, by omega⟩
    have hbound : line * stride + stride ≤ height * stride := row_mono (by omega) hs0
    obtain ⟨fs1, hrow, post⟩ := decodeLine_spec be pkt width stride ls0 ls1 ls2 fs line hw hst hle
      (by rw [hsrc]; exact Int.mul_nonneg hline hs0) (by omega)
    have hsrc1 : fs1.src = (line + 1) * stride := by
      rw [post.src_eq, hsrc]; ring
    obtain ⟨fs2, hrest, post2⟩ := ih f (line + 1) fs1 (by omega) (by omega) (by omega) hsrc1
      (by rw [post.line_end_eq, post.src_eq, hle])
    refine ⟨fs2, by rw [hf, lineLoop, if_pos (by omega), hrow]; exact hrest, ?_⟩
    have hl0 : 0 ≤ ls0 := by omega
    have hl1 : 0 ≤ ls1 := by omega
    have hl2 : 0 ≤ ls2 := by omega
    constructor
    · rw [post2.reads_eq, post.reads_eq, hsrc, List.append_assoc]
      rfl
    · intro l h1 h2 c hc
      by_cases hl : l = line
      · subst hl
        rw [load16_congr
          (post2.y_frame _ (fun l1 g1 _ => Or.inl (by have := row_mono g1 hl0; omega)))
          (post2.y_frame _ (fun l1 g1 _ => Or.inl (by have := row_mono g1 hl0; omega))),
          post.y_sample c hc, hsrc]
      · exact post2.y_sample l (by omega) h2 c hc
    · intro a ha
      rw [post2.y_frame a (fun l1 g1 g2 => ha l1 (by omega) g2),
        post.y_frame a (ha line (le_refl _) (by omega))]
    · intro l h1 h2 c hc
      by_cases hl : l = line
      · subst hl
        rw [load16_congr
          (post2.u_frame _ (fun l1 g1 _ => Or.inl (by have := row_mono g1 hl1; omega)))
          (post2.u_frame _ (fun l1 g1 _ => Or.inl (by have := row_mono g1 hl1; omega))),
          post.u_sample c hc, hsrc]
      · exact post2.u_sample l (by omega) h2 c hc
    · intro a ha
      rw [post2.u_frame a (fun l1 g1 g2 => ha l1 (by omega) g2),
        post.u_frame a (ha line (le_refl _) (by omega))]
    · intro l h1 h2 c hc
      by_cases hl : l = line
      · subst hl
        rw [load16_congr
          (post2.v_frame _ (fun l1 g1 _ => Or.inl (by have := row_mono g1 hl2; omega)))
          (post2.v_frame _ (fun l1 g1 _ => Or.inl (by have := row_mono g1 hl2; omega))),
          post.v_sample c hc, hsrc]
      · exact post2.v_sample l (by omega) h2 c hc
    · intro a ha
      rw [post2.v_frame a (fun l1 g1 g2 => ha l1 (by omega) g2),
        post.v_frame a (ha line (le_refl _) (by omega))]

theorem lineLoop_some (be : Bool) (pkt : List Nat) (width height stride ls0 ls1 ls2 : Int)
    (hw : 0 < width) (hst : stride = width * 8 / 3)
    (hlen : height * stride ≤ (pkt.length : Int)) (n : Nat) :
    ∀ (fuel : Nat) (line : Int) (fs : FrameState), (n : Int) = height - line → n ≤ fuel →
      0 ≤ line → fs.src = line * stride → fs.line_end = fs.src + stride →
      ∃ fs1, lineLoop be pkt width height stride ls0 ls1 ls2 fuel line fs = some fs1 ∧
        fs1.reads = fs.reads ++ frameReads stride line n := by
  have hs0 : 0 ≤ stride := by omega
  induction n with
  | zero =>
    intro fuel line fs hn _ _ _ _
    exact ⟨fs, lineLoop_done _ _ _ _ _ _ _ _ _ _ _ (by omega), by simp [frameReads]⟩
  | succ n ih =>
    intro fuel line fs hn hfuel hline hsrc hle
    push_cast at hn
    obtain ⟨f, hf⟩ : ∃ f, fuel = f + 1 := ⟨fuel - 1, by omega⟩
    have hbound : line * stride + stride ≤ height * stride := row_mono (by omega) hs0
    obtain ⟨fs1, hrow, post⟩ := decodeLine_spec be pkt width stride ls0 ls1 ls2 fs line hw hst hle
      (by rw [hsrc]; exact Int.mul_nonneg hline hs0) (by omega)
    have hsrc1 : fs1.src = (line + 1) * stride := by
      rw [post.src_eq, hsrc]; ring
    obtain ⟨fs2, hrest, hreads⟩ := ih f (line + 1) fs1 (by omega) (by omega) (by omega) hsrc1
      (by rw [post.line_end_eq, post.src_eq, hle])
    refine ⟨fs2, by rw [hf, lineLoop, if_pos (by omega), hrow]; exact hrest, ?_⟩
    rw [hreads, post.reads_eq, hsrc, List.append_assoc]
    rfl

/-! ## The decode call -/

theorem wrapInt32_id {n : Int} (h0 : -2147483648 ≤ n) (h1 : n ≤ 2147483647) :
    wrapInt32 n = n := by
  unfold wrapInt32; omega

theorem strideOf_eq {width : Int} (h0 : 0 ≤ width) (h : width * 8 ≤ 2147483647) :
    strideOf width = width * 8 / 3 := by
  unfold strideOf
  rw [wrapInt32_id (by omega) h, cdiv_of_nonneg (by omega) (by norm_num)]

/-- The outcome of a call that passes both checks and obtains a buffer, in terms
of the state in which the loop over the rows ends. -/
theorem decode_of_lineLoop (be : Bool) (E : Int) (width height : Int) (has_buffer : Bool)
    (pkt : List Nat) (gb : Int × Picture) (hw : 1 < width) (hh : 0 < height)
    (hw8 : width * 8 ≤ 2147483647) (hlen : height * (width * 8 / 3) ≤ (pkt.length : Int))
    (hsz : (pkt.length : Int) ≤ 2147483647) (halloc : 0 ≤ gb.1) (fs : FrameState)
    (hfs : lineLoop be pkt width height (width * 8 / 3) gb.2.linesize0 gb.2.linesize1
      gb.2.linesize2 height.toNat 0
      { data0 := gb.2.data0, data1 := gb.2.data1, data2 := gb.2.data2
        src := 0, line_end := width * 8 / 3, reads := [] } = some fs) :
    zero12v_decode_frame be E width height has_buffer pkt gb
      = some { ret := (pkt.length : Int), got_frame := some 1
               frame := some { gb.2 with data0 := fs.data0, data1 := fs.data1, data2 := fs.data2 }
               has_buffer := true
               calls := (if has_buffer then [PoolCall.release_buffer] else [])
                 ++ [PoolCall.get_buffer]
               reads := fs.reads, log := [] } := by
  have hs : strideOf width = width * 8 / 3 := strideOf_eq (by omega) hw8
  have hp : 0 ≤ height * (width * 8 / 3) := Int.mul_nonneg (by omega) (by omega)
  unfold zero12v_decode_frame
  simp only [hs]
  rw [if_neg (by omega), wrapInt32_id (by omega) (by omega), if_neg (by omega),
    if_neg (by omega), hfs]

/-- Every in-width sample of the frame that an accepted call stores is the
expected sample of its row, and the words read are those of the rows in order. -/
theorem decode_expected_reads (be : Bool) (E : Int) (width height : Int) (has_buffer : Bool)
    (pkt : List Nat) (gb : Int × Picture) (hw : 1 < width) (hh : 0 < height)
    (hw8 : width * 8 ≤ 2147483647) (hlen : height * (width * 8 / 3) ≤ (pkt.length : Int))
    (hsz : (pkt.length : Int) ≤ 2147483647) (halloc : 0 ≤ gb.1)
    (hls0 : 2 * width ≤ gb.2.linesize0) (hls1 : 2 * ((width + 1) / 2) ≤ gb.2.linesize1)
    (hls2 : 2 * ((width + 1) / 2) ≤ gb.2.linesize2) :
    ∃ out pic, zero12v_decode_frame be E width height has_buffer pkt gb = some out ∧
      out.frame = some pic ∧
      (∀ l c : Nat, (l : Int) < height → (c : Int) < width →
        sampleY be pic l c = expectedY (width * 8 / 3) pkt ((l : Int) * (width * 8 / 3)) c) ∧
      (∀ l i : Nat, (l : Int) < height → (i : Int) < (width + 1) / 2 →
        sampleU be pic l i = expectedU (width * 8 / 3) pkt ((l : Int) * (width * 8 / 3)) i) ∧
      (∀ l i : Nat, (l : Int) < height → (i : Int) < (width + 1) / 2 →
        sampleV be pic l i = expectedV (width * 8 / 3) pkt ((l : Int) * (width * 8 / 3)) i) ∧
      out.reads = frameReads (width * 8 / 3) 0 height.toNat := by
  obtain ⟨fs, hfs, post⟩ := lineLoop_spec be pkt width height (width * 8 / 3) gb.2.linesize0
    gb.2.linesize1 gb.2.linesize2 (by omega) rfl hls0 hls1 hls2 hlen height.toNat height.toNat 0
    { data0 := gb.2.data0, data1 := gb.2.data1, data2 := gb.2.data2
      src := 0, line_end := width * 8 / 3, reads := [] }
    (by omega) (le_refl _) (le_refl _) (by simp) (by simp)
  refine ⟨_, _, decode_of_lineLoop be E width height has_buffer pkt gb hw hh hw8 hlen hsz halloc
    fs hfs, rfl, ?_, ?_, ?_, ?_⟩
  · intro l c hl hc
    exact post.y_sample l (by omega) hl c hc
  · intro l i hl hi
    exact post.u_sample l (by omega) hl i hi
  · intro l i hl hi
    exact post.v_sample l (by omega) hl i hi
  · simp only [post.reads_eq, List.nil_append]

/-- Every in-width sample of the frame that an accepted call stores is the
expected sample of its row. -/
theorem decode_expected (be : Bool) (E : Int) (width height : Int) (has_buffer : Bool)
    (pkt : List Nat) (gb : Int × Picture) (hw : 1 < width) (hh : 0 < height)
    (hw8 : width * 8 ≤ 2147483647) (hlen : height * (width * 8 / 3) ≤ (pkt.length : Int))
    (hsz : (pkt.length : Int) ≤ 2147483647) (halloc : 0 ≤ gb.1)
    (hls0 : 2 * width ≤ gb.2.linesize0) (hls1 : 2 * ((width + 1) / 2) ≤ gb.2.linesize1)
    (hls2 : 2 * ((width + 1) / 2) ≤ gb.2.linesize2) :
    ∃ out pic, zero12v_decode_frame be E width height has_buffer pkt gb = some out ∧
      out.frame = some pic ∧
      (∀ l c : Nat, (l : Int) < height → (c : Int) < width →
        sampleY be pic l c = expectedY (width * 8 / 3) pkt ((l : Int) * (width * 8 / 3)) c) ∧
      (∀ l i : Nat, (l : Int) < height → (i : Int) < (width + 1) / 2 →
        sampleU be pic l i = expectedU (width * 8 / 3) pkt ((l : Int) * (width * 8 / 3)) i) ∧
      (∀ l i : Nat, (l : Int) < height → (i : Int) < (width + 1) / 2 →
        sampleV be pic l i = expectedV (width * 8 / 3) pkt ((l : Int) * (width * 8 / 3)) i) := by
  obtain ⟨out, pic, h1, h2, h3, h4, h5, -⟩ := decode_expected_reads be E width height has_buffer
    pkt gb hw hh hw8 hlen hsz halloc hls0 hls1 hls2
  exact ⟨out, pic, h1, h2, h3, h4, h5⟩

theorem wordAt_natCast (pkt : List Nat) (n : Nat) : wordAt pkt (n : Int) = rl32 pkt n := by
  unfold wordAt; rw [Int.toNat_ofNat]

theorem wordAt_of_eq (pkt : List Nat) (o : Int) (n : Nat) (h : o = (n : Int)) :
    wordAt pkt o = rl32 pkt n := by
  rw [h, wordAt_natCast]

/-! ## Properties of the decoder -/

/-- C2 (word bit-extraction round trip): for 10-bit values `f0`, `f1`, `f2` and a
2-bit value `p`, the 32-bit word `f0 | f1<<10 | f2<<20 | p<<30` decodes to exactly
`f0<<6`, `f1<<6` and `f2<<6`, which are 16-bit values; whatever the word, the
three fields are the three 10-bit groups of its low 30 bits, so bits 30-31
influence no output. -/
theorem word_fields_round_trip (f0 f1 f2 p : Nat) (h0 : f0 < 1024) (h1 : f1 < 1024)
    (h2 : f2 < 1024) (hp : p < 4) :
    f0 ||| f1 <<< 10 ||| f2 <<< 20 ||| p <<< 30 < 4294967296 ∧
    field_a (f0 ||| f1 <<< 10 ||| f2 <<< 20 ||| p <<< 30) = f0 <<< 6 ∧
    field_b (f0 ||| f1 <<< 10 ||| f2 <<< 20 ||| p <<< 30) = f1 <<< 6 ∧
    field_c (f0 ||| f1 <<< 10 ||| f2 <<< 20 ||| p <<< 30) = f2 <<< 6 ∧
    f0 <<< 6 < 65536 ∧ f1 <<< 6 < 65536 ∧ f2 <<< 6 < 65536 ∧
    (∀ t : Nat, field_a t = (t % 1024) <<< 6 ∧ field_b t = (t / 1024 % 1024) <<< 6 ∧
      field_c t = (t / 1048576 % 1024) <<< 6) := by
  rw [or_fields_eq_sum f0 f1 f2 p h0 h1 h2, field_a_eq, field_b_eq, field_c_eq]
  simp only [Nat.shiftLeft_eq]
  refine ⟨by omega, by omega, by omega, by omega, by omega, by omega, by omega, ?_⟩
  intro t
  rw [field_a_eq, field_b_eq, field_c_eq]
  exact ⟨by norm_num, by norm_num, by norm_num⟩

/-- Witness of C2: the fields 0x155, 0x2AA, 0x3FF with padding bits 3. -/
theorem word_fields_round_trip_witness :
    field_a (0x155 ||| 0x2AA <<< 10 ||| 0x3FF <<< 20 ||| 3 <<< 30) = 0x155 <<< 6 ∧
    field_b (0x155 ||| 0x2AA <<< 10 ||| 0x3FF <<< 20 ||| 3 <<< 30) = 0x2AA <<< 6 ∧
    field_c (0x155 ||| 0x2AA <<< 10 ||| 0x3FF <<< 20 ||| 3 <<< 30) = 0x3FF <<< 6 :=
  have h := word_fields_round_trip 0x155 0x2AA 0x3FF 3 (by decide) (by decide) (by decide)
    (by decide)
  ⟨h.2.1, h.2.2.1, h.2.2.2.1⟩

theorem expectedY_full (stride : Int) (pkt : List Nat) (base j p : Nat) (hp : p < 6)
    (h : 16 * (j : Int) + 16 ≤ stride) :
    expectedY stride pkt (base : Int) (6 * j + p)
      = yField p (rl32 pkt (base + 16 * j + 4 * yWord p)) := by
  have e1 : (6 * j + p) / 6 = j := by omega
  have e2 : (6 * j + p) % 6 = p := by omega
  have := yWord_le p
  unfold expectedY
  rw [e1, e2, if_pos (by omega),
    wordAt_of_eq _ _ (base + 16 * j + 4 * yWord p) (by push_cast; ring)]

theorem expectedU_full (stride : Int) (pkt : List Nat) (base j p : Nat) (hp : p < 3)
    (h : 16 * (j : Int) + 16 ≤ stride) :
    expectedU stride pkt (base : Int) (3 * j + p)
      = uField p (rl32 pkt (base + 16 * j + 4 * uWord p)) := by
  have e1 : (3 * j + p) / 3 = j := by omega
  have e2 : (3 * j + p) % 3 = p := by omega
  have := uWord_le p
  unfold expectedU
  rw [e1, e2, if_pos (by omega),
    wordAt_of_eq _ _ (base + 16 * j + 4 * uWord p) (by push_cast; ring)]

theorem expectedV_full (stride : Int) (pkt : List Nat) (base j p : Nat) (hp : p < 3)
    (h : 16 * (j : Int) + 16 ≤ stride) :
    expectedV stride pkt (base : Int) (3 * j + p)
      = vField p (rl32 pkt (base + 16 * j + 4 * vWord p)) := by
  have e1 : (3 * j + p) / 3 = j := by omega
  have e2 : (3 * j + p) % 3 = p := by omega
  have := vWord_le p
  unfold expectedV
  rw [e1, e2, if_pos (by omega),
    wordAt_of_eq _ _ (base + 16 * j + 4 * vWord p) (by push_cast; ring)]

/-- C1 (full-hextet decoding): for `width = 6 k` with `k ≥ 1` (and `8 * width`
within the `int` range), `height = h > 0` and a packet of at least `h * 16 k`
bytes, a call whose allocation succeeds (rows of the supplied planes not
overlapping) stores a frame in which, for every row `l < h` and group `j < k`,
with `w1..w4` the little-endian words at packet offset `l * 16 k + 16 j`,
`Y[l][6j..6j+5] = [b w1, a w2, c w2, b w3, a w4, c w4]`,
`U[l][3j..3j+2] = [a w1, b w2, c w3]` and `V[l][3j..3j+2] = [c w1, a w3, b w4]`. -/
theorem full_hextet_decoding (be : Bool) (E : Int) (k h : Nat) (has_buffer : Bool)
    (pkt : List Nat) (gb : Int × Picture) (hk : 1 ≤ k) (hh : 0 < h)
    (hint : 6 * k * 8 ≤ 2147483647) (hlen : h * (16 * k) ≤ pkt.length)
    (hsz : pkt.length ≤ 2147483647) (halloc : 0 ≤ gb.1)
    (hls0 : 2 * ((6 * k : Nat) : Int) ≤ gb.2.linesize0)
    (hls1 : ((6 * k : Nat) : Int) ≤ gb.2.linesize1)
    (hls2 : ((6 * k : Nat) : Int) ≤ gb.2.linesize2) :
    ∃ out pic, zero12v_decode_frame be E ((6 * k : Nat) : Int) (h : Int) has_buffer pkt gb
        = some out ∧ out.frame = some pic ∧
      ∀ l j : Nat, l < h → j < k →
        sampleY be pic l (6 * j) = field_b (rl32 pkt (l * (16 * k) + 16 * j)) ∧
        sampleY be pic l (6 * j + 1) = field_a (rl32 pkt (l * (16 * k) + 16 * j + 4)) ∧
        sampleY be pic l (6 * j + 2) = field_c (rl32 pkt (l * (16 * k) + 16 * j + 4)) ∧
        sampleY be pic l (6 * j + 3) = field_b (rl32 pkt (l * (16 * k) + 16 * j + 8)) ∧
        sampleY be pic l (6 * j + 4) = field_a (rl32 pkt (l * (16 * k) + 16 * j + 12)) ∧
        sampleY be pic l (6 * j + 5) = field_c (rl32 pkt (l * (16 * k) + 16 * j + 12)) ∧
        sampleU be pic l (3 * j) = field_a (rl32 pkt (l * (16 * k) + 16 * j)) ∧
        sampleU be pic l (3 * j + 1) = field_b (rl32 pkt (l * (16 * k) + 16 * j + 4)) ∧
        sampleU be pic l (3 * j + 2) = field_c (rl32 pkt (l * (16 * k) + 16 * j + 8)) ∧
        sampleV be pic l (3 * j) = field_c (rl32 pkt (l * (16 * k) + 16 * j)) ∧
        sampleV be pic l (3 * j + 1) = field_a (rl32 pkt (l * (16 * k) + 16 * j + 8)) ∧
        sampleV be pic l (3 * j + 2) = field_b (rl32 pkt (l * (16 * k) + 16 * j + 12)) := by
  have hst : ((6 * k : Nat) : Int) * 8 / 3 = ((16 * k : Nat) : Int) := by push_cast; omega
  obtain ⟨out, pic, hout, hpic, hy, hu, hv⟩ := decode_expected be E ((6 * k : Nat) : Int) (h : Int)
    has_buffer pkt gb (by push_cast; omega) (by omega) (by push_cast; omega)
    (by rw [hst]; exact_mod_cast hlen) (by exact_mod_cast hsz) halloc hls0
    (by push_cast at hls1 ⊢; omega) (by push_cast at hls2 ⊢; omega)
  refine ⟨out, pic, hout, hpic, ?_⟩
  intro l j hl hj
  rw [hst] at hy hu hv
  have hb : ((l : Nat) : Int) * ((16 * k : Nat) : Int) = ((l * (16 * k) : Nat) : Int) := by
    push_cast; ring
  have hg : 16 * (j : Int) + 16 ≤ ((16 * k : Nat) : Int) := by push_cast; omega
  have y0 := hy l (6 * j + 0) (by exact_mod_cast hl) (by push_cast; omega)
  have y1 := hy l (6 * j + 1) (by exact_mod_cast hl) (by push_cast; omega)
  have y2 := hy l (6 * j + 2) (by exact_mod_cast hl) (by push_cast; omega)
  have y3 := hy l (6 * j + 3) (by exact_mod_cast hl) (by push_cast; omega)
  have y4 := hy l (6 * j + 4) (by exact_mod_cast hl) (by push_cast; omega)
  have y5 := hy l (6 * j + 5) (by exact_mod_cast hl) (by push_cast; omega)
  have u0 := hu l (3 * j + 0) (by exact_mod_cast hl) (by push_cast; omega)
  have u1 := hu l (3 * j + 1) (by exact_mod_cast hl) (by push_cast; omega)
  have u2 := hu l (3 * j + 2) (by exact_mod_cast hl) (by push_cast; omega)
  have v0 := hv l (3 * j + 0) (by exact_mod_cast hl) (by push_cast; omega)
  have v1 := hv l (3 * j + 1) (by exact_mod_cast hl) (by push_cast; omega)
  have v2 := hv l (3 * j + 2) (by exact_mod_cast hl) (by push_cast; omega)
  rw [hb, expectedY_full _ _ _ _ _ (by norm_num) hg] at y0 y1 y2 y3 y4 y5
  rw [hb, expectedU_full _ _ _ _ _ (by norm_num) hg] at u0 u1 u2
  rw [hb, expectedV_full _ _ _ _ _ (by norm_num) hg] at v0 v1 v2
  exact ⟨y0, y1, y2, y3, y4, y5, u0, u1, u2, v0, v1, v2⟩

/-- Witness of C1: one hextet, one row; the samples are the twelve fields, each
shifted left by 6. -/
theorem full_hextet_decoding_witness :
    ∃ out pic, zero12v_decode_frame false (-1094995529) 6 1 false hextetPacket
        (0, filledPicture 0xAA 12 6 6) = some out ∧ out.frame = some pic ∧
      sampleY false pic 0 0 = 2 * 64 ∧ sampleY false pic 0 1 = 4 * 64 ∧
      sampleY false pic 0 2 = 6 * 64 ∧ sampleY false pic 0 3 = 8 * 64 ∧
      sampleY false pic 0 4 = 10 * 64 ∧ sampleY false pic 0 5 = 12 * 64 ∧
      sampleU false pic 0 0 = 1 * 64 ∧ sampleU false pic 0 1 = 5 * 64 ∧
      sampleU false pic 0 2 = 9 * 64 ∧
      sampleV false pic 0 0 = 3 * 64 ∧ sampleV false pic 0 1 = 7 * 64 ∧
      sampleV false pic 0 2 = 11 * 64 := by
  obtain ⟨out, pic, h1, h2, h3⟩ := full_hextet_decoding false (-1094995529) 1 1 false hextetPacket
    (0, filledPicture 0xAA 12 6 6) (by decide) (by decide) (by decide) (by decide) (by decide)
    (by decide) (by decide) (by decide) (by decide)
  obtain ⟨y0, y1, y2, y3, y4, y5, u0, u1, u2, v0, v1, v2⟩ := h3 0 0 (by decide) (by decide)
  exact ⟨out, pic, h1, h2, y0.trans (by decide), y1.trans (by decide), y2.trans (by decide),
    y3.trans (by decide), y4.trans (by decide), y5.trans (by decide), u0.trans (by decide),
    u1.trans (by decide), u2.trans (by decide), v0.trans (by decide), v1.trans (by decide),
    v2.trans (by decide)⟩

theorem expectedY_nat (pkt : List Nat) (stride base j p : Nat) (hp : p < 6) :
    expectedY (stride : Int) pkt (base : Int) (6 * j + p)
      = if 16 * j + 4 * yWord p + 4 ≤ stride then
          yField p (rl32 pkt (base + 16 * j + 4 * yWord p))
        else 0x8000 := by
  have e1 : (6 * j + p) / 6 = j := by omega
  have e2 : (6 * j + p) % 6 = p := by omega
  unfold expectedY
  rw [e1, e2, wordAt_of_eq _ _ (base + 16 * j + 4 * yWord p) (by push_cast; ring)]
  by_cases hq : 16 * j + 4 * yWord p + 4 ≤ stride
  · rw [if_pos hq, if_pos (by omega)]
  · rw [if_neg hq, if_neg (by omega)]

theorem expectedU_nat (pkt : List Nat) (stride base j p : Nat) (hp : p < 3) :
    expectedU (stride : Int) pkt (base : Int) (3 * j + p)
      = if 16 * j + 4 * uWord p + 4 ≤ stride then
          uField p (rl32 pkt (base + 16 * j + 4 * uWord p))
        else 0x8000 := by
  have e1 : (3 * j + p) / 3 = j := by omega
  have e2 : (3 * j + p) % 3 = p := by omega
  unfold expectedU
  rw [e1, e2, wordAt_of_eq _ _ (base + 16 * j + 4 * uWord p) (by push_cast; ring)]
  by_cases hq : 16 * j + 4 * uWord p + 4 ≤ stride
  · rw [if_pos hq, if_pos (by omega)]
  · rw [if_neg hq, if_neg (by omega)]

theorem expectedV_nat (pkt : List Nat) (stride base j p : Nat) (hp : p < 3) :
    expectedV (stride : Int) pkt (base : Int) (3 * j + p)
      = if 16 * j + 4 * vWord p + 4 ≤ stride then
          vField p (rl32 pkt (base + 16 * j + 4 * vWord p))
        else 0x8000 := by
  have e1 : (3 * j + p) / 3 = j := by omega
  have e2 : (3 * j + p) % 3 = p := by omega
  unfold expectedV
  rw [e1, e2, wordAt_of_eq _ _ (base + 16 * j + 4 * vWord p) (by push_cast; ring)]
  by_cases hq : 16 * j + 4 * vWord p + 4 ≤ stride
  · rw [if_pos hq, if_pos (by omega)]
  · rw [if_neg hq, if_neg (by omega)]

/-- C3 (partial-hextet tail content): for `width = 6 k + r` with `1 ≤ r ≤ 5`,
`width > 1` (and `8 * width` within the `int` range), `height = h > 0` and a
packet of at least `h * stride` bytes, `stride = floor(width * 8 / 3)`, a call
whose allocation succeeds stores a frame in which, in every row `l < h`, the tail
samples `Y[l][6k + p]` (`p < r`), `U[l][3k + p]` and `V[l][3k + p]`
(`p < ceil(r/2)`) hold the field of their word of the trailing hextet (`yWord`,
`uWord`, `vWord`: words 1,2,2,3,4,4 for Y, 1,2,3 for U, 1,3,4 for V) when the
four bytes of that word lie inside the `stride` bytes of the row, and `0x8000`
when they do not. -/
theorem trailing_hextet_content (be : Bool) (E : Int) (k r h : Nat) (has_buffer : Bool)
    (pkt : List Nat) (gb : Int × Picture) (hr1 : 1 ≤ r) (hr5 : r ≤ 5) (hw : 1 < 6 * k + r)
    (hh : 0 < h) (hint : (6 * k + r) * 8 ≤ 2147483647)
    (hlen : h * ((6 * k + r) * 8 / 3) ≤ pkt.length) (hsz : pkt.length ≤ 2147483647)
    (halloc : 0 ≤ gb.1) (hls0 : 2 * ((6 * k + r : Nat) : Int) ≤ gb.2.linesize0)
    (hls1 : 2 * (((6 * k + r + 1) / 2 : Nat) : Int) ≤ gb.2.linesize1)
    (hls2 : 2 * (((6 * k + r + 1) / 2 : Nat) : Int) ≤ gb.2.linesize2) :
    ∃ out pic, zero12v_decode_frame be E ((6 * k + r : Nat) : Int) (h : Int) has_buffer pkt gb
        = some out ∧ out.frame = some pic ∧
      ∀ l : Nat, l < h →
        (∀ p : Nat, p < r → sampleY be pic l (6 * k + p) =
          if 16 * k + 4 * yWord p + 4 ≤ (6 * k + r) * 8 / 3 then
            yField p (rl32 pkt (l * ((6 * k + r) * 8 / 3) + 16 * k + 4 * yWord p))
          else 0x8000) ∧
        (∀ p : Nat, p < (r + 1) / 2 → sampleU be pic l (3 * k + p) =
          if 16 * k + 4 * uWord p + 4 ≤ (6 * k + r) * 8 / 3 then
            uField p (rl32 pkt (l * ((6 * k + r) * 8 / 3) + 16 * k + 4 * uWord p))
          else 0x8000) ∧
        (∀ p : Nat, p < (r + 1) / 2 → sampleV be pic l (3 * k + p) =
          if 16 * k + 4 * vWord p + 4 ≤ (6 * k + r) * 8 / 3 then
            vField p (rl32 pkt (l * ((6 * k + r) * 8 / 3) + 16 * k + 4 * vWord p))
          else 0x8000) := by
  have hst : ((6 * k + r : Nat) : Int) * 8 / 3 = (((6 * k + r) * 8 / 3 : Nat) : Int) := by
    push_cast; omega
  obtain ⟨out, pic, hout, hpic, hy, hu, hv⟩ := decode_expected be E ((6 * k + r : Nat) : Int)
    (h : Int) has_buffer pkt gb (by push_cast; omega) (by omega) (by push_cast; omega)
    (by rw [hst]; exact_mod_cast hlen) (by exact_mod_cast hsz) halloc hls0
    (by push_cast at hls1 ⊢; omega) (by push_cast at hls2 ⊢; omega)
  refine ⟨out, pic, hout, hpic, ?_⟩
  intro l hl
  rw [hst] at hy hu hv
  have hb : ((l : Nat) : Int) * (((6 * k + r) * 8 / 3 : Nat) : Int)
      = ((l * ((6 * k + r) * 8 / 3) : Nat) : Int) := by
    push_cast; ring
  refine ⟨?_, ?_, ?_⟩
  · intro p hp
    rw [hy l (6 * k + p) (by exact_mod_cast hl) (by push_cast; omega), hb,
      expectedY_nat _ _ _ _ _ (by omega)]
  · intro p hp
    rw [hu l (3 * k + p) (by exact_mod_cast hl) (by push_cast; omega), hb,
      expectedU_nat _ _ _ _ _ (by omega)]
  · intro p hp
    rw [hv l (3 * k + p) (by exact_mod_cast hl) (by push_cast; omega), hb,
      expectedV_nat _ _ _ _ _ (by omega)]

/-- Witness of C3: `width = 4`, `height = 2`.  Each row holds
`Y = [b w1, a w2, c w2, 0x8000]`, `U = [a w1, b w2]`, `V = [c w1, 0x8000]`, the
words of row 0 being at packet offsets 0 and 4, those of row 1 at 10 and 14. -/
theorem trailing_hextet_content_witness :
    ∃ out pic, zero12v_decode_frame false (-1094995529) 4 2 false (rampPacket 20 11 37)
        (0, filledPicture 0xAA 8 4 4) = some out ∧ out.frame = some pic ∧
      (sampleY false pic 0 0 = field_b (rl32 (rampPacket 20 11 37) 0) ∧
       sampleY false pic 0 1 = field_a (rl32 (rampPacket 20 11 37) 4) ∧
       sampleY false pic 0 2 = field_c (rl32 (rampPacket 20 11 37) 4) ∧
       sampleY false pic 0 3 = 0x8000 ∧
       sampleU false pic 0 0 = field_a (rl32 (rampPacket 20 11 37) 0) ∧
       sampleU false pic 0 1 = field_b (rl32 (rampPacket 20 11 37) 4) ∧
       sampleV false pic 0 0 = field_c (rl32 (rampPacket 20 11 37) 0) ∧
       sampleV false pic 0 1 = 0x8000) ∧
      (sampleY false pic 1 0 = field_b (rl32 (rampPacket 20 11 37) 10) ∧
       sampleY false pic 1 1 = field_a (rl32 (rampPacket 20 11 37) 14) ∧
       sampleY false pic 1 2 = field_c (rl32 (rampPacket 20 11 37) 14) ∧
       sampleY false pic 1 3 = 0x8000 ∧
       sampleU false pic 1 0 = field_a (rl32 (rampPacket 20 11 37) 10) ∧
       sampleU false pic 1 1 = field_b (rl32 (rampPacket 20 11 37) 14) ∧
       sampleV false pic 1 0 = field_c (rl32 (rampPacket 20 11 37) 10) ∧
       sampleV false pic 1 1 = 0x8000) := by
  obtain ⟨out, pic, h1, h2, h3⟩ := trailing_hextet_content false (-1094995529) 0 4 2 false
    (rampPacket 20 11 37) (0, filledPicture 0xAA 8 4 4) (by decide) (by decide) (by decide)
    (by decide) (by decide) (by decide) (by decide) (by decide) (by decide) (by decide)
    (by decide)
  obtain ⟨ya, ua, va⟩ := h3 0 (by decide)
  obtain ⟨yb, ub, vb⟩ := h3 1 (by decide)
  exact ⟨out, pic, h1, h2,
    ⟨(ya 0 (by decide)).trans (by decide), (ya 1 (by decide)).trans (by decide),
     (ya 2 (by decide)).trans (by decide), (ya 3 (by decide)).trans (by decide),
     (ua 0 (by decide)).trans (by decide), (ua 1 (by decide)).trans (by decide),
     (va 0 (by decide)).trans (by decide), (va 1 (by decide)).trans (by decide)⟩,
    ⟨(yb 0 (by decide)).trans (by decide), (yb 1 (by decide)).trans (by decide),
     (yb 2 (by decide)).trans (by decide), (yb 3 (by decide)).trans (by decide),
     (ub 0 (by decide)).trans (by decide), (ub 1 (by decide)).trans (by decide),
     (vb 0 (by decide)).trans (by decide), (vb 1 (by decide)).trans (by decide)⟩⟩

/-- C4, evaluated at `width = 8`, `height = 1` with a packet of 21 zero bytes and
planes that hold `0xFF` everywhere before the call: the copy of line 135 (and of
line 136) moves `2 * (2 + 1) / 2 = 3` bytes, so the byte at offset 8 of the U row
(and of the V row), the first byte of sample index 4 = ceil(8/2), is
overwritten, with `0x00` on a little-endian host and `0x80` on a big-endian one. -/
theorem chroma_copy_back_overruns_width :
    (zero12v_decode_frame false (-1094995529) 8 1 false (List.replicate 21 0)
        (0, filledPicture 0xFF 32 16 16)).map
      (fun out => out.frame.map (fun pic => (pic.data1 8, pic.data2 8, pic.data1 9)))
      = some (some (0x00, 0x00, 0xFF)) ∧
    (zero12v_decode_frame true (-1094995529) 8 1 false (List.replicate 21 0)
        (0, filledPicture 0xFF 32 16 16)).map
      (fun out => out.frame.map (fun pic => (pic.data1 8, pic.data2 8, pic.data1 9)))
      = some (some (0x80, 0x80, 0xFF)) := by
  constructor <;> decide!

/-- C5, as stated, fails when an `int` product of lines 52 and 61 wraps around.
At `width = 2^29`, `height = 2` the product `width * 8` wraps to 0, so the bound
`height * stride` is 0 and a packet of one byte, far shorter than
`2 * floor(2^32 / 3)`, passes the check of line 61.  At `width = 4`,
`height = 429496730` the stride is 10 and the product `height * stride`,
`2^32 + 4`, wraps to 4, so a packet of four bytes passes.  In both calls the
decoder goes on to the allocator, here refusing with `-12`, and returns the
allocator's code instead of `AVERROR_INVALIDDATA`, without any log message. -/
theorem short_packet_passes_wrapped_bound :
    ((1 : Int) < 536870912 ∧ (0 : Int) < 2 ∧
      (([7] : List Nat).length : Int) < 2 * ((536870912 : Int) * 8 / 3) ∧
      (zero12v_decode_frame false (-1094995529) 536870912 2 true [7]
          (-12, filledPicture 0xAA 8 4 4)).map
        (fun out => (out.ret, out.got_frame, out.calls, out.log))
        = some (-12, none, [PoolCall.release_buffer, PoolCall.get_buffer], [])) ∧
    ((1 : Int) < 4 ∧ (0 : Int) < 429496730 ∧
      (([1, 2, 3, 4] : List Nat).length : Int) < 429496730 * ((4 : Int) * 8 / 3) ∧
      (zero12v_decode_frame false (-1094995529) 4 429496730 false [1, 2, 3, 4]
          (-12, filledPicture 0xAA 8 4 4)).map
        (fun out => (out.ret, out.got_frame, out.calls, out.log))
        = some (-12, none, [PoolCall.get_buffer], [])) :=
  ⟨⟨by decide, by decide, by decide, rfl⟩, by decide, by decide, by decide, rfl⟩

/-- C5 as amended (truncated-packet rejection): for `width > 1` and `height > 0`
whose products `width * 8` and `height * floor(width * 8 / 3)` do not exceed
`INT_MAX`, a packet shorter than `height * floor(width * 8 / 3)` makes the call
return `AVERROR_INVALIDDATA` without storing `got_frame`, without calling the
allocator, without reading the packet and without storing a frame. -/
theorem truncated_packet_rejected (be : Bool) (E : Int) (width height : Int)
    (has_buffer : Bool) (pkt : List Nat) (gb : Int × Picture) (hw : 1 < width)
    (hh : 0 < height) (hw8 : width * 8 ≤ 2147483647)
    (hprod : height * (width * 8 / 3) ≤ 2147483647)
    (hshort : (pkt.length : Int) < height * (width * 8 / 3)) :
    ∃ out, zero12v_decode_frame be E width height has_buffer pkt gb = some out ∧
      out.ret = E ∧ out.got_frame = none ∧ PoolCall.get_buffer ∉ out.calls ∧
      out.frame = none ∧ out.reads = [] ∧
      out.log = [LogMsg.packet_too_small (pkt.length : Int) (height * (width * 8 / 3))] := by
  have hs : strideOf width = width * 8 / 3 := strideOf_eq (by omega) hw8
  have hp : 0 ≤ height * (width * 8 / 3) := Int.mul_nonneg (by omega) (by omega)
  refine ⟨_, by
    unfold zero12v_decode_frame
    simp only [hs]
    rw [if_neg (by omega), wrapInt32_id (by omega) hprod, if_pos hshort], rfl, rfl, ?_, rfl, rfl,
    rfl⟩
  cases has_buffer <;> simp

/-- Witness of the amended C5: `width = 4`, `height = 2` needs 20 bytes; 19 are
rejected. -/
theorem truncated_packet_rejected_witness :
    ∃ out, zero12v_decode_frame false (-1094995529) 4 2 true (rampPacket 19 11 37)
        (0, filledPicture 0xAA 8 4 4) = some out ∧
      out.ret = -1094995529 ∧ out.got_frame = none ∧ PoolCall.get_buffer ∉ out.calls ∧
      out.frame = none ∧ out.reads = [] ∧
      out.log = [LogMsg.packet_too_small ((rampPacket 19 11 37).length : Int) (2 * (4 * 8 / 3))] :=
  truncated_packet_rejected false (-1094995529) 4 2 true (rampPacket 19 11 37)
    (0, filledPicture 0xAA 8 4 4) (by decide) (by decide) (by decide) (by decide) (by decide)

/-- C6 (invalid-geometry rejection): whatever the packet and the allocator, if
`width ≤ 1` or `height ≤ 0` the call returns `AVERROR_INVALIDDATA` after logging
the unsupported dimensions, stores neither `got_frame` nor a frame, does not call
the allocator and reads no word of the packet; conversely a call with `width > 1`
and `height > 0` never logs unsupported dimensions. -/
theorem invalid_geometry_rejected (be : Bool) (E : Int) (width height : Int)
    (has_buffer : Bool) (pkt : List Nat) (gb : Int × Picture) :
    ((width ≤ 1 ∨ height ≤ 0) →
      ∃ out, zero12v_decode_frame be E width height has_buffer pkt gb = some out ∧
        out.ret = E ∧ out.got_frame = none ∧ PoolCall.get_buffer ∉ out.calls ∧
        out.frame = none ∧ out.reads = [] ∧
        out.log = [LogMsg.dimensions_not_supported width height]) ∧
    ((1 < width ∧ 0 < height) →
      ∀ out, zero12v_decode_frame be E width height has_buffer pkt gb = some out →
        ∀ w h, LogMsg.dimensions_not_supported w h ∉ out.log) := by
  constructor
  · intro hbad
    refine ⟨_, by unfold zero12v_decode_frame; simp only; rw [if_pos hbad], rfl, rfl, ?_, rfl,
      rfl, rfl⟩
    cases has_buffer <;> simp
  · rintro ⟨hw, hh⟩ out hout w h
    unfold zero12v_decode_frame at hout
    simp only at hout
    rw [if_neg (by omega)] at hout
    split at hout
    · cases hout; simp
    · split at hout
      · cases hout; simp
      · split at hout
        · cases hout
        · cases hout; simp

/-- Witness of C6: `width = 1` is rejected although the packet is long and the
allocator would succeed; `width = 2`, `height = 1` is not rejected for its
dimensions. -/
theorem invalid_geometry_rejected_witness :
    (∃ out, zero12v_decode_frame false (-1094995529) 1 2 true (rampPacket 20 11 37)
        (0, filledPicture 0xAA 8 4 4) = some out ∧
      out.ret = -1094995529 ∧ out.got_frame = none ∧ PoolCall.get_buffer ∉ out.calls ∧
      out.frame = none ∧ out.reads = [] ∧
      out.log = [LogMsg.dimensions_not_supported 1 2]) ∧
    (∀ out, zero12v_decode_frame false (-1094995529) 2 1 true (rampPacket 20 11 37)
        (0, filledPicture 0xAA 8 4 4) = some out →
      ∀ w h, LogMsg.dimensions_not_supported w h ∉ out.log) :=
  ⟨(invalid_geometry_rejected false (-1094995529) 1 2 true (rampPacket 20 11 37)
      (0, filledPicture 0xAA 8 4 4)).1 (by decide),
   (invalid_geometry_rejected false (-1094995529) 2 1 true (rampPacket 20 11 37)
      (0, filledPicture 0xAA 8 4 4)).2 (by decide)⟩

/-- C7 (success contract): for `width > 1` (`8 * width` within the `int` range),
`height > 0` and a packet of at least `height * floor(width * 8 / 3)` bytes, if the
allocator succeeds the call returns the packet length, whatever the excess of the
packet over `height * stride`, stores 1 through `got_frame` and stores a frame;
decoding the rows raises no error and logs nothing. -/
theorem success_contract (be : Bool) (E : Int) (width height : Int) (has_buffer : Bool)
    (pkt : List Nat) (gb : Int × Picture) (hw : 1 < width) (hh : 0 < height)
    (hw8 : width * 8 ≤ 2147483647) (hlen : height * (width * 8 / 3) ≤ (pkt.length : Int))
    (hsz : (pkt.length : Int) ≤ 2147483647) (halloc : 0 ≤ gb.1) :
    ∃ out, zero12v_decode_frame be E width height has_buffer pkt gb = some out ∧
      out.ret = (pkt.length : Int) ∧ out.got_frame = some 1 ∧ out.frame.isSome = true ∧
      out.log = [] := by
  obtain ⟨fs, hfs, -⟩ := lineLoop_some be pkt width height (width * 8 / 3) gb.2.linesize0
    gb.2.linesize1 gb.2.linesize2 (by omega) rfl hlen height.toNat height.toNat 0
    { data0 := gb.2.data0, data1 := gb.2.data1, data2 := gb.2.data2
      src := 0, line_end := width * 8 / 3, reads := [] }
    (by omega) (le_refl _) (le_refl _) (by simp) (by simp)
  exact ⟨_, decode_of_lineLoop be E width height has_buffer pkt gb hw hh hw8 hlen hsz halloc
    fs hfs, rfl, rfl, rfl, rfl⟩

/-- Witness of C7: `width = 4`, `height = 2` needs 20 bytes; a packet of 23 bytes
is consumed whole. -/
theorem success_contract_witness :
    ∃ out, zero12v_decode_frame false (-1094995529) 4 2 false (rampPacket 23 11 37)
        (0, filledPicture 0xAA 8 4 4) = some out ∧
      out.ret = 23 ∧ out.got_frame = some 1 ∧ out.frame.isSome = true ∧ out.log = [] :=
  success_contract false (-1094995529) 4 2 false (rampPacket 23 11 37)
    (0, filledPicture 0xAA 8 4 4) (by decide) (by decide) (by decide) (by decide) (by decide)
    (by decide)

theorem and_63_of_mul_64 (x : Nat) : (x * 64) &&& 0x3F = 0 := by
  have h := Nat.and_pow_two_sub_one_eq_mod (x * 64) 6
  have e : (2 : Nat) ^ 6 - 1 = 0x3F := by norm_num
  rw [e] at h
  rw [h]
  omega

theorem field_a_low (t : Nat) : field_a t &&& 0x3F = 0 := by
  rw [field_a_eq]; exact and_63_of_mul_64 _

theorem field_b_low (t : Nat) : field_b t &&& 0x3F = 0 := by
  rw [field_b_eq]; exact and_63_of_mul_64 _

theorem field_c_low (t : Nat) : field_c t &&& 0x3F = 0 := by
  rw [field_c_eq]; exact and_63_of_mul_64 _

theorem expectedY_low (stride : Int) (pkt : List Nat) (base : Int) (c : Nat) :
    expectedY stride pkt base c &&& 0x3F = 0 := by
  unfold expectedY yField
  split
  · split <;> simp only [field_a_low, field_b_low, field_c_low]
  · decide

theorem expectedU_low (stride : Int) (pkt : List Nat) (base : Int) (c : Nat) :
    expectedU stride pkt base c &&& 0x3F = 0 := by
  unfold expectedU uField
  split
  · split <;> simp only [field_a_low, field_b_low, field_c_low]
  · decide

theorem expectedV_low (stride : Int) (pkt : List Nat) (base : Int) (c : Nat) :
    expectedV stride pkt base c &&& 0x3F = 0 := by
  unfold expectedV vField
  split
  · split <;> simp only [field_a_low, field_b_low, field_c_low]
  · decide

/-- C8 (low six bits zero): for `width > 1` (`8 * width` within the `int` range,
divisible by 6 or not), `height > 0`, any packet of at least `height * stride`
bytes and any successful allocation (rows of the supplied planes not
overlapping), every sample of the stored frame at a column `< width` of the Y
plane and at an index `< ceil(width / 2)` of the U and V planes has its low six
bits zero. -/
theorem low_six_bits_zero (be : Bool) (E : Int) (width height : Int) (has_buffer : Bool)
    (pkt : List Nat) (gb : Int × Picture) (hw : 1 < width) (hh : 0 < height)
    (hw8 : width * 8 ≤ 2147483647) (hlen : height * (width * 8 / 3) ≤ (pkt.length : Int))
    (hsz : (pkt.length : Int) ≤ 2147483647) (halloc : 0 ≤ gb.1)
    (hls0 : 2 * width ≤ gb.2.linesize0) (hls1 : 2 * ((width + 1) / 2) ≤ gb.2.linesize1)
    (hls2 : 2 * ((width + 1) / 2) ≤ gb.2.linesize2) :
    ∃ out pic, zero12v_decode_frame be E width height has_buffer pkt gb = some out ∧
      out.frame = some pic ∧
      (∀ l c : Nat, (l : Int) < height → (c : Int) < width →
        sampleY be pic l c &&& 0x3F = 0) ∧
      (∀ l i : Nat, (l : Int) < height → (i : Int) < (width + 1) / 2 →
        sampleU be pic l i &&& 0x3F = 0 ∧ sampleV be pic l i &&& 0x3F = 0) := by
  obtain ⟨out, pic, hout, hpic, hy, hu, hv⟩ := decode_expected be E width height has_buffer pkt gb
    hw hh hw8 hlen hsz halloc hls0 hls1 hls2
  refine ⟨out, pic, hout, hpic, ?_, ?_⟩
  · intro l c hl hc
    rw [hy l c hl hc]
    exact expectedY_low _ _ _ _
  · intro l i hl hi
    rw [hu l i hl hi, hv l i hl hi]
    exact ⟨expectedU_low _ _ _ _, expectedV_low _ _ _ _⟩

/-- Witness of C8: `width = 8`, `height = 2` (a width that is not a multiple of 6). -/
theorem low_six_bits_zero_witness :
    ∃ out pic, zero12v_decode_frame true (-1094995529) 8 2 false (rampPacket 42 11 37)
        (0, filledPicture 0xAA 16 8 8) = some out ∧ out.frame = some pic ∧
      (∀ l c : Nat, (l : Int) < 2 → (c : Int) < 8 → sampleY true pic l c &&& 0x3F = 0) ∧
      (∀ l i : Nat, (l : Int) < 2 → (i : Int) < (8 + 1) / 2 →
        sampleU true pic l i &&& 0x3F = 0 ∧ sampleV true pic l i &&& 0x3F = 0) :=
  low_six_bits_zero true (-1094995529) 8 2 false (rampPacket 42 11 37)
    (0, filledPicture 0xAA 16 8 8) (by decide) (by decide) (by decide) (by decide) (by decide)
    (by decide) (by decide) (by decide) (by decide)

theorem mem_wordOffsets {base o : Int} {n : Nat} (h : o ∈ wordOffsets base n) :
    ∃ i : Nat, i < n ∧ o = base + 4 * (i : Int) := by
  unfold wordOffsets at h
  rw [List.mem_map] at h
  obtain ⟨i, hi, rfl⟩ := h
  exact ⟨i, List.mem_range.mp hi, rfl⟩

theorem mem_frameReads (stride : Int) (n : Nat) :
    ∀ (line l o : Int), (l, o) ∈ frameReads stride line n →
      line ≤ l ∧ l < line + (n : Int) ∧
        ∃ i : Nat, i < (stride / 4).toNat ∧ o = l * stride + 4 * (i : Int) := by
  induction n with
  | zero => intro line l o h; simp [frameReads] at h
  | succ n ih =>
    intro line l o h
    simp only [frameReads, List.mem_append] at h
    rcases h with h | h
    · unfold rowReads at h
      rw [List.mem_map] at h
      obtain ⟨o1, ho1, heq⟩ := h
      simp only [Prod.mk.injEq] at heq
      obtain ⟨rfl, rfl⟩ := heq
      push_cast
      exact ⟨le_refl _, by omega, mem_wordOffsets ho1⟩
    · obtain ⟨h1, h2, h3⟩ := ih (line + 1) l o h
      push_cast
      exact ⟨by omega, by omega, h3⟩

/-- C9 (read safety): for `width > 1` (`8 * width` within the `int` range),
`height > 0` and a packet of at least `height * stride` bytes,
`stride = floor(width * 8 / 3)`, the call runs without undefined behaviour and
every 4-byte word it reads while decoding row `l` (an entry `(l, o)` of `reads`,
`o` the offset of the first byte) lies inside the bytes `[l * stride, (l+1) * stride)`
of the packet, for a row `0 ≤ l < height`; so it lies inside the packet. -/
theorem read_safety (be : Bool) (E : Int) (width height : Int) (has_buffer : Bool)
    (pkt : List Nat) (gb : Int × Picture) (hw : 1 < width) (hh : 0 < height)
    (hw8 : width * 8 ≤ 2147483647) (hlen : height * (width * 8 / 3) ≤ (pkt.length : Int))
    (hsz : (pkt.length : Int) ≤ 2147483647) (halloc : 0 ≤ gb.1) :
    ∃ out, zero12v_decode_frame be E width height has_buffer pkt gb = some out ∧
      ∀ l o : Int, (l, o) ∈ out.reads →
        0 ≤ l ∧ l < height ∧ l * (width * 8 / 3) ≤ o ∧ o + 4 ≤ (l + 1) * (width * 8 / 3) ∧
        0 ≤ o ∧ o + 4 ≤ (pkt.length : Int) := by
  obtain ⟨fs, hfs, hreads⟩ := lineLoop_some be pkt width height (width * 8 / 3) gb.2.linesize0
    gb.2.linesize1 gb.2.linesize2 (by omega) rfl hlen height.toNat height.toNat 0
    { data0 := gb.2.data0, data1 := gb.2.data1, data2 := gb.2.data2
      src := 0, line_end := width * 8 / 3, reads := [] }
    (by omega) (le_refl _) (le_refl _) (by simp) (by simp)
  refine ⟨_, decode_of_lineLoop be E width height has_buffer pkt gb hw hh hw8 hlen hsz halloc
    fs hfs, ?_⟩
  intro l o hmem
  simp only [hreads, List.nil_append] at hmem
  obtain ⟨h1, h2, i, hi, ho⟩ := mem_frameReads _ _ _ _ _ hmem
  have hs0 : 0 ≤ width * 8 / 3 := by omega
  have hl0 : 0 ≤ l * (width * 8 / 3) := Int.mul_nonneg h1 hs0
  have hmono : l * (width * 8 / 3) + width * 8 / 3 ≤ height * (width * 8 / 3) :=
    row_mono (by omega) hs0
  have hexp : (l + 1) * (width * 8 / 3) = l * (width * 8 / 3) + width * 8 / 3 := by ring
  rw [hexp]
  refine ⟨h1, by omega, by omega, by omega, by omega, by omega⟩

/-- Witness of C9: `width = 4`, `height = 2`, stride 10; the words read are those
at offsets 0 and 4 of each row. -/
theorem read_safety_witness :
    ∃ out, zero12v_decode_frame false (-1094995529) 4 2 false (rampPacket 20 11 37)
        (0, filledPicture 0xAA 8 4 4) = some out ∧
      ∀ l o : Int, (l, o) ∈ out.reads →
        0 ≤ l ∧ l < 2 ∧ l * (4 * 8 / 3) ≤ o ∧ o + 4 ≤ (l + 1) * (4 * 8 / 3) ∧
        0 ≤ o ∧ o + 4 ≤ ((rampPacket 20 11 37).length : Int) :=
  read_safety false (-1094995529) 4 2 false (rampPacket 20 11 37)
    (0, filledPicture 0xAA 8 4 4) (by decide) (by decide) (by decide) (by decide) (by decide)
    (by decide)

theorem byteAt_slice (pkt : List Nat) (b n i : Nat) (h : i < n) :
    byteAt ((pkt.drop b).take n) i = byteAt pkt (b + i) := by
  unfold byteAt
  rw [List.getD_eq_getElem?_getD, List.getD_eq_getElem?_getD, List.getElem?_take, if_pos h,
    List.getElem?_drop]

theorem rl32_slice (pkt : List Nat) (b n o : Nat) (h : o + 4 ≤ n) :
    rl32 ((pkt.drop b).take n) o = rl32 pkt (b + o) := by
  unfold rl32
  rw [byteAt_slice _ _ _ _ (by omega), byteAt_slice _ _ _ _ (by omega),
    byteAt_slice _ _ _ _ (by omega), byteAt_slice _ _ _ _ (by omega)]
  rfl

theorem wordAt_slice (pkt : List Nat) (b n : Nat) (o : Int) (h0 : 0 ≤ o) (h : o + 4 ≤ (n : Int)) :
    wordAt pkt ((b : Int) + o) = wordAt ((pkt.drop b).take n) (0 + o) := by
  obtain ⟨m, rfl⟩ : ∃ m : Nat, o = (m : Int) := ⟨o.toNat, by omega⟩
  rw [wordAt_of_eq pkt _ (b + m) (by push_cast; ring),
    wordAt_of_eq _ (0 + (m : Int)) m (by ring), rl32_slice _ _ _ _ (by omega)]

/-- The expected Y sample depends on the packet only through the slice of the row. -/
theorem expectedY_slice (pkt : List Nat) (stride b c : Nat) :
    expectedY (stride : Int) pkt (b : Int) c
      = expectedY (stride : Int) ((pkt.drop b).take stride) 0 c := by
  unfold expectedY
  split
  · rw [add_assoc, add_assoc, wordAt_slice pkt b stride _ (by omega) (by omega)]
  · rfl

theorem expectedU_slice (pkt : List Nat) (stride b c : Nat) :
    expectedU (stride : Int) pkt (b : Int) c
      = expectedU (stride : Int) ((pkt.drop b).take stride) 0 c := by
  unfold expectedU
  split
  · rw [add_assoc, add_assoc, wordAt_slice pkt b stride _ (by omega) (by omega)]
  · rfl

theorem expectedV_slice (pkt : List Nat) (stride b c : Nat) :
    expectedV (stride : Int) pkt (b : Int) c
      = expectedV (stride : Int) ((pkt.drop b).take stride) 0 c := by
  unfold expectedV
  split
  · rw [add_assoc, add_assoc, wordAt_slice pkt b stride _ (by omega) (by omega)]
  · rfl

theorem frameReads_eq_flatMap (stride : Nat) (n : Nat) :
    ∀ line : Nat, frameReads (stride : Int) (line : Int) n
      = (List.range n).flatMap (fun i =>
          (List.range (stride / 4)).map (fun j =>
            (((line + i : Nat) : Int), (((line + i) * stride + 4 * j : Nat) : Int)))) := by
  induction n with
  | zero => intro line; rfl
  | succ n ih =>
    intro line
    have e : ((line : Int) + 1) = ((line + 1 : Nat) : Int) := by push_cast; ring
    rw [frameReads, e, ih (line + 1), List.range_succ_eq_map, List.flatMap_cons,
      List.flatMap_map]
    congr 1
    · unfold rowReads wordOffsets
      rw [List.map_map]
      have hq : ((stride : Int) / 4).toNat = stride / 4 := by omega
      rw [hq]
      apply List.map_congr_left
      intro j _
      simp only [Function.comp, Nat.add_zero, Prod.mk.injEq, true_and]
      push_cast
      ring
    · congr 1
      funext i
      have e2 : line + 1 + i = line + i.succ := by omega
      rw [e2]

/-- C10 (stride-aligned rows): take two calls on the same host with the same
`width > 1` (`8 * width` within the `int` range), each with its own height,
packet (of at least `height * stride` bytes, `stride = floor(width * 8 / 3)`) and
successfully allocated buffer.  In each call the words read in row `l` are the
`stride / 4` consecutive words from packet offset exactly `l * stride`, row after
row; and whenever the `stride` bytes of row `l1` in the first packet equal the
`stride` bytes of row `l2` in the second, the in-width samples of row `l1` of the
first frame equal those of row `l2` of the second: the samples of a row depend
only on `width` and on the bytes `[l * stride, (l+1) * stride)`, by the same
function for every row. -/
theorem stride_aligned_rows (be : Bool) (E1 E2 : Int) (w h1 h2 : Nat) (b1 b2 : Bool)
    (pkt1 pkt2 : List Nat) (gb1 gb2 : Int × Picture) (hw : 1 < w)
    (hw8 : w * 8 ≤ 2147483647)
    (hh1 : 0 < h1) (hlen1 : h1 * (w * 8 / 3) ≤ pkt1.length) (hsz1 : pkt1.length ≤ 2147483647)
    (halloc1 : 0 ≤ gb1.1) (hls01 : 2 * (w : Int) ≤ gb1.2.linesize0)
    (hls11 : 2 * (((w + 1) / 2 : Nat) : Int) ≤ gb1.2.linesize1)
    (hls21 : 2 * (((w + 1) / 2 : Nat) : Int) ≤ gb1.2.linesize2)
    (hh2 : 0 < h2) (hlen2 : h2 * (w * 8 / 3) ≤ pkt2.length) (hsz2 : pkt2.length ≤ 2147483647)
    (halloc2 : 0 ≤ gb2.1) (hls02 : 2 * (w : Int) ≤ gb2.2.linesize0)
    (hls12 : 2 * (((w + 1) / 2 : Nat) : Int) ≤ gb2.2.linesize1)
    (hls22 : 2 * (((w + 1) / 2 : Nat) : Int) ≤ gb2.2.linesize2) :
    ∃ out1 pic1 out2 pic2,
      zero12v_decode_frame be E1 (w : Int) (h1 : Int) b1 pkt1 gb1 = some out1 ∧
      out1.frame = some pic1 ∧
      zero12v_decode_frame be E2 (w : Int) (h2 : Int) b2 pkt2 gb2 = some out2 ∧
      out2.frame = some pic2 ∧
      out1.reads = (List.range h1).flatMap (fun l =>
        (List.range (w * 8 / 3 / 4)).map (fun j =>
          ((l : Int), ((l * (w * 8 / 3) + 4 * j : Nat) : Int)))) ∧
      out2.reads = (List.range h2).flatMap (fun l =>
        (List.range (w * 8 / 3 / 4)).map (fun j =>
          ((l : Int), ((l * (w * 8 / 3) + 4 * j : Nat) : Int)))) ∧
      ∀ l1 l2 : Nat, l1 < h1 → l2 < h2 →
        (pkt1.drop (l1 * (w * 8 / 3))).take (w * 8 / 3)
          = (pkt2.drop (l2 * (w * 8 / 3))).take (w * 8 / 3) →
        (∀ c : Nat, c < w → sampleY be pic1 l1 c = sampleY be pic2 l2 c) ∧
        (∀ i : Nat, i < (w + 1) / 2 →
          sampleU be pic1 l1 i = sampleU be pic2 l2 i ∧
          sampleV be pic1 l1 i = sampleV be pic2 l2 i) := by
  have hst : (w : Int) * 8 / 3 = ((w * 8 / 3 : Nat) : Int) := by push_cast; omega
  obtain ⟨out1, pic1, ho1, hp1, hy1, hu1, hv1, hr1⟩ := decode_expected_reads be E1 (w : Int)
    (h1 : Int) b1 pkt1 gb1 (by omega) (by omega) (by omega)
    (by rw [hst]; exact_mod_cast hlen1) (by exact_mod_cast hsz1) halloc1 hls01
    (by push_cast at hls11 ⊢; omega) (by push_cast at hls21 ⊢; omega)
  obtain ⟨out2, pic2, ho2, hp2, hy2, hu2, hv2, hr2⟩ := decode_expected_reads be E2 (w : Int)
    (h2 : Int) b2 pkt2 gb2 (by omega) (by omega) (by omega)
    (by rw [hst]; exact_mod_cast hlen2) (by exact_mod_cast hsz2) halloc2 hls02
    (by push_cast at hls12 ⊢; omega) (by push_cast at hls22 ⊢; omega)
  rw [hst] at hy1 hu1 hv1 hr1 hy2 hu2 hv2 hr2
  have hfr : ∀ h : Nat, frameReads ((w * 8 / 3 : Nat) : Int) 0 ((h : Int).toNat)
      = (List.range h).flatMap (fun l =>
          (List.range (w * 8 / 3 / 4)).map (fun j =>
            ((l : Int), ((l * (w * 8 / 3) + 4 * j : Nat) : Int)))) := by
    intro h
    have := frameReads_eq_flatMap (w * 8 / 3) h 0
    simp only [Nat.cast_zero, Nat.zero_add] at this
    rw [Int.toNat_ofNat]
    exact this
  refine ⟨out1, pic1, out2, pic2, ho1, hp1, ho2, hp2, by rw [hr1, hfr], by rw [hr2, hfr], ?_⟩
  intro l1 l2 hl1 hl2 hslice
  have hb : ∀ l : Nat, ((l : Nat) : Int) * ((w * 8 / 3 : Nat) : Int)
      = ((l * (w * 8 / 3) : Nat) : Int) := by
    intro l; push_cast; ring
  constructor
  · intro c hc
    rw [hy1 l1 c (by exact_mod_cast hl1) (by exact_mod_cast hc),
      hy2 l2 c (by exact_mod_cast hl2) (by exact_mod_cast hc), hb, hb, expectedY_slice,
      expectedY_slice pkt2, hslice]
  · intro i hi
    have hi' : (i : Int) < ((w : Int) + 1) / 2 := by omega
    rw [hu1 l1 i (by exact_mod_cast hl1) hi', hu2 l2 i (by exact_mod_cast hl2) hi',
      hv1 l1 i (by exact_mod_cast hl1) hi', hv2 l2 i (by exact_mod_cast hl2) hi', hb, hb,
      expectedU_slice, expectedU_slice pkt2, expectedV_slice, expectedV_slice pkt2, hslice]
    exact ⟨rfl, rfl⟩

/-- Witness of C10: `width = 4` (stride 10); the second packet holds the two rows
of the first in the opposite order, and the second call decodes one more row. -/
theorem stride_aligned_rows_witness :
    ∃ out1 pic1 out2 pic2,
      zero12v_decode_frame false (-1094995529) 4 2 false (rampPacket 20 11 37)
        (0, filledPicture 0xAA 8 4 4) = some out1 ∧
      out1.frame = some pic1 ∧
      zero12v_decode_frame false (-1094995529) 4 3 true
        ((rampPacket 20 11 37).drop 10 ++ rampPacket 20 11 37)
        (0, filledPicture 0x55 32 16 16) = some out2 ∧
      out2.frame = some pic2 ∧
      out1.reads = [(0, 0), (0, 4), (1, 10), (1, 14)] ∧
      out2.reads = [(0, 0), (0, 4), (1, 10), (1, 14), (2, 20), (2, 24)] ∧
      (∀ c : Nat, c < 4 → sampleY false pic1 1 c = sampleY false pic2 0 c) ∧
      (∀ i : Nat, i < 2 →
        sampleU false pic1 1 i = sampleU false pic2 0 i ∧
        sampleV false pic1 1 i = sampleV false pic2 0 i) := by
  obtain ⟨out1, pic1, out2, pic2, h1, h2, h3, h4, h5, h6, h7⟩ :=
    stride_aligned_rows false (-1094995529) (-1094995529) 4 2 3 false true (rampPacket 20 11 37)
      ((rampPacket 20 11 37).drop 10 ++ rampPacket 20 11 37)
      (0, filledPicture 0xAA 8 4 4) (0, filledPicture 0x55 32 16 16)
      (by decide) (by decide) (by decide) (by decide) (by decide) (by decide) (by decide)
      (by decide) (by decide) (by decide) (by decide) (by decide) (by decide) (by decide)
      (by decide) (by decide)
  exact ⟨out1, pic1, out2, pic2, h1, h2, h3, h4, h5.trans (by decide), h6.trans (by decide),
    (h7 1 0 (by decide) (by decide) (by decide)).1,
    (h7 1 0 (by decide) (by decide) (by decide)).2⟩

/-- C11, as stated, fails when the decoder still holds a buffer: with
`pic->data[0]` set on entry, a call rejected for its geometry (`width = 1`) and a
call rejected for its packet (`width = 4`, `height = 2`, 19 bytes instead of 20)
both call `release_buffer` (line 55 runs before the checks of lines 57-65) and
leave the decoder without the buffer it held. -/
theorem validation_failure_releases_held_buffer :
    (∃ out, zero12v_decode_frame false (-1094995529) 1 2 true (rampPacket 20 11 37)
        (0, filledPicture 0xAA 8 4 4) = some out ∧ out.ret = -1094995529 ∧
      out.calls = [PoolCall.release_buffer] ∧ out.has_buffer = false) ∧
    (∃ out, zero12v_decode_frame false (-1094995529) 4 2 true (rampPacket 19 11 37)
        (0, filledPicture 0xAA 8 4 4) = some out ∧ out.ret = -1094995529 ∧
      out.calls = [PoolCall.release_buffer] ∧ out.has_buffer = false) :=
  ⟨⟨_, rfl, rfl, rfl, rfl⟩, ⟨_, rfl, rfl, rfl, rfl⟩⟩

/-- C11 as amended: for every decoder state and every input that the checks of
lines 57-65 reject (`width ≤ 1`, `height ≤ 0`, or a packet shorter than
`height * stride` as the call computes it), the call returns
`AVERROR_INVALIDDATA` and never calls the allocator; a decoder that holds no
buffer on entry makes no call to the buffer pool and its state is unchanged; a
decoder that holds a buffer on entry makes exactly one call, the
`release_buffer` of line 55, and holds no buffer afterwards. -/
theorem validation_failure_pool_calls (be : Bool) (E : Int) (width height : Int)
    (has_buffer : Bool) (pkt : List Nat) (gb : Int × Picture)
    (hrej : width ≤ 1 ∨ height ≤ 0 ∨
      (pkt.length : Int) < wrapInt32 (height * strideOf width)) :
    ∃ out, zero12v_decode_frame be E width height has_buffer pkt gb = some out ∧
      out.ret = E ∧ out.got_frame = none ∧ out.frame = none ∧ out.reads = [] ∧
      PoolCall.get_buffer ∉ out.calls ∧ out.has_buffer = false ∧
      (has_buffer = false → out.calls = [] ∧ out.has_buffer = has_buffer) ∧
      (has_buffer = true → out.calls = [PoolCall.release_buffer]) := by
  by_cases hgeo : width ≤ 1 ∨ height ≤ 0
  · refine ⟨_, by unfold zero12v_decode_frame; simp only; rw [if_pos hgeo], rfl, rfl, rfl, rfl,
      ?_, rfl, ?_, ?_⟩
    · cases has_buffer <;> simp
    · intro h; subst h; exact ⟨rfl, rfl⟩
    · intro h; subst h; rfl
  · have hshort : (pkt.length : Int) < wrapInt32 (height * strideOf width) := by
      rcases hrej with h | h | h
      · exact absurd (Or.inl h) hgeo
      · exact absurd (Or.inr h) hgeo
      · exact h
    refine ⟨_, by unfold zero12v_decode_frame; simp only; rw [if_neg hgeo, if_pos hshort], rfl,
      rfl, rfl, rfl, ?_, rfl, ?_, ?_⟩
    · cases has_buffer <;> simp
    · intro h; subst h; exact ⟨rfl, rfl⟩
    · intro h; subst h; rfl

/-- Witness of the amended C11: a decoder without a buffer, `height = 0`. -/
theorem validation_failure_pool_calls_witness :
    ∃ out, zero12v_decode_frame false (-1094995529) 4 0 false (rampPacket 20 11 37)
        (0, filledPicture 0xAA 8 4 4) = some out ∧
      out.ret = -1094995529 ∧ out.got_frame = none ∧ out.frame = none ∧ out.reads = [] ∧
      PoolCall.get_buffer ∉ out.calls ∧ out.has_buffer = false ∧
      (false = false → out.calls = [] ∧ out.has_buffer = false) ∧
      (false = true → out.calls = [PoolCall.release_buffer]) :=
  validation_failure_pool_calls false (-1094995529) 4 0 false (rampPacket 20 11 37)
    (0, filledPicture 0xAA 8 4 4) (by decide)

/-- C12 (fully defined output): take two calls on the same host with the same
`width > 1` (`8 * width` within the `int` range), `height > 0` and packet (of at
least `height * stride` bytes), but with different buffers supplied by a
successful allocation, whatever their prior contents and line sizes (rows not
overlapping).  Both store a frame, and every Y sample at a column `< width` and
every U and V sample at an index `< ceil(width / 2)`, in every row, is the same
in both frames: it is the value that the call wrote, and nothing of the prior
contents of the buffer is left in the in-width part of the planes. -/
theorem fully_defined_output (be : Bool) (E1 E2 : Int) (width height : Int) (b1 b2 : Bool)
    (pkt : List Nat) (gb1 gb2 : Int × Picture) (hw : 1 < width) (hh : 0 < height)
    (hw8 : width * 8 ≤ 2147483647) (hlen : height * (width * 8 / 3) ≤ (pkt.length : Int))
    (hsz : (pkt.length : Int) ≤ 2147483647)
    (halloc1 : 0 ≤ gb1.1) (hls01 : 2 * width ≤ gb1.2.linesize0)
    (hls11 : 2 * ((width + 1) / 2) ≤ gb1.2.linesize1)
    (hls21 : 2 * ((width + 1) / 2) ≤ gb1.2.linesize2)
    (halloc2 : 0 ≤ gb2.1) (hls02 : 2 * width ≤ gb2.2.linesize0)
    (hls12 : 2 * ((width + 1) / 2) ≤ gb2.2.linesize1)
    (hls22 : 2 * ((width + 1) / 2) ≤ gb2.2.linesize2) :
    ∃ out1 pic1 out2 pic2,
      zero12v_decode_frame be E1 width height b1 pkt gb1 = some out1 ∧
      out1.frame = some pic1 ∧
      zero12v_decode_frame be E2 width height b2 pkt gb2 = some out2 ∧
      out2.frame = some pic2 ∧
      (∀ l c : Nat, (l : Int) < height → (c : Int) < width →
        sampleY be pic1 l c = sampleY be pic2 l c) ∧
      (∀ l i : Nat, (l : Int) < height → (i : Int) < (width + 1) / 2 →
        sampleU be pic1 l i = sampleU be pic2 l i ∧
        sampleV be pic1 l i = sampleV be pic2 l i) := by
  obtain ⟨out1, pic1, ho1, hp1, hy1, hu1, hv1⟩ := decode_expected be E1 width height b1 pkt gb1
    hw hh hw8 hlen hsz halloc1 hls01 hls11 hls21
  obtain ⟨out2, pic2, ho2, hp2, hy2, hu2, hv2⟩ := decode_expected be E2 width height b2 pkt gb2
    hw hh hw8 hlen hsz halloc2 hls02 hls12 hls22
  refine ⟨out1, pic1, out2, pic2, ho1, hp1, ho2, hp2, ?_, ?_⟩
  · intro l c hl hc
    rw [hy1 l c hl hc, hy2 l c hl hc]
  · intro l i hl hi
    rw [hu1 l i hl hi, hu2 l i hl hi, hv1 l i hl hi, hv2 l i hl hi]
    exact ⟨rfl, rfl⟩

/-- Witness of C12: `width = 8`, `height = 2`, one buffer filled with `0xAA` and
tightly packed, the other filled with `0x55` with wider rows. -/
theorem fully_defined_output_witness :
    ∃ out1 pic1 out2 pic2,
      zero12v_decode_frame true (-1094995529) 8 2 false (rampPacket 42 11 37)
        (0, filledPicture 0xAA 16 8 8) = some out1 ∧
      out1.frame = some pic1 ∧
      zero12v_decode_frame true (-1094995529) 8 2 true (rampPacket 42 11 37)
        (0, filledPicture 0x55 64 32 32) = some out2 ∧
      out2.frame = some pic2 ∧
      (∀ l c : Nat, (l : Int) < 2 → (c : Int) < 8 →
        sampleY true pic1 l c = sampleY true pic2 l c) ∧
      (∀ l i : Nat, (l : Int) < 2 → (i : Int) < (8 + 1) / 2 →
        sampleU true pic1 l i = sampleU true pic2 l i ∧
        sampleV true pic1 l i = sampleV true pic2 l i) :=
  fully_defined_output true (-1094995529) (-1094995529) 8 2 false true (rampPacket 42 11 37)
    (0, filledPicture 0xAA 16 8 8) (0, filledPicture 0x55 64 32 32) (by decide) (by decide)
    (by decide) (by decide) (by decide) (by decide) (by decide) (by decide) (by decide)
    (by decide) (by decide) (by decide) (by decide)

/-- C13 (allocation failure): for every input that passes the checks of lines
57-65, if `ff_get_buffer` answers a negative code `e` the call returns `e`, stores
nothing through `got_frame`, stores no frame, reads no word of the packet and
runs no row of the decoding loop; the allocator is the last thing it calls. -/
theorem allocation_failure (be : Bool) (E : Int) (width height : Int) (has_buffer : Bool)
    (pkt : List Nat) (gb : Int × Picture) (hw : 1 < width) (hh : 0 < height)
    (hpass : wrapInt32 (height * strideOf width) ≤ (pkt.length : Int)) (hfail : gb.1 < 0) :
    zero12v_decode_frame be E width height has_buffer pkt gb
      = some { ret := gb.1, got_frame := none, frame := none, has_buffer := false
               calls := (if has_buffer then [PoolCall.release_buffer] else [])
                 ++ [PoolCall.get_buffer]
               reads := [], log := [] } := by
  unfold zero12v_decode_frame
  simp only
  rw [if_neg (by omega), if_neg (by omega), if_pos hfail]

/-- Witness of C13: `width = 4`, `height = 2`, a packet of 20 bytes, the
allocator answering -12. -/
theorem allocation_failure_witness :
    zero12v_decode_frame false (-1094995529) 4 2 true (rampPacket 20 11 37)
        (-12, filledPicture 0xAA 8 4 4)
      = some { ret := -12, got_frame := none, frame := none, has_buffer := false
               calls := [PoolCall.release_buffer, PoolCall.get_buffer]
               reads := [], log := [] } :=
  allocation_failure false (-1094995529) 4 2 true (rampPacket 20 11 37)
    (-12, filledPicture 0xAA 8 4 4) (by decide) (by decide) (by decide) (by decide)

/-- C14, evaluated at `width = 4`, `height = 1` (the loop ends with `x = 0`,
remainder 4) with a packet of 10 zero bytes and planes that hold `0xFF`
everywhere before the call.  The Y copy moves `2 * 4 = 8` bytes (byte 7 is
written, byte 8 is not).  The U and V copies move `2 * (4 + 1) / 2 = 5` bytes,
not the `2 * ceil(4 / 2) = 4` bytes of two whole samples: byte 4, the first half
of the third sample, is written and byte 5 is not. -/
theorem copy_back_sizes_at_width_4 :
    (zero12v_decode_frame false (-1094995529) 4 1 false (List.replicate 10 0)
        (0, filledPicture 0xFF 16 8 8)).map
      (fun out => out.frame.map (fun pic =>
        ([pic.data0 7, pic.data0 8], [pic.data1 3, pic.data1 4, pic.data1 5],
         [pic.data2 3, pic.data2 4, pic.data2 5])))
      = some (some ([0x80, 0xFF], [0x00, 0x00, 0xFF], [0x80, 0x00, 0xFF])) := by
  decide!

/-- C16, as stated, fails for large widths.  At `width = 2^28` the product
`width * 8` is `2^31`, which wraps to `-2^31`, and the stride computed is
`-715827882` instead of `715827882`.  At `width = 2^29`, `height = 1` the product
wraps to 0, the stride and the bound are 0, and the empty packet, shorter than
`floor(2^32 / 3)`, is not rejected: the allocator is called. -/
theorem stride_arithmetic_wraps :
    strideOf 268435456 = -715827882 ∧ (268435456 : Int) * 8 / 3 = 715827882 ∧
    strideOf 536870912 = 0 ∧ wrapInt32 (1 * strideOf 536870912) = 0 ∧
    (([] : List Nat).length : Int) < 1 * ((536870912 : Int) * 8 / 3) ∧
    (zero12v_decode_frame false (-1094995529) 536870912 1 false []
        (-12, filledPicture 0xAA 8 4 4)).map (fun out => (out.ret, out.calls))
      = some (-12, [PoolCall.get_buffer]) := by
  decide

/-- C16 as amended: for every geometry with `width > 1` and `height > 0` whose
products `width * 8` and `height * floor(width * 8 / 3)` do not exceed `INT_MAX`,
the stride computed in `int` arithmetic equals `floor(width * 8 / 3)`, the bound
compared with the packet size equals the mathematical product, and every
packet shorter than `height * floor(width * 8 / 3)` is rejected. -/
theorem stride_arithmetic_in_range (width height : Int) (hw : 1 < width) (hh : 0 < height)
    (hw8 : width * 8 ≤ 2147483647) (hprod : height * (width * 8 / 3) ≤ 2147483647) :
    strideOf width = width * 8 / 3 ∧
    wrapInt32 (height * strideOf width) = height * (width * 8 / 3) ∧
    ∀ (be : Bool) (E : Int) (has_buffer : Bool) (pkt : List Nat) (gb : Int × Picture),
      (pkt.length : Int) < height * (width * 8 / 3) →
      ∃ out, zero12v_decode_frame be E width height has_buffer pkt gb = some out ∧
        out.ret = E ∧ out.got_frame = none ∧ out.frame = none ∧
        PoolCall.get_buffer ∉ out.calls := by
  have hs : strideOf width = width * 8 / 3 := strideOf_eq (by omega) hw8
  have hp : 0 ≤ height * (width * 8 / 3) := Int.mul_nonneg (by omega) (by omega)
  have hb : wrapInt32 (height * strideOf width) = height * (width * 8 / 3) := by
    rw [hs]; exact wrapInt32_id (by omega) hprod
  refine ⟨hs, hb, ?_⟩
  intro be E has_buffer pkt gb hshort
  refine ⟨_, by
    unfold zero12v_decode_frame
    simp only
    rw [if_neg (by omega), hb, if_pos hshort], rfl, rfl, rfl, ?_⟩
  cases has_buffer <;> simp

/-- Witness of the amended C16: `width = 1920`, `height = 1080`, stride 5120. -/
theorem stride_arithmetic_in_range_witness :
    strideOf 1920 = 1920 * 8 / 3 ∧
    wrapInt32 (1080 * strideOf 1920) = 1080 * (1920 * 8 / 3) ∧
    ∀ (be : Bool) (E : Int) (has_buffer : Bool) (pkt : List Nat) (gb : Int × Picture),
      (pkt.length : Int) < 1080 * (1920 * 8 / 3) →
      ∃ out, zero12v_decode_frame be E 1920 1080 has_buffer pkt gb = some out ∧
        out.ret = E ∧ out.got_frame = none ∧ out.frame = none ∧
        PoolCall.get_buffer ∉ out.calls :=
  stride_arithmetic_in_range 1920 1080 (by decide) (by decide) (by decide) (by decide)

/-! ## The recorded control flow -/

theorem hextet_erasure (be : Bool) (pkt : List Nat) (width line_end line x : Int)
    (s : RowState) :
    (hextetTraced be pkt width line_end line x s).map Prod.fst
      = hextet be pkt width line_end x s := by
  unfold hextetTraced hextet
  simp only
  split
  · rfl
  · cases readWord pkt (redirect width line_end x s) with
    | none => rfl
    | some r1 =>
      simp only
      split
      · rfl
      · cases readWord pkt (word1 be r1.1 r1.2) with
        | none => rfl
        | some r2 =>
          simp only
          split
          · rfl
          · cases readWord pkt (word2 be r2.1 r2.2) with
            | none => rfl
            | some r3 =>
              simp only
              split
              · rfl
              · cases readWord pkt (word3 be r3.1 r3.2) with
                | none => rfl
                | some r4 => rfl

theorem xLoop_erasure (be : Bool) (pkt : List Nat) (width line_end line : Int) (fuel : Nat) :
    ∀ (x : Int) (s : RowState),
      (xLoopTraced be pkt width line_end line fuel x s).map Prod.fst
        = xLoop be pkt width line_end fuel x s := by
  induction fuel with
  | zero =>
    intro x s
    rw [xLoopTraced, xLoop]
    split <;> rfl
  | succ fuel ih =>
    intro x s
    rw [xLoopTraced, xLoop]
    split
    · rw [← hextet_erasure be pkt width line_end line x s]
      cases hextetTraced be pkt width line_end line x s with
      | none => rfl
      | some r =>
        obtain ⟨⟨s1, b⟩, ev⟩ := r
        cases b with
        | true => rfl
        | false =>
          simp only [Option.map_some']
          rw [← ih (x + 6) s1]
          cases xLoopTraced be pkt width line_end line fuel (x + 6) s1 with
          | none => rfl
          | some r2 => rfl
    · rfl

theorem decodeLine_erasure (be : Bool) (pkt : List Nat) (width stride ls0 ls1 ls2 : Int)
    (fs : FrameState) (line : Int) :
    (decodeLineTraced be pkt width stride ls0 ls1 ls2 fs line).map Prod.fst
      = decodeLine be pkt width stride ls0 ls1 ls2 fs line := by
  unfold decodeLineTraced decodeLine
  rw [← xLoop_erasure be pkt width fs.line_end line width.toNat 0 (rowInit ls0 ls1 ls2 fs line)]
  cases xLoopTraced be pkt width fs.line_end line width.toNat 0 (rowInit ls0 ls1 ls2 fs line) with
  | none => rfl
  | some r =>
    obtain ⟨⟨x, s⟩, ev⟩ := r
    simp only [Option.map_some']
    cases copyBack be width ls0 ls1 ls2 line x s with
    | none => rfl
    | some d => rfl

theorem lineLoop_erasure (be : Bool) (pkt : List Nat) (width height stride ls0 ls1 ls2 : Int)
    (fuel : Nat) :
    ∀ (line : Int) (fs : FrameState),
      (lineLoopTraced be pkt width height stride ls0 ls1 ls2 fuel line fs).map Prod.fst
        = lineLoop be pkt width height stride ls0 ls1 ls2 fuel line fs := by
  induction fuel with
  | zero =>
    intro line fs
    rw [lineLoopTraced, lineLoop]
    split <;> rfl
  | succ fuel ih =>
    intro line fs
    rw [lineLoopTraced, lineLoop]
    split
    · rw [← decodeLine_erasure be pkt width stride ls0 ls1 ls2 fs line]
      cases decodeLineTraced be pkt width stride ls0 ls1 ls2 fs line with
      | none => rfl
      | some r =>
        obtain ⟨fs1, ev⟩ := r
        simp only [Option.map_some']
        rw [← ih (line + 1) fs1]
        cases lineLoopTraced be pkt width height stride ls0 ls1 ls2 fuel (line + 1) fs1 with
        | none => rfl
        | some r2 => rfl
    · rfl

/-- Dropping the events of the traced decoder gives the decoder. -/
theorem traced_erasure (be : Bool) (E : Int) (width height : Int) (has_buffer : Bool)
    (pkt : List Nat) (gb : Int × Picture) :
    (zero12v_decode_frame_traced be E width height has_buffer pkt gb).map Prod.fst
      = zero12v_decode_frame be E width height has_buffer pkt gb := by
  unfold zero12v_decode_frame_traced zero12v_decode_frame
  simp only
  split
  · rfl
  · split
    · rfl
    · split
      · rfl
      · rw [← lineLoop_erasure be pkt width height (strideOf width) gb.2.linesize0
          gb.2.linesize1 gb.2.linesize2 height.toNat 0]
        cases lineLoopTraced be pkt width height (strideOf width) gb.2.linesize0
          gb.2.linesize1 gb.2.linesize2 height.toNat 0
          { data0 := gb.2.data0, data1 := gb.2.data1, data2 := gb.2.data2
            src := 0, line_end := strideOf width, reads := [] } with
        | none => rfl
        | some r => rfl

theorem hextetTraced_full {be : Bool} {pkt : List Nat} {width line_end line x : Int}
    {s : RowState} (hx : x + 6 ≤ width) (hs : s.src + 16 ≤ line_end) (h0 : 0 ≤ s.src)
    (hl : line_end ≤ (pkt.length : Int)) :
    hextetTraced be pkt width line_end line x s = some ((fullHextet be pkt s, false), []) := by
  have hr : redirect width line_end x s = s := by
    unfold redirect; rw [if_neg (by omega)]
  have hev : (if width - x < 6 ∨ line_end - s.src < 16 then [RowEvent.scratch line x] else [])
      = [] := if_neg (by omega)
  unfold hextetTraced
  simp only [hr, hev]
  rw [if_neg (by omega), readWord_some h0 (by omega)]
  simp only
  rw [if_neg (by simp only [word1_src]; omega),
    readWord_some (by simp only [word1_src]; omega) (by simp only [word1_src]; omega)]
  simp only
  rw [if_neg (by simp only [word1_src, word2_src]; omega),
    readWord_some (by simp only [word1_src, word2_src]; omega)
      (by simp only [word1_src, word2_src]; omega)]
  simp only
  rw [if_neg (by simp only [word1_src, word2_src, word3_src]; omega),
    readWord_some (by simp only [word1_src, word2_src, word3_src]; omega)
      (by simp only [word1_src, word2_src, word3_src]; omega)]
  simp only [fullHextet]
  have : decide (width - x < 6) = false := by simp; omega
  rw [this]

theorem hextetTraced_tail {be : Bool} {pkt : List Nat} {width line_end line x : Int}
    {s : RowState} (nw : Nat) (hx : width - x < 6) (hnw : nw ≤ 3)
    (hlo : 4 * (nw : Int) ≤ line_end - s.src) (hhi : line_end - s.src < 4 * (nw : Int) + 4)
    (h0 : 0 ≤ s.src) (hl : line_end ≤ (pkt.length : Int)) :
    hextetTraced be pkt width line_end line x s
      = some ((tailState be pkt nw s, true),
          [RowEvent.scratch line x, RowEvent.guard line x nw]) := by
  have hev : (if width - x < 6 ∨ line_end - s.src < 16 then [RowEvent.scratch line x] else [])
      = [RowEvent.scratch line x] := if_pos (Or.inl hx)
  unfold hextetTraced
  simp only [redirect_tail hx, hev]
  interval_cases nw
  · rw [if_pos (by simp only [toTemp_src]; omega)]
    rfl
  · rw [if_neg (by simp only [toTemp_src]; omega),
      readWord_some_advance (by simpa using h0) (by simp only [toTemp_src]; omega)]
    simp only
    rw [if_pos (by simp only [word1_src, advance_src, toTemp_src]; omega)]
    rfl
  · rw [if_neg (by simp only [toTemp_src]; omega),
      readWord_some_advance (by simpa using h0) (by simp only [toTemp_src]; omega)]
    simp only
    rw [if_neg (by simp only [word1_src, advance_src, toTemp_src]; omega),
      readWord_some_advance (by simp only [word1_src, advance_src, toTemp_src]; omega)
        (by simp only [word1_src, advance_src, toTemp_src]; omega)]
    simp only
    rw [if_pos (by simp only [word1_src, word2_src, advance_src, toTemp_src]; omega)]
    rfl
  · rw [if_neg (by simp only [toTemp_src]; omega),
      readWord_some_advance (by simpa using h0) (by simp only [toTemp_src]; omega)]
    simp only
    rw [if_neg (by simp only [word1_src, advance_src, toTemp_src]; omega),
      readWord_some_advance (by simp only [word1_src, advance_src, toTemp_src]; omega)
        (by simp only [word1_src, advance_src, toTemp_src]; omega)]
    simp only
    rw [if_neg (by simp only [word1_src, word2_src, advance_src, toTemp_src]; omega),
      readWord_some_advance (by simp only [word1_src, word2_src, advance_src, toTemp_src]; omega)
        (by simp only [word1_src, word2_src, advance_src, toTemp_src]; omega)]
    simp only
    rw [if_pos (by simp only [word1_src, word2_src, word3_src, advance_src, toTemp_src]; omega)]
    rfl

theorem xLoopTraced_done (be : Bool) (pkt : List Nat) (width line_end line : Int) (fuel : Nat)
    (x : Int) (s : RowState) (h : ¬ x < width) :
    xLoopTraced be pkt width line_end line fuel x s = some ((x, s), []) := by
  cases fuel <;> rw [xLoopTraced, if_neg h]

theorem xLoopTraced_full (be : Bool) (pkt : List Nat) (width line_end line : Int) (n : Nat) :
    ∀ (fuel : Nat) (x : Int) (s : RowState),
      x + 6 * (n : Int) ≤ width → s.src + 16 * (n : Int) ≤ line_end → 0 ≤ s.src →
      line_end ≤ (pkt.length : Int) →
      xLoopTraced be pkt width line_end line (fuel + n) x s
        = xLoopTraced be pkt width line_end line fuel (x + 6 * (n : Int))
            ((fullHextet be pkt)^[n] s) := by
  induction n with
  | zero => intro fuel x s _ _ _ _; simp
  | succ n ih =>
    intro fuel x s hx hs h0 hl
    push_cast at hx hs
    have e : fuel + (n + 1) = (fuel + n) + 1 := by omega
    rw [e, xLoopTraced, if_pos (by omega)]
    rw [hextetTraced_full (by omega) (by omega) h0 hl]
    simp only
    rw [ih fuel (x + 6) (fullHextet be pkt s) (by omega) (by rw [fullHextet_src]; omega)
      (by rw [fullHextet_src]; omega) hl, Function.iterate_succ_apply]
    have e2 : x + 6 + 6 * (n : Int) = x + 6 * ((n + 1 : Nat) : Int) := by push_cast; ring
    rw [e2]
    cases xLoopTraced be pkt width line_end line fuel (x + 6 * ((n + 1 : Nat) : Int))
      ((fullHextet be pkt)^[n] (fullHextet be pkt s)) with
    | none => rfl
    | some r => simp

/-- The events of one row on accepted input. -/
theorem decodeLineTraced_events (be : Bool) (pkt : List Nat) (width stride : Int)
    (ls0 ls1 ls2 : Int) (fs : FrameState) (line : Int) (hw : 0 < width)
    (hst : stride = width * 8 / 3) (hle : fs.line_end = fs.src + stride) (h0 : 0 ≤ fs.src)
    (hl : fs.line_end ≤ (pkt.length : Int)) :
    ∃ fs1, decodeLineTraced be pkt width stride ls0 ls1 ls2 fs line
        = some (fs1, rowEvents width stride line) ∧
      decodeLine be pkt width stride ls0 ls1 ls2 fs line = some fs1 := by
  obtain ⟨fs1, hdec, -⟩ := decodeLine_spec be pkt width stride ls0 ls1 ls2 fs line hw hst hle h0 hl
  have hera := decodeLine_erasure be pkt width stride ls0 ls1 ls2 fs line
  rw [hdec] at hera
  -- the events of the loop over `x`
  obtain ⟨k, hk⟩ : ∃ k : Nat, (k : Int) = width / 6 := ⟨(width / 6).toNat, by omega⟩
  have hfuel : width.toNat = (width.toNat - k) + k := by omega
  have hs0src : (rowInit ls0 ls1 ls2 fs line).src = fs.src := rfl
  obtain ⟨-, -, -, ksrc, -⟩ := iter_ptrs be pkt (rowInit ls0 ls1 ls2 fs line) _ _ _
    (rfl : (rowInit ls0 ls1 ls2 fs line).y = .plane (line * ls0))
    (rfl : (rowInit ls0 ls1 ls2 fs line).u = .plane (line * ls1))
    (rfl : (rowInit ls0 ls1 ls2 fs line).v = .plane (line * ls2)) k
  have hloop := xLoopTraced_full be pkt width fs.line_end line k (width.toNat - k) 0
    (rowInit ls0 ls1 ls2 fs line) (by omega) (by rw [hs0src]; omega) (by rw [hs0src]; exact h0) hl
  rw [← hfuel, zero_add] at hloop
  rw [hs0src] at ksrc
  have hev : ∃ r, xLoopTraced be pkt width fs.line_end line width.toNat 0
      (rowInit ls0 ls1 ls2 fs line) = some (r, rowEvents width stride line) := by
    rw [hloop]
    by_cases hr : width = 6 * (k : Int)
    · refine ⟨(6 * (k : Int), (fullHextet be pkt)^[k] (rowInit ls0 ls1 ls2 fs line)), ?_⟩
      rw [xLoopTraced_done _ _ _ _ _ _ _ _ (by omega)]
      unfold rowEvents
      rw [if_pos (by omega)]
    · obtain ⟨nw, hnw⟩ : ∃ nw : Nat, (nw : Int) = (stride - 16 * (k : Int)) / 4 :=
        ⟨((stride - 16 * (k : Int)) / 4).toNat, by omega⟩
      obtain ⟨f, hf⟩ : ∃ f, width.toNat - k = f + 1 := ⟨width.toNat - k - 1, by omega⟩
      refine ⟨(6 * (k : Int),
        tailState be pkt nw ((fullHextet be pkt)^[k] (rowInit ls0 ls1 ls2 fs line))), ?_⟩
      rw [hf, xLoopTraced, if_pos (by omega),
        hextetTraced_tail nw (by omega) (by omega) (by omega) (by omega) (by omega) hl]
      unfold rowEvents
      rw [if_neg (by omega), ← hk, ← hnw, Int.toNat_ofNat]
  obtain ⟨r, hr⟩ := hev
  unfold decodeLineTraced at hera ⊢
  rw [hr] at hera ⊢
  obtain ⟨x, s⟩ := r
  simp only at hera ⊢
  cases hcb : copyBack be width ls0 ls1 ls2 line x s with
  | none => rw [hcb] at hera; simp at hera
  | some d =>
    rw [hcb] at hera
    simp only [Option.map_some', Option.some.injEq] at hera
    exact ⟨fs1, by rw [← hera], hdec⟩

theorem lineLoopTraced_done (be : Bool) (pkt : List Nat)
    (width height stride ls0 ls1 ls2 : Int) (fuel : Nat) (line : Int) (fs : FrameState)
    (h : ¬ line < height) :
    lineLoopTraced be pkt width height stride ls0 ls1 ls2 fuel line fs = some (fs, []) := by
  cases fuel <;> rw [lineLoopTraced, if_neg h]

theorem lineLoopTraced_events (be : Bool) (pkt : List Nat)
    (width height stride ls0 ls1 ls2 : Int) (hw : 0 < width) (hst : stride = width * 8 / 3)
    (hlen : height * stride ≤ (pkt.length : Int)) (n : Nat) :
    ∀ (fuel : Nat) (line : Int) (fs : FrameState), (n : Int) = height - line → n ≤ fuel →
      0 ≤ line → fs.src = line * stride → fs.line_end = fs.src + stride →
      ∃ fs1, lineLoopTraced be pkt width height stride ls0 ls1 ls2 fuel line fs
        = some (fs1, frameEvents width stride line n) := by
  have hs0 : 0 ≤ stride := by omega
  induction n with
  | zero =>
    intro fuel line fs hn _ _ _ _
    exact ⟨fs, lineLoopTraced_done _ _ _ _ _ _ _ _ _ _ _ (by omega)⟩
  | succ n ih =>
    intro fuel line fs hn hfuel hline hsrc hle
    push_cast at hn
    obtain ⟨f, hf⟩ : ∃ f, fuel = f + 1 := ⟨fuel - 1, by omega⟩
    have hbound : line * stride + stride ≤ height * stride := row_mono (by omega) hs0
    obtain ⟨fs1, hrowT, hrow⟩ := decodeLineTraced_events be pkt width stride ls0 ls1 ls2 fs line
      hw hst hle (by rw [hsrc]; exact Int.mul_nonneg hline hs0) (by omega)
    obtain ⟨fs1b, hrow2, post⟩ := decodeLine_spec be pkt width stride ls0 ls1 ls2 fs line hw hst
      hle (by rw [hsrc]; exact Int.mul_nonneg hline hs0) (by omega)
    rw [hrow] at hrow2
    cases hrow2
    have hsrc1 : fs1.src = (line + 1) * stride := by
      rw [post.src_eq, hsrc]; ring
    obtain ⟨fs2, hrest⟩ := ih f (line + 1) fs1 (by omega) (by omega) (by omega) hsrc1
      (by rw [post.line_end_eq, post.src_eq, hle])
    exact ⟨fs2, by rw [hf, lineLoopTraced, if_pos (by omega), hrowT]; simp only; rw [hrest]; rfl⟩

theorem frameEvents_multiple (width stride : Int) (hr : width % 6 = 0) (n : Nat) :
    ∀ line : Int, frameEvents width stride line n = [] := by
  induction n with
  | zero => intro line; rfl
  | succ n ih =>
    intro line
    rw [frameEvents, ih (line + 1)]
    unfold rowEvents
    rw [if_pos hr]
    rfl

theorem frameEvents_eq_flatMap (w q : Nat) (stride : Int) (hr : (w : Int) % 6 ≠ 0)
    (hq : ((stride - 16 * ((w : Int) / 6)) / 4).toNat = q) (n : Nat) :
    ∀ line : Nat, frameEvents (w : Int) stride (line : Int) n
      = (List.range n).flatMap (fun i =>
          [RowEvent.scratch ((line + i : Nat) : Int) ((6 * (w / 6) : Nat) : Int),
           RowEvent.guard ((line + i : Nat) : Int) ((6 * (w / 6) : Nat) : Int) q]) := by
  induction n with
  | zero => intro line; rfl
  | succ n ih =>
    intro line
    have e : ((line : Int) + 1) = ((line + 1 : Nat) : Int) := by push_cast; ring
    rw [frameEvents, e, ih (line + 1), List.range_succ_eq_map, List.flatMap_cons,
      List.flatMap_map]
    congr 1
    · unfold rowEvents
      rw [if_neg hr, hq]
      push_cast
      rfl
    · congr 1
      funext i
      have e2 : line + 1 + i = line + i.succ := by omega
      rw [e2]

/-- C15 (reachability of the 4-byte guard): for `width > 1` (`8 * width` within
the `int` range), `height > 0`, a packet of at least `height * stride` bytes and a
successful allocation, the events recorded by the traced decoder (whose outcome
is the outcome of `zero12v_decode_frame`) are these.  If `width` is a multiple of
6 there is no event at all: no guard leaves the loop and the scratch arrays are
never selected.  Otherwise every row has exactly two events, both in its last
iteration `x = 6 * (width / 6)`, the one of the trailing hextet of fewer than six
columns: the scratch arrays are selected, and a guard leaves the loop after 0,
1, 2, 2, 3 words for `width mod 6 = 1, 2, 3, 4, 5`, so before the fourth word is
read; no guard fires and no scratch array is selected anywhere else. -/
theorem guard_reachability (be : Bool) (E : Int) (w h : Nat) (has_buffer : Bool)
    (pkt : List Nat) (gb : Int × Picture) (hw : 1 < w) (hh : 0 < h)
    (hw8 : w * 8 ≤ 2147483647) (hlen : h * (w * 8 / 3) ≤ pkt.length)
    (hsz : pkt.length ≤ 2147483647) (halloc : 0 ≤ gb.1) :
    ∃ out evs,
      zero12v_decode_frame_traced be E (w : Int) (h : Int) has_buffer pkt gb = some (out, evs) ∧
      zero12v_decode_frame be E (w : Int) (h : Int) has_buffer pkt gb = some out ∧
      (w % 6 = 0 → evs = []) ∧
      (w % 6 ≠ 0 →
        [0, 0, 1, 2, 2, 3].getD (w % 6) 0 ≤ 3 ∧
        evs = (List.range h).flatMap (fun l =>
          [RowEvent.scratch (l : Int) ((6 * (w / 6) : Nat) : Int),
           RowEvent.guard (l : Int) ((6 * (w / 6) : Nat) : Int)
             ([0, 0, 1, 2, 2, 3].getD (w % 6) 0)])) := by
  have hst : (w : Int) * 8 / 3 = ((w * 8 / 3 : Nat) : Int) := by push_cast; omega
  have hwI : (1 : Int) < (w : Int) := by omega
  have hhI : (0 : Int) < (h : Int) := by omega
  have hw8I : (w : Int) * 8 ≤ 2147483647 := by omega
  have hlenI : (h : Int) * ((w : Int) * 8 / 3) ≤ (pkt.length : Int) := by
    rw [hst]; exact_mod_cast hlen
  have hszI : (pkt.length : Int) ≤ 2147483647 := by exact_mod_cast hsz
  obtain ⟨fs, hfs⟩ := lineLoopTraced_events be pkt (w : Int) (h : Int) ((w : Int) * 8 / 3)
    gb.2.linesize0 gb.2.linesize1 gb.2.linesize2 (by omega) rfl hlenI (h : Int).toNat
    (h : Int).toNat 0
    { data0 := gb.2.data0, data1 := gb.2.data1, data2 := gb.2.data2
      src := 0, line_end := (w : Int) * 8 / 3, reads := [] }
    (by omega) (le_refl _) (le_refl _) (by simp) (by simp)
  have hs : strideOf (w : Int) = (w : Int) * 8 / 3 := strideOf_eq (by omega) hw8I
  have hp : 0 ≤ (h : Int) * ((w : Int) * 8 / 3) := Int.mul_nonneg (by omega) (by omega)
  have htr : zero12v_decode_frame_traced be E (w : Int) (h : Int) has_buffer pkt gb
      = some ({ ret := (pkt.length : Int), got_frame := some 1
                frame := some { gb.2 with data0 := fs.data0, data1 := fs.data1,
                                          data2 := fs.data2 }
                has_buffer := true
                calls := (if has_buffer then [PoolCall.release_buffer] else [])
                  ++ [PoolCall.get_buffer]
                reads := fs.reads, log := [] },
              frameEvents (w : Int) ((w : Int) * 8 / 3) 0 (h : Int).toNat) := by
    unfold zero12v_decode_frame_traced
    simp only [hs]
    rw [if_neg (by omega), wrapInt32_id (by omega) (by omega), if_neg (by omega),
      if_neg (by omega), hfs]
  have her := traced_erasure be E (w : Int) (h : Int) has_buffer pkt gb
  rw [htr] at her
  refine ⟨_, _, htr, her.symm, ?_, ?_⟩
  · intro hr
    exact frameEvents_multiple _ _ (by omega) _ _
  · intro hr
    have hq : ((((w : Int) * 8 / 3) - 16 * ((w : Int) / 6)) / 4).toNat
        = [0, 0, 1, 2, 2, 3].getD (w % 6) 0 := by
      have h6 : w % 6 < 6 := Nat.mod_lt _ (by norm_num)
      have hdm := Nat.div_add_mod w 6
      generalize w % 6 = r at *
      generalize w / 6 = k at *
      have hwk : (w : Int) = 6 * (k : Int) + (r : Int) := by omega
      interval_cases r <;> simp <;> omega
    constructor
    · have h6 : w % 6 < 6 := Nat.mod_lt _ (by norm_num)
      generalize w % 6 = r at *
      interval_cases r <;> simp
    · have := frameEvents_eq_flatMap w _ ((w : Int) * 8 / 3) (by omega) hq (h : Int).toNat 0
      simp only [Nat.cast_zero, Nat.zero_add] at this
      rw [this, Int.toNat_ofNat]

/-- Witness of C15: `width = 8`, `height = 2`.  In each row the guard fires once,
in the iteration `x = 6`, after one word. -/
theorem guard_reachability_witness :
    ∃ out evs,
      zero12v_decode_frame_traced false (-1094995529) 8 2 false (rampPacket 42 11 37)
        (0, filledPicture 0xAA 16 8 8) = some (out, evs) ∧
      zero12v_decode_frame false (-1094995529) 8 2 false (rampPacket 42 11 37)
        (0, filledPicture 0xAA 16 8 8) = some out ∧
      evs = [RowEvent.scratch 0 6, RowEvent.guard 0 6 1,
             RowEvent.scratch 1 6, RowEvent.guard 1 6 1] := by
  obtain ⟨out, evs, h1, h2, -, h4⟩ := guard_reachability false (-1094995529) 8 2 false
    (rampPacket 42 11 37) (0, filledPicture 0xAA 16 8 8) (by decide) (by decide) (by decide)
    (by decide) (by decide) (by decide)
  exact ⟨out, evs, h1, h2, (h4 (by decide)).2.trans (by decide)⟩

/-! ## The buffer pool over the life of a decoder -/

/-- The pool calls of one call and the state it leaves, in each of its four ways
of returning. -/
theorem decode_calls_cases (be : Bool) (E : Int) (width height : Int) (has_buffer : Bool)
    (pkt : List Nat) (gb : Int × Picture) (out : Outcome)
    (h : zero12v_decode_frame be E width height has_buffer pkt gb = some out) :
    (out.calls = (if has_buffer then [PoolCall.release_buffer] else []) ∧
      out.has_buffer = false) ∨
    (out.calls = (if has_buffer then [PoolCall.release_buffer] else [])
        ++ [PoolCall.get_buffer]) := by
  unfold zero12v_decode_frame at h
  simp only at h
  split at h
  · cases h; exact Or.inl ⟨rfl, rfl⟩
  · split at h
    · cases h; exact Or.inl ⟨rfl, rfl⟩
    · split at h
      · cases h; exact Or.inr rfl
      · split at h
        · cases h
        · cases h; exact Or.inr rfl

theorem heldAfter_call (be : Bool) (E : Int) (width height : Int) (has_buffer : Bool)
    (pkt : List Nat) (gb : Int × Picture) (out : Outcome)
    (h : zero12v_decode_frame be E width height has_buffer pkt gb = some out)
    (evs : List PoolEvent) :
    heldAfter (if has_buffer then 1 else 0) (poolEvents out.has_buffer out.calls ++ evs)
      = heldAfter (if out.has_buffer then 1 else 0) evs := by
  rcases decode_calls_cases be E width height has_buffer pkt gb out h with ⟨hc, hb⟩ | hc
  · rw [hc, hb]
    cases has_buffer <;> simp [poolEvents, heldAfter]
  · rw [hc]
    cases has_buffer <;> cases out.has_buffer <;> simp [poolEvents, heldAfter]

theorem heldAfter_calls (be : Bool) (E : Int) (cs : List DecodeCall) :
    ∀ (has_buffer hb : Bool) (evs : List PoolEvent),
      decodeCalls be E has_buffer cs = some (hb, evs) →
      heldAfter (if has_buffer then 1 else 0) evs = some (if hb then 1 else 0) := by
  induction cs with
  | nil =>
    intro has_buffer hb evs h
    simp only [decodeCalls, Option.some.injEq, Prod.mk.injEq] at h
    obtain ⟨rfl, rfl⟩ := h
    rfl
  | cons c cs ih =>
    intro has_buffer hb evs h
    rw [decodeCalls] at h
    cases hd : zero12v_decode_frame be E c.width c.height has_buffer c.pkt c.ff_get_buffer with
    | none => rw [hd] at h; cases h
    | some out =>
      rw [hd] at h
      simp only at h
      cases hr : decodeCalls be E out.has_buffer cs with
      | none => rw [hr] at h; cases h
      | some r =>
        obtain ⟨hb1, evs1⟩ := r
        rw [hr] at h
        simp only [Option.some.injEq, Prod.mk.injEq] at h
        obtain ⟨rfl, rfl⟩ := h
        rw [heldAfter_call be E c.width c.height has_buffer c.pkt c.ff_get_buffer out hd]
        exact ih out.has_buffer hb1 evs1 hr

theorem heldAfter_take (evs : List PoolEvent) :
    ∀ (held m : Nat), held ≤ 1 → heldAfter held evs = some m →
      m ≤ 1 ∧ ∀ n : Nat, ∃ m1, m1 ≤ 1 ∧ heldAfter held (evs.take n) = some m1 := by
  induction evs with
  | nil =>
    intro held m hh h
    simp only [heldAfter, Option.some.injEq] at h
    subst h
    exact ⟨hh, fun n => ⟨held, hh, by simp [heldAfter]⟩⟩
  | cons e evs ih =>
    intro held m hh h
    have key : ∀ held1 : Nat, held1 ≤ 1 → heldAfter held1 evs = some m →
        (∀ t : List PoolEvent, heldAfter held (e :: t) = heldAfter held1 t) →
        m ≤ 1 ∧ ∀ n : Nat, ∃ m1, m1 ≤ 1 ∧ heldAfter held ((e :: evs).take n) = some m1 := by
      intro held1 h1 hrest hstep
      obtain ⟨hm, hp⟩ := ih held1 m h1 hrest
      refine ⟨hm, fun n => ?_⟩
      cases n with
      | zero => exact ⟨held, hh, by simp [heldAfter]⟩
      | succ n =>
        obtain ⟨m1, hm1, hm2⟩ := hp n
        exact ⟨m1, hm1, by rw [List.take_succ_cons, hstep]; exact hm2⟩
    cases e with
    | released =>
      by_cases h0 : held = 0
      · simp [heldAfter, h0] at h
      · simp only [heldAfter, if_neg h0] at h
        exact key (held - 1) (by omega) h (fun t => by simp only [heldAfter, if_neg h0])
    | acquired =>
      by_cases h0 : held = 0
      · simp only [heldAfter, if_pos h0] at h
        exact key 1 (le_refl _) h (fun t => by simp only [heldAfter, if_pos h0])
      · simp [heldAfter, h0] at h
    | refused =>
      by_cases h0 : held = 0
      · simp only [heldAfter, if_pos h0] at h
        exact key 0 (by omega) h (fun t => by simp only [heldAfter, if_pos h0])
      · simp [heldAfter, h0] at h

/-- C17 (single live output buffer): take any sequence of calls of
`zero12v_decode_frame` (accepted, rejected or with a failing allocator, each with
defined behaviour) on a decoder instance in the state left by a successful
`zero12v_decode_init`.  The pool events of the whole sequence respect the
discipline of `heldAfter`, at the end and after every prefix: the decoder never
holds more than one buffer, the allocator is only called while no buffer is
held (the buffer held from the previous call has been released before), and a
buffer is only released while one is held.  In particular a call that starts
with no held buffer calls no `release_buffer`, and a call that starts with a
held buffer releases it before it calls the allocator. -/
theorem single_live_buffer (be : Bool) (E ENOMEM : Int) (tag : Bool) (cs : List DecodeCall)
    (hb : Bool) (evs : List PoolEvent)
    (h : decodeCalls be E (zero12v_decode_init true ENOMEM tag).has_buffer cs = some (hb, evs)) :
    heldAfter 0 evs = some (if hb then 1 else 0) ∧
    (∀ n : Nat, ∃ m, m ≤ 1 ∧ heldAfter 0 (evs.take n) = some m) ∧
    (∀ (c : DecodeCall) (out : Outcome),
      zero12v_decode_frame be E c.width c.height false c.pkt c.ff_get_buffer = some out →
      PoolCall.release_buffer ∉ out.calls) ∧
    (∀ (c : DecodeCall) (out : Outcome),
      zero12v_decode_frame be E c.width c.height true c.pkt c.ff_get_buffer = some out →
      out.calls = [PoolCall.release_buffer] ∨
      out.calls = [PoolCall.release_buffer, PoolCall.get_buffer]) := by
  have h1 := heldAfter_calls be E cs false hb evs h
  simp only [Bool.false_eq_true, if_false] at h1
  refine ⟨h1, (heldAfter_take evs 0 _ (by omega) h1).2, ?_, ?_⟩
  · intro c out hout
    rcases decode_calls_cases be E c.width c.height false c.pkt c.ff_get_buffer out hout
      with ⟨hc, -⟩ | hc <;> rw [hc] <;> simp
  · intro c out hout
    rcases decode_calls_cases be E c.width c.height true c.pkt c.ff_get_buffer out hout
      with ⟨hc, -⟩ | hc
    · exact Or.inl hc
    · exact Or.inr hc

/-- Witness of C17: five calls on `width = 2`, `height = 1` (stride 5): accepted,
accepted, rejected for a short packet, allocation refused, accepted. -/
theorem single_live_buffer_witness :
    heldAfter 0 [PoolEvent.acquired, PoolEvent.released, PoolEvent.acquired,
      PoolEvent.released, PoolEvent.refused, PoolEvent.acquired] = some 1 ∧
    decodeCalls false (-1094995529) false
      [sampleCall 2 1 5 0, sampleCall 2 1 5 0, sampleCall 2 1 4 0, sampleCall 2 1 5 (-12),
       sampleCall 2 1 5 0]
      = some (true, [PoolEvent.acquired, PoolEvent.released, PoolEvent.acquired,
          PoolEvent.released, PoolEvent.refused, PoolEvent.acquired]) :=
  have hrun : decodeCalls false (-1094995529) (zero12v_decode_init true (-12) false).has_buffer
      [sampleCall 2 1 5 0, sampleCall 2 1 5 0, sampleCall 2 1 4 0, sampleCall 2 1 5 (-12),
       sampleCall 2 1 5 0]
      = some (true, [PoolEvent.acquired, PoolEvent.released, PoolEvent.acquired,
          PoolEvent.released, PoolEvent.refused, PoolEvent.acquired]) := by decide!
  ⟨(single_live_buffer false (-1094995529) (-12) false _ _ _ hrun).1, hrun⟩

theorem heldAfter_append (a : List PoolEvent) :
    ∀ (held m : Nat) (b : List PoolEvent), heldAfter held a = some m →
      heldAfter held (a ++ b) = heldAfter m b := by
  induction a with
  | nil =>
    intro held m b h
    simp only [heldAfter, Option.some.injEq] at h
    subst h
    rfl
  | cons e a ih =>
    intro held m b h
    cases e with
    | released =>
      by_cases h0 : held = 0
      · simp [heldAfter, h0] at h
      · simp only [heldAfter, if_neg h0, List.cons_append] at h ⊢
        exact ih _ _ _ h
    | acquired =>
      by_cases h0 : held = 0
      · simp only [heldAfter, if_pos h0, List.cons_append] at h ⊢
        exact ih _ _ _ h
      · simp [heldAfter, h0] at h
    | refused =>
      by_cases h0 : held = 0
      · simp only [heldAfter, if_pos h0, List.cons_append] at h ⊢
        exact ih _ _ _ h
      · simp [heldAfter, h0] at h

theorem heldAfter_count (evs : List PoolEvent) :
    ∀ (held m : Nat), heldAfter held evs = some m →
      held + evs.count PoolEvent.acquired = m + evs.count PoolEvent.released := by
  induction evs with
  | nil =>
    intro held m h
    simp only [heldAfter, Option.some.injEq] at h
    subst h
    rfl
  | cons e evs ih =>
    intro held m h
    cases e with
    | released =>
      by_cases h0 : held = 0
      · simp [heldAfter, h0] at h
      · simp only [heldAfter, if_neg h0] at h
        have := ih _ _ h
        simp [List.count_cons]
        omega
    | acquired =>
      by_cases h0 : held = 0
      · simp only [heldAfter, if_pos h0] at h
        have := ih _ _ h
        simp [List.count_cons]
        omega
      · simp [heldAfter, h0] at h
    | refused =>
      by_cases h0 : held = 0
      · simp only [heldAfter, if_pos h0] at h
        have := ih _ _ h
        simp [List.count_cons]
        omega
      · simp [heldAfter, h0] at h

/-- C18 (shutdown release): take any sequence of calls of `zero12v_decode_frame`
(each with defined behaviour) on a decoder instance in the state left by a
successful `zero12v_decode_init`, followed by `zero12v_decode_close`.  If the
decoder still holds a buffer when `zero12v_decode_close` is called, that call
makes exactly one `release_buffer` call; if it holds none, it makes no call.  In
both cases the decoder holds no buffer afterwards, and the pool events of the
whole life of the decoder respect the discipline of `heldAfter` and end with no
buffer held: every buffer acquired has been released, and none was released
twice. -/
theorem shutdown_release (be : Bool) (E ENOMEM : Int) (tag : Bool) (cs : List DecodeCall)
    (hb : Bool) (evs : List PoolEvent)
    (h : decodeCalls be E (zero12v_decode_init true ENOMEM tag).has_buffer cs = some (hb, evs)) :
    (hb = true → (zero12v_decode_close hb).calls = [PoolCall.release_buffer]) ∧
    (hb = false → (zero12v_decode_close hb).calls = []) ∧
    (zero12v_decode_close hb).has_buffer = false ∧
    heldAfter 0 (evs ++ poolEvents false (zero12v_decode_close hb).calls) = some 0 ∧
    (evs ++ poolEvents false (zero12v_decode_close hb).calls).count PoolEvent.released
      = evs.count PoolEvent.acquired := by
  have h1 := heldAfter_calls be E cs false hb evs h
  simp only [Bool.false_eq_true, if_false] at h1
  have hcnt := heldAfter_count evs 0 _ h1
  cases hb with
  | true =>
    have e : poolEvents false (zero12v_decode_close true).calls = [PoolEvent.released] := rfl
    refine ⟨fun _ => rfl, (fun hf => absurd hf (by decide)), rfl, ?_, ?_⟩
    · rw [e, heldAfter_append evs 0 1 _ h1]
      rfl
    · rw [e, List.count_append]
      simp only [if_true] at hcnt
      simp only [List.count_cons_self, List.count_nil]
      omega
  | false =>
    have e : poolEvents false (zero12v_decode_close false).calls = [] := rfl
    refine ⟨(fun hf => absurd hf (by decide)), fun _ => rfl, rfl, ?_, ?_⟩
    · rw [e, List.append_nil]
      exact h1
    · rw [e, List.append_nil]
      simp only [Bool.false_eq_true, if_false] at hcnt
      omega

/-- Witness of C18: the decoder is closed after an accepted call, while it holds
the buffer of that call. -/
theorem shutdown_release_witness :
    (zero12v_decode_close true).calls = [PoolCall.release_buffer] ∧
    (zero12v_decode_close true).has_buffer = false ∧
    heldAfter 0 ([PoolEvent.acquired, PoolEvent.released, PoolEvent.refused,
      PoolEvent.acquired] ++ poolEvents false (zero12v_decode_close true).calls) = some 0 :=
  have hrun : decodeCalls true (-1094995529) (zero12v_decode_init true (-12) true).has_buffer
      [sampleCall 2 1 5 0, sampleCall 2 1 9 (-12), sampleCall 2 1 7 0]
      = some (true, [PoolEvent.acquired, PoolEvent.released, PoolEvent.refused,
          PoolEvent.acquired]) := by decide!
  have hc := shutdown_release true (-1094995529) (-12) true _ _ _ hrun
  ⟨hc.1 rfl, hc.2.2.1, hc.2.2.2.1⟩

/-! ## The words of a row -/

theorem rl32_congr (pkt pkt2 : List Nat) (n : Nat)
    (h : ∀ t : Nat, t < 4 → pkt.getD (n + t) 0 = pkt2.getD (n + t) 0) :
    rl32 pkt n = rl32 pkt2 n := by
  unfold rl32 byteAt
  rw [h 1 (by norm_num), h 2 (by norm_num), h 3 (by norm_num)]
  have h0 := h 0 (by norm_num)
  rw [Nat.add_zero] at h0
  rw [h0]

theorem expectedY_congr (pkt pkt2 : List Nat) (stride base c : Nat)
    (h : ∀ i : Nat, i < 4 * (stride / 4) → pkt.getD (base + i) 0 = pkt2.getD (base + i) 0) :
    expectedY (stride : Int) pkt (base : Int) c = expectedY (stride : Int) pkt2 (base : Int) c := by
  have hc : c = 6 * (c / 6) + c % 6 := by omega
  rw [hc, expectedY_nat _ _ _ _ _ (Nat.mod_lt _ (by norm_num)),
    expectedY_nat _ _ _ _ _ (Nat.mod_lt _ (by norm_num))]
  split
  · rw [rl32_congr pkt pkt2 _ (fun t ht => by
      rw [Nat.add_assoc, Nat.add_assoc]; exact h _ (by omega))]
  · rfl

theorem expectedU_congr (pkt pkt2 : List Nat) (stride base c : Nat)
    (h : ∀ i : Nat, i < 4 * (stride / 4) → pkt.getD (base + i) 0 = pkt2.getD (base + i) 0) :
    expectedU (stride : Int) pkt (base : Int) c = expectedU (stride : Int) pkt2 (base : Int) c := by
  have hc : c = 3 * (c / 3) + c % 3 := by omega
  rw [hc, expectedU_nat _ _ _ _ _ (Nat.mod_lt _ (by norm_num)),
    expectedU_nat _ _ _ _ _ (Nat.mod_lt _ (by norm_num))]
  split
  · rw [rl32_congr pkt pkt2 _ (fun t ht => by
      rw [Nat.add_assoc, Nat.add_assoc]; exact h _ (by omega))]
  · rfl

theorem expectedV_congr (pkt pkt2 : List Nat) (stride base c : Nat)
    (h : ∀ i : Nat, i < 4 * (stride / 4) → pkt.getD (base + i) 0 = pkt2.getD (base + i) 0) :
    expectedV (stride : Int) pkt (base : Int) c = expectedV (stride : Int) pkt2 (base : Int) c := by
  have hc : c = 3 * (c / 3) + c % 3 := by omega
  rw [hc, expectedV_nat _ _ _ _ _ (Nat.mod_lt _ (by norm_num)),
    expectedV_nat _ _ _ _ _ (Nat.mod_lt _ (by norm_num))]
  split
  · rw [rl32_congr pkt pkt2 _ (fun t ht => by
      rw [Nat.add_assoc, Nat.add_assoc]; exact h _ (by omega))]
  · rfl

/-- The Y sample at position `p` of hextet `j` is the field of word `4 j + yWord p`
of the row, when that word is among the `stride / 4` words read. -/
theorem expectedY_of_word (pkt : List Nat) (stride base j p q : Nat) (hp : p < 6)
    (hq : q = 4 * j + yWord p) (hread : q < stride / 4) :
    expectedY (stride : Int) pkt (base : Int) (6 * j + p) = yField p (rl32 pkt (base + 4 * q)) := by
  rw [expectedY_nat _ _ _ _ _ hp, if_pos (by omega)]
  congr 2
  omega

theorem expectedU_of_word (pkt : List Nat) (stride base j p q : Nat) (hp : p < 3)
    (hq : q = 4 * j + uWord p) (hread : q < stride / 4) :
    expectedU (stride : Int) pkt (base : Int) (3 * j + p) = uField p (rl32 pkt (base + 4 * q)) := by
  rw [expectedU_nat _ _ _ _ _ hp, if_pos (by omega)]
  congr 2
  omega

theorem expectedV_of_word (pkt : List Nat) (stride base j p q : Nat) (hp : p < 3)
    (hq : q = 4 * j + vWord p) (hread : q < stride / 4) :
    expectedV (stride : Int) pkt (base : Int) (3 * j + p) = vField p (rl32 pkt (base + 4 * q)) := by
  rw [expectedV_nat _ _ _ _ _ hp, if_pos (by omega)]
  congr 2
  omega

/-- C19 (words consumed per row): for `width = w > 1` (`8 * w` within the `int`
range), `height = h > 0`, a packet of at least `h * stride` bytes,
`stride = floor(w * 8 / 3)`, and a successful allocation (rows of the supplied
planes not overlapping):

* `stride / 4` is `4 * (w / 6)` plus 0, 0, 1, 2, 2, 3 for `w mod 6 = 0, 1, 2, 3, 4, 5`;
* each row `l` reads exactly the `stride / 4` consecutive words that start at its
  first byte `l * stride`;
* every field of every word read is an in-width sample of that row: word
  `q = 4 j + m` of the row gives `U[3j], Y[6j], V[3j]` for `m = 0`,
  `Y[6j+1], U[3j+1], Y[6j+2]` for `m = 1`, `V[3j+1], Y[6j+3], U[3j+2]` for `m = 2`
  and `Y[6j+4], V[3j+2], Y[6j+5]` for `m = 3`;
* a second packet that agrees with the first on the bytes of the words read,
  whatever its last `stride mod 4` bytes of each row and its bytes from offset
  `h * stride` on (its length included), gives the same in-width samples. -/
theorem words_consumed_per_row (be : Bool) (E E2 : Int) (w h : Nat) (b b2 : Bool)
    (pkt pkt2 : List Nat) (gb gb2 : Int × Picture) (hw : 1 < w) (hh : 0 < h)
    (hw8 : w * 8 ≤ 2147483647)
    (hlen : h * (w * 8 / 3) ≤ pkt.length) (hsz : pkt.length ≤ 2147483647)
    (halloc : 0 ≤ gb.1) (hls0 : 2 * (w : Int) ≤ gb.2.linesize0)
    (hls1 : 2 * (((w + 1) / 2 : Nat) : Int) ≤ gb.2.linesize1)
    (hls2 : 2 * (((w + 1) / 2 : Nat) : Int) ≤ gb.2.linesize2)
    (hlen2 : h * (w * 8 / 3) ≤ pkt2.length) (hsz2 : pkt2.length ≤ 2147483647)
    (halloc2 : 0 ≤ gb2.1) (hls02 : 2 * (w : Int) ≤ gb2.2.linesize0)
    (hls12 : 2 * (((w + 1) / 2 : Nat) : Int) ≤ gb2.2.linesize1)
    (hls22 : 2 * (((w + 1) / 2 : Nat) : Int) ≤ gb2.2.linesize2)
    (hagree : ∀ l i : Nat, l < h → i < 4 * (w * 8 / 3 / 4) →
      pkt.getD (l * (w * 8 / 3) + i) 0 = pkt2.getD (l * (w * 8 / 3) + i) 0) :
    w * 8 / 3 / 4 = 4 * (w / 6) + [0, 0, 1, 2, 2, 3].getD (w % 6) 0 ∧
    ∃ out pic out2 pic2,
      zero12v_decode_frame be E (w : Int) (h : Int) b pkt gb = some out ∧
      out.frame = some pic ∧
      zero12v_decode_frame be E2 (w : Int) (h : Int) b2 pkt2 gb2 = some out2 ∧
      out2.frame = some pic2 ∧
      out.reads = (List.range h).flatMap (fun l =>
        (List.range (w * 8 / 3 / 4)).map (fun q =>
          ((l : Int), ((l * (w * 8 / 3) + 4 * q : Nat) : Int)))) ∧
      (∀ l q : Nat, l < h → q < w * 8 / 3 / 4 →
        (q % 4 = 0 → 6 * (q / 4) < w ∧ 3 * (q / 4) < (w + 1) / 2 ∧
          sampleU be pic l (3 * (q / 4)) = field_a (rl32 pkt (l * (w * 8 / 3) + 4 * q)) ∧
          sampleY be pic l (6 * (q / 4)) = field_b (rl32 pkt (l * (w * 8 / 3) + 4 * q)) ∧
          sampleV be pic l (3 * (q / 4)) = field_c (rl32 pkt (l * (w * 8 / 3) + 4 * q))) ∧
        (q % 4 = 1 → 6 * (q / 4) + 2 < w ∧ 3 * (q / 4) + 1 < (w + 1) / 2 ∧
          sampleY be pic l (6 * (q / 4) + 1) = field_a (rl32 pkt (l * (w * 8 / 3) + 4 * q)) ∧
          sampleU be pic l (3 * (q / 4) + 1) = field_b (rl32 pkt (l * (w * 8 / 3) + 4 * q)) ∧
          sampleY be pic l (6 * (q / 4) + 2) = field_c (rl32 pkt (l * (w * 8 / 3) + 4 * q))) ∧
        (q % 4 = 2 → 6 * (q / 4) + 3 < w ∧ 3 * (q / 4) + 2 < (w + 1) / 2 ∧
          sampleV be pic l (3 * (q / 4) + 1) = field_a (rl32 pkt (l * (w * 8 / 3) + 4 * q)) ∧
          sampleY be pic l (6 * (q / 4) + 3) = field_b (rl32 pkt (l * (w * 8 / 3) + 4 * q)) ∧
          sampleU be pic l (3 * (q / 4) + 2) = field_c (rl32 pkt (l * (w * 8 / 3) + 4 * q))) ∧
        (q % 4 = 3 → 6 * (q / 4) + 5 < w ∧ 3 * (q / 4) + 2 < (w + 1) / 2 ∧
          sampleY be pic l (6 * (q / 4) + 4) = field_a (rl32 pkt (l * (w * 8 / 3) + 4 * q)) ∧
          sampleV be pic l (3 * (q / 4) + 2) = field_b (rl32 pkt (l * (w * 8 / 3) + 4 * q)) ∧
          sampleY be pic l (6 * (q / 4) + 5) = field_c (rl32 pkt (l * (w * 8 / 3) + 4 * q)))) ∧
      (∀ l c : Nat, l < h → c < w → sampleY be pic l c = sampleY be pic2 l c) ∧
      (∀ l i : Nat, l < h → i < (w + 1) / 2 →
        sampleU be pic l i = sampleU be pic2 l i ∧ sampleV be pic l i = sampleV be pic2 l i) := by
  have hcount : w * 8 / 3 / 4 = 4 * (w / 6) + [0, 0, 1, 2, 2, 3].getD (w % 6) 0 := by
    have h6 : w % 6 < 6 := Nat.mod_lt _ (by norm_num)
    have hdm := Nat.div_add_mod w 6
    generalize w % 6 = r at *
    generalize w / 6 = k at *
    interval_cases r <;> simp <;> omega
  refine ⟨hcount, ?_⟩
  have hst : (w : Int) * 8 / 3 = ((w * 8 / 3 : Nat) : Int) := by push_cast; omega
  obtain ⟨out, pic, ho, hp, hy, hu, hv, hr⟩ := decode_expected_reads be E (w : Int) (h : Int) b
    pkt gb (by omega) (by omega) (by omega) (by rw [hst]; exact_mod_cast hlen)
    (by exact_mod_cast hsz) halloc hls0 (by push_cast at hls1 ⊢; omega)
    (by push_cast at hls2 ⊢; omega)
  obtain ⟨out2, pic2, ho2, hp2, hy2, hu2, hv2, -⟩ := decode_expected_reads be E2 (w : Int)
    (h : Int) b2 pkt2 gb2 (by omega) (by omega) (by omega) (by rw [hst]; exact_mod_cast hlen2)
    (by exact_mod_cast hsz2) halloc2 hls02 (by push_cast at hls12 ⊢; omega)
    (by push_cast at hls22 ⊢; omega)
  rw [hst] at hy hu hv hr hy2 hu2 hv2
  have hb : ∀ l : Nat, ((l : Nat) : Int) * ((w * 8 / 3 : Nat) : Int)
      = ((l * (w * 8 / 3) : Nat) : Int) := by
    intro l; push_cast; ring
  have hreads : out.reads = (List.range h).flatMap (fun l =>
      (List.range (w * 8 / 3 / 4)).map (fun q =>
        ((l : Int), ((l * (w * 8 / 3) + 4 * q : Nat) : Int)))) := by
    have := frameReads_eq_flatMap (w * 8 / 3) h 0
    simp only [Nat.cast_zero, Nat.zero_add] at this
    rw [hr, Int.toNat_ofNat]
    exact this
  -- the sample that a field of a word read becomes
  have Yw : ∀ l j p q : Nat, l < h → p < 6 → q = 4 * j + yWord p → q < w * 8 / 3 / 4 →
      6 * j + p < w →
      sampleY be pic l (6 * j + p) = yField p (rl32 pkt (l * (w * 8 / 3) + 4 * q)) := by
    intro l j p q hl hp6 hq hrd hin
    rw [hy l (6 * j + p) (by exact_mod_cast hl) (by exact_mod_cast hin), hb,
      expectedY_of_word pkt _ _ j p q hp6 hq hrd]
  have Uw : ∀ l j p q : Nat, l < h → p < 3 → q = 4 * j + uWord p → q < w * 8 / 3 / 4 →
      3 * j + p < (w + 1) / 2 →
      sampleU be pic l (3 * j + p) = uField p (rl32 pkt (l * (w * 8 / 3) + 4 * q)) := by
    intro l j p q hl hp3 hq hrd hin
    rw [hu l (3 * j + p) (by exact_mod_cast hl) (by omega), hb,
      expectedU_of_word pkt _ _ j p q hp3 hq hrd]
  have Vw : ∀ l j p q : Nat, l < h → p < 3 → q = 4 * j + vWord p → q < w * 8 / 3 / 4 →
      3 * j + p < (w + 1) / 2 →
      sampleV be pic l (3 * j + p) = vField p (rl32 pkt (l * (w * 8 / 3) + 4 * q)) := by
    intro l j p q hl hp3 hq hrd hin
    rw [hv l (3 * j + p) (by exact_mod_cast hl) (by omega), hb,
      expectedV_of_word pkt _ _ j p q hp3 hq hrd]
  have y0 : yWord 0 = 0 := rfl
  have y1 : yWord 1 = 1 := rfl
  have y2 : yWord 2 = 1 := rfl
  have y3 : yWord 3 = 2 := rfl
  have y4 : yWord 4 = 3 := rfl
  have y5 : yWord 5 = 3 := rfl
  have u0 : uWord 0 = 0 := rfl
  have u1 : uWord 1 = 1 := rfl
  have u2 : uWord 2 = 2 := rfl
  have v0 : vWord 0 = 0 := rfl
  have v1 : vWord 1 = 2 := rfl
  have v2 : vWord 2 = 3 := rfl
  refine ⟨out, pic, out2, pic2, ho, hp, ho2, hp2, hreads, ?_, ?_, ?_⟩
  · intro l q hl hq
    refine ⟨?_, ?_, ?_, ?_⟩
    · intro hm
      have i1 : 6 * (q / 4) < w := by omega
      have i2 : 3 * (q / 4) < (w + 1) / 2 := by omega
      exact ⟨i1, i2, Uw l (q / 4) 0 q hl (by norm_num) (by omega) hq i2,
        Yw l (q / 4) 0 q hl (by norm_num) (by omega) hq i1,
        Vw l (q / 4) 0 q hl (by norm_num) (by omega) hq i2⟩
    · intro hm
      have i1 : 6 * (q / 4) + 2 < w := by omega
      have i2 : 3 * (q / 4) + 1 < (w + 1) / 2 := by omega
      exact ⟨i1, i2, Yw l (q / 4) 1 q hl (by norm_num) (by omega) hq (by omega),
        Uw l (q / 4) 1 q hl (by norm_num) (by omega) hq i2,
        Yw l (q / 4) 2 q hl (by norm_num) (by omega) hq i1⟩
    · intro hm
      have i1 : 6 * (q / 4) + 3 < w := by omega
      have i2 : 3 * (q / 4) + 2 < (w + 1) / 2 := by omega
      exact ⟨i1, i2, Vw l (q / 4) 1 q hl (by norm_num) (by omega) hq (by omega),
        Yw l (q / 4) 3 q hl (by norm_num) (by omega) hq i1,
        Uw l (q / 4) 2 q hl (by norm_num) (by omega) hq i2⟩
    · intro hm
      have i1 : 6 * (q / 4) + 5 < w := by omega
      have i2 : 3 * (q / 4) + 2 < (w + 1) / 2 := by omega
      exact ⟨i1, i2, Yw l (q / 4) 4 q hl (by norm_num) (by omega) hq (by omega),
        Vw l (q / 4) 2 q hl (by norm_num) (by omega) hq i2,
        Yw l (q / 4) 5 q hl (by norm_num) (by omega) hq i1⟩
  · intro l c hl hc
    rw [hy l c (by exact_mod_cast hl) (by exact_mod_cast hc),
      hy2 l c (by exact_mod_cast hl) (by exact_mod_cast hc), hb,
      expectedY_congr pkt pkt2 _ _ _ (fun i hi => hagree l i hl hi)]
  · intro l i hl hi
    have hi1 : (i : Int) < ((w : Int) + 1) / 2 := by omega
    rw [hu l i (by exact_mod_cast hl) hi1, hu2 l i (by exact_mod_cast hl) hi1,
      hv l i (by exact_mod_cast hl) hi1, hv2 l i (by exact_mod_cast hl) hi1, hb,
      expectedU_congr pkt pkt2 _ _ _ (fun i hi => hagree l i hl hi),
      expectedV_congr pkt pkt2 _ _ _ (fun i hi => hagree l i hl hi)]
    exact ⟨rfl, rfl⟩

/-- Witness of C19: `width = 8`, `height = 2`, stride 21.  Five words are read in
each row, from offsets 0 and 21; the fifth word of row 1 gives `U[1][3]`,
`Y[1][6]`, `V[1][3]`; the packet `rampPacketVariant`, which differs in the last
byte of each row and is three bytes longer, gives the same in-width samples. -/
theorem words_consumed_per_row_witness :
    8 * 8 / 3 / 4 = 4 * (8 / 6) + [0, 0, 1, 2, 2, 3].getD (8 % 6) 0 ∧
    ∃ out pic out2 pic2,
      zero12v_decode_frame false (-1094995529) 8 2 false (rampPacket 42 11 37)
        (0, filledPicture 0xAA 16 8 8) = some out ∧
      out.frame = some pic ∧
      zero12v_decode_frame false (-1094995529) 8 2 true rampPacketVariant
        (0, filledPicture 0x55 32 16 16) = some out2 ∧
      out2.frame = some pic2 ∧
      out.reads = [(0, 0), (0, 4), (0, 8), (0, 12), (0, 16),
                   (1, 21), (1, 25), (1, 29), (1, 33), (1, 37)] ∧
      sampleU false pic 1 3 = field_a (rl32 (rampPacket 42 11 37) 37) ∧
      sampleY false pic 1 6 = field_b (rl32 (rampPacket 42 11 37) 37) ∧
      sampleV false pic 1 3 = field_c (rl32 (rampPacket 42 11 37) 37) ∧
      (∀ l c : Nat, l < 2 → c < 8 → sampleY false pic l c = sampleY false pic2 l c) ∧
      (∀ l i : Nat, l < 2 → i < (8 + 1) / 2 →
        sampleU false pic l i = sampleU false pic2 l i ∧
        sampleV false pic l i = sampleV false pic2 l i) := by
  have hagree : ∀ l i : Nat, l < 2 → i < 4 * (8 * 8 / 3 / 4) →
      (rampPacket 42 11 37).getD (l * (8 * 8 / 3) + i) 0
        = rampPacketVariant.getD (l * (8 * 8 / 3) + i) 0 := by
    intro l i hl hi
    have hi20 : i < 20 := hi
    interval_cases l <;> interval_cases i <;> rfl
  obtain ⟨hc, out, pic, out2, pic2, h1, h2, h3, h4, h5, h6, h7, h8⟩ :=
    words_consumed_per_row false (-1094995529) (-1094995529) 8 2 false true
      (rampPacket 42 11 37) rampPacketVariant (0, filledPicture 0xAA 16 8 8)
      (0, filledPicture 0x55 32 16 16) (by decide) (by decide) (by decide) (by decide)
      (by decide) (by decide) (by decide) (by decide) (by decide) (by decide) (by decide)
      (by decide) (by decide) (by decide) (by decide) hagree
  obtain ⟨-, -, wu, wy, wv⟩ := (h6 1 4 (by decide) (by decide)).1 (by decide)
  exact ⟨hc, out, pic, out2, pic2, h1, h2, h3, h4, h5.trans (by decide), wu, wy, wv, h7, h8⟩

end Zero12v
